import Mathlib

/-!
# mkvtoolnix: WAV reader (`src/input/r_wav.cpp`) and AAC packetizer (`src/output/p_aac.cpp`)

A shallow embedding of the two translation units and the properties proved about them.

Conventions of the embedding.

* A byte is a natural number below 256; memory areas are lists of bytes.
* C `int`/`int64_t` values are integers; the timestamps and counters of the packetizer are taken
  in the range where no 64-bit overflow happens.
* A `double` is the rational number it denotes; a floating-point operation is the exact
  operation followed by the rounding to binary64 (`round_binary64`: 53 significant bits, round
  to nearest, ties to even); the conversion `(int64_t)x` is truncation toward zero.  Two
  places are kept exact: the sum of a timecode and the displacement (an integer sum in the
  program when the displacement is a count of time units), and the frame duration `pins` of
  `get_aac_packet`, which is only handed to the displacement helpers.
* Functions of the repository that live outside these two files (`find_dts_header`,
  `dts_14_to_dts_16`, `find_aac_header`, the displacement helpers of `generic_packetizer_c`)
  are parameters of the model (`dts_common`, `aac_env`), and so are the constants of
  aac_common (`aac_constants`).  Where a statement needs their
  behaviour, they are instantiated after the specification (`spec_find_aac_header`,
  `spec_env`); the `sample_...` definitions are concrete instances on which the model is run.
* Loops are functions with a bound on the number of iterations; a run that uses up the bound
  ends in `run_result.out_of_fuel`.
-/

namespace Mkvtoolnix

/-! ## The file object `mm_io_c` -/

/-- Modelled from the spec: the file object `mm_io_c` (common, not among the sources), after
sections 4.6 and 5 (a read returns fully, partially, or signals the end of the data): the
bytes of the file, the read position, whether the underlying I/O fails (every operation
on such a file throws), and whether a read has signalled the end of the data since the last
seek (`eof_flag`). -/
structure mm_io_c where
  data : List Nat
  pos : Nat
  broken : Bool
  eof_flag : Bool := false
deriving DecidableEq, Repr

/-- Modelled from the spec: the call `setFilePointer(off, seek_beginning)` of `mm_io_c`; a
seek withdraws the end-of-data signal. -/
def mm_io_c.setFilePointer (io : mm_io_c) (off : Nat) : mm_io_c :=
  { io with pos := off, eof_flag := false }

/-- Modelled from the spec: the call `setFilePointer(0, seek_end)` of `mm_io_c`. -/
def mm_io_c.seekEnd (io : mm_io_c) : mm_io_c :=
  { io with pos := io.data.length, eof_flag := false }

/-- Modelled from the spec: the call `getFilePointer()` of `mm_io_c`. -/
def mm_io_c.getFilePointer (io : mm_io_c) : Nat := io.pos

/-- Modelled from the spec: the call `read(buffer, n)` of `mm_io_c`: the bytes delivered (fewer
than `n` at the end of the file) and the file with its position advanced; a read that
delivers fewer bytes than asked for signals the end of the data. -/
def mm_io_c.read (io : mm_io_c) (n : Nat) : List Nat × mm_io_c :=
  let got := (io.data.drop io.pos).take n
  (got, { io with pos := io.pos + got.length,
                  eof_flag := io.eof_flag || decide (got.length < n) })

/-- Modelled from the spec: the call `eof()` of `mm_io_c`: whether a read has signalled the
end of the data. -/
def mm_io_c.eof (io : mm_io_c) : Bool := io.eof_flag

/-! ## The WAVE header -/

/-- Modelled from the spec: the value of `sizeof(wave_header)` for the record `wave_header` of
avilib (not among the sources), after section 6: riff chunk (12 bytes), format chunk header
(8), common format fields (16), data chunk header (8). -/
def sizeof_wave_header : Nat := 44

/-- Modelled from the spec: the header record `wave_header` of avilib (not among the sources),
kept as its raw bytes; the fields below sit at the offsets of the canonical 44-byte layout of
section 6. -/
structure wave_header where
  raw : List Nat
deriving DecidableEq, Repr

/-- Bytes `[off, off+len)` of the header. -/
def wave_header.field (w : wave_header) (off len : Nat) : List Nat :=
  (w.raw.drop off).take len

/-- Field `riff.id`. -/
def wave_header.riff_id (w : wave_header) : List Nat := w.field 0 4
/-- Field `riff.len`. -/
def wave_header.riff_len (w : wave_header) : List Nat := w.field 4 4
/-- Field `riff.wave_id`. -/
def wave_header.riff_wave_id (w : wave_header) : List Nat := w.field 8 4
/-- Field `common.wChannels`. -/
def wave_header.wChannels (w : wave_header) : List Nat := w.field 22 2
/-- Field `common.dwSamplesPerSec`. -/
def wave_header.dwSamplesPerSec (w : wave_header) : List Nat := w.field 24 4
/-- Field `common.wBitsPerSample`. -/
def wave_header.wBitsPerSample (w : wave_header) : List Nat := w.field 34 2
/-- Field `data.id`. -/
def wave_header.data_id (w : wave_header) : List Nat := w.field 36 4

/-- Modelled from the spec: the little-endian 16-bit read `get_uint16` (common, not among the
sources), after section 4.1. -/
def get_uint16 (p : List Nat) : Nat := p.getD 0 0 + 256 * p.getD 1 0

/-- Modelled from the spec: the little-endian 32-bit read `get_uint32` (common, not among the
sources), after section 4.1. -/
def get_uint32 (p : List Nat) : Nat :=
  p.getD 0 0 + 256 * p.getD 1 0 + 65536 * p.getD 2 0 + 16777216 * p.getD 3 0

/-- The C library function `strncmp(s1, s2, n)` on byte strings: compares at most `n`
characters and stops after a terminating NUL. -/
def strncmp : List Nat → List Nat → Nat → Int
  | _, _, 0 => 0
  | a :: as, b :: bs, n + 1 =>
      if a ≠ b then (a : Int) - (b : Int)
      else if a = 0 then 0
      else strncmp as bs n
  | _, _, _ + 1 => 0

/-- The string literal `"RIFF"` with its terminating NUL. -/
def lit_RIFF : List Nat := [82, 73, 70, 70, 0]
/-- The string literal `"WAVE"` with its terminating NUL. -/
def lit_WAVE : List Nat := [87, 65, 86, 69, 0]
/-- The string literal `"data"` with its terminating NUL. -/
def lit_data : List Nat := [100, 97, 116, 97, 0]

/-- Function `wav_reader_c::probe_file(mm_io, size)`: the result and the file as left behind.
`size` is a file size (the callers pass the position reached by seeking to the end). -/
def probe_file (io : mm_io_c) (size : Nat) : Nat × mm_io_c :=
  if size < sizeof_wave_header then (0, io)
  else if io.broken then (0, io)
  else
    let io1 := io.setFilePointer 0
    let r := io1.read sizeof_wave_header
    if r.1.length ≠ sizeof_wave_header then (0, r.2)
    else
      let io2 := r.2.setFilePointer 0
      let wheader : wave_header := ⟨r.1⟩
      if strncmp wheader.riff_id lit_RIFF 4 ≠ 0 ∨
         strncmp wheader.riff_wave_id lit_WAVE 4 ≠ 0 ∨
         strncmp wheader.data_id lit_data 4 ≠ 0 then (0, io2)
      else (1, io2)

/-! ## The embedded-format detector and the reader -/

/-- The functions and constants of `dts_common` used by the reader, with `H` the type of the
parsed header `dts_header_t`.  `find_dts_header` is given the window of `size` bytes it is
called on and yields its return value (negative: no header); `find_dts_header_out` is what the
call leaves in `*dtsheader`.  `dts_14_to_dts_16` maps the `srcwords` source words (as bytes) to
the bytes it stores at the destination. -/
structure dts_common (H : Type) where
  max_dts_packet_size : Nat
  find_dts_header : List Nat → Int
  find_dts_header_out : List Nat → H → H
  dts_14_to_dts_16 : List Nat → List Nat
  EMOREDATA : Int

/-- A store of the bytes `src` at the start of the area `dst` (as done by `memcpy` and by the
functions filling a buffer); the bytes of `dst` behind them keep their value. -/
def memwrite (dst src : List Nat) : List Nat := src ++ dst.drop src.length

/-- The bytes the C library function `swab` stores: adjacent bytes exchanged, an odd last byte
left out. -/
def swab_bytes : List Nat → List Nat
  | a :: b :: rest => b :: a :: swab_bytes rest
  | _ => []

/-- The locals of the detection block of the constructor together with the members it sets.
`buf0` and `buf1` are the two scratch areas `buf[0]` and `buf[1]`. -/
structure dts_probe (H : Type) where
  buf0 : List Nat
  buf1 : List Nat
  cur_buf : Nat
  is_dts : Bool
  dts_swap_bytes : Nat
  dts_14_16 : Nat
  dtsheader : H

/-- The area `buf[i]`. -/
def dts_probe.buf {H : Type} (st : dts_probe H) (i : Nat) : List Nat :=
  if i = 0 then st.buf0 else st.buf1

/-- The area `buf[i]` replaced by `b`. -/
def dts_probe.setBuf {H : Type} (st : dts_probe H) (i : Nat) (b : List Nat) : dts_probe H :=
  if i = 0 then { st with buf0 := b } else { st with buf1 := b }

/-- The body of the loop over `dts_14_16` (r_wav.cpp lines 119-128). -/
def dts_14_16_body {H : Type} (env : dts_common H) (rlen : Nat) (st : dts_probe H) :
    dts_probe H :=
  let erlen := rlen
  let st1 :=
    if st.dts_14_16 ≠ 0 then
      let words := rlen / 16
      let out := env.dts_14_to_dts_16 ((st.buf st.cur_buf).take (words * 8 * 2))
      { st.setBuf (st.cur_buf ^^^ 1) (memwrite (st.buf (st.cur_buf ^^^ 1)) out) with
        cur_buf := st.cur_buf ^^^ 1 }
    else st
  let window := (st1.buf st1.cur_buf).take erlen
  let st2 := { st1 with dtsheader := env.find_dts_header_out window st1.dtsheader }
  if 0 ≤ env.find_dts_header window then { st2 with is_dts := true } else st2

/-- The loop `for (...; dts_14_16 < 2; dts_14_16++)` after its initialisation; the first
argument bounds the number of iterations. -/
def dts_14_16_loop {H : Type} (env : dts_common H) (rlen : Nat) :
    Nat → dts_probe H → dts_probe H
  | 0, st => st
  | fuel + 1, st =>
      if st.dts_14_16 < 2 then
        let st1 := dts_14_16_body env rlen st
        dts_14_16_loop env rlen fuel { st1 with dts_14_16 := st1.dts_14_16 + 1 }
      else st

/-- The body of the loop over `dts_swap_bytes` up to the test `if (is_dts) break`
(r_wav.cpp lines 111-129). -/
def dts_swap_bytes_body {H : Type} (env : dts_common H) (obuf : List Nat) (rlen : Nat)
    (st : dts_probe H) : dts_probe H :=
  let st1 := st.setBuf st.cur_buf (memwrite (st.buf st.cur_buf) (obuf.take rlen))
  let st2 :=
    if st1.dts_swap_bytes ≠ 0 then
      { st1.setBuf (st1.cur_buf ^^^ 1)
          (memwrite (st1.buf (st1.cur_buf ^^^ 1)) (swab_bytes ((st1.buf st1.cur_buf).take rlen)))
        with cur_buf := st1.cur_buf ^^^ 1 }
    else st1
  dts_14_16_loop env rlen 3 { st2 with dts_14_16 := 0 }

/-- The loop `for (...; dts_swap_bytes < 2; dts_swap_bytes++)` after its initialisation, with
its `break`; the first argument bounds the number of iterations. -/
def dts_swap_bytes_loop {H : Type} (env : dts_common H) (obuf : List Nat) (rlen : Nat) :
    Nat → dts_probe H → dts_probe H
  | 0, st => st
  | fuel + 1, st =>
      if st.dts_swap_bytes < 2 then
        let st1 := dts_swap_bytes_body env obuf rlen st
        if st1.is_dts then st1
        else dts_swap_bytes_loop env obuf rlen fuel
          { st1 with dts_swap_bytes := st1.dts_swap_bytes + 1 }
      else st

/-- The detection block of the constructor (r_wav.cpp lines 101-134) on the probe bytes `obuf`
read after the header; `scratch0`, `scratch1` and `hdr0` are what the uninitialised areas
`buf[0]`, `buf[1]` and the member `dtsheader` hold beforehand. -/
def detect_dts {H : Type} (env : dts_common H) (obuf scratch0 scratch1 : List Nat) (hdr0 : H) :
    dts_probe H :=
  dts_swap_bytes_loop env obuf obuf.length 3
    { buf0 := scratch0, buf1 := scratch1, cur_buf := 0, is_dts := false,
      dts_swap_bytes := 0, dts_14_16 := 0, dtsheader := hdr0 }

/-- The packetizers a reader creates. -/
inductive packetizer (H : Type) where
  | pcm (samples_per_sec channels bits_per_sample : Nat)
  | dts (dtsheader : H) (skipping_is_normal : Bool)

/-- The calls a reader makes on its packetizer `PTZR0`. -/
inductive ptzr_call where
  | process (mem : List Nat)
  | flush
deriving DecidableEq, Repr

/-- The members of `wav_reader_c`; `ptzrs` is the list of packetizers of the reader and `calls`
the calls made on `PTZR0` so far. -/
structure wav_reader_c (H : Type) where
  mm_io : mm_io_c
  wheader : wave_header
  bps : Nat
  bytes_processed : Nat
  is_dts : Bool
  dts_swap_bytes : Nat
  dts_14_16 : Nat
  dtsheader : H
  ptzrs : List (packetizer H)
  calls : List ptzr_call

/-- The member `bps` as the constructor computes it: the product is formed in 32-bit
arithmetic, then divided by 8. -/
def compute_bps (w : wave_header) : Nat :=
  (get_uint16 w.wChannels * get_uint16 w.wBitsPerSample * get_uint32 w.dwSamplesPerSec)
    % 2 ^ 32 / 8

/-- The constructor `wav_reader_c::wav_reader_c` on the opened source file; an `error_c` thrown
is the `Except.error` result.  `scratch0`, `scratch1`, `hdr0` are the prior contents of the
uninitialised scratch areas and of `dtsheader`. -/
def wav_reader_c.create {H : Type} (env : dts_common H) (file : mm_io_c)
    (scratch0 scratch1 : List Nat) (hdr0 : H) : Except String (wav_reader_c H) :=
  if file.broken then .error "wav_reader: Could not open the source file."
  else
    let size := file.seekEnd.getFilePointer
    let io0 := file.seekEnd.setFilePointer 0
    let p := probe_file io0 size
    if p.1 = 0 then .error "wav_reader: Source is not a valid WAVE file."
    else
      let r := p.2.read sizeof_wave_header
      if r.1.length ≠ sizeof_wave_header then .error "wav_reader: could not read WAVE header."
      else
        let wheader : wave_header := ⟨r.1⟩
        let pr := r.2.read env.max_dts_packet_size
        let io1 := pr.2.setFilePointer sizeof_wave_header
        let d := detect_dts env pr.1 scratch0 scratch1 hdr0
        .ok { mm_io := io1, wheader := wheader, bps := compute_bps wheader,
              bytes_processed := 0, is_dts := d.is_dts,
              dts_swap_bytes := d.dts_swap_bytes, dts_14_16 := d.dts_14_16,
              dtsheader := d.dtsheader, ptzrs := [], calls := [] }

/-- The method `wav_reader_c::create_packetizer`. -/
def wav_reader_c.create_packetizer {H : Type} (r : wav_reader_c H) : wav_reader_c H :=
  if r.ptzrs.length ≠ 0 then r
  else if ¬ r.is_dts then
    { r with ptzrs := r.ptzrs ++
        [packetizer.pcm (get_uint32 r.wheader.dwSamplesPerSec) (get_uint16 r.wheader.wChannels)
          (get_uint16 r.wheader.wBitsPerSample)] }
  else
    { r with ptzrs := r.ptzrs ++ [packetizer.dts r.dtsheader true] }

/-- The method `wav_reader_c::read`: the return value and the reader afterwards.  `scratch0`
and `scratch1` are the prior contents of the local scratch areas `buf[0]` and `buf[1]`. -/
def wav_reader_c.read {H : Type} (env : dts_common H) (r : wav_reader_c H)
    (scratch0 scratch1 : List Nat) : Int × wav_reader_c H :=
  if ¬ r.is_dts then
    let rd := r.mm_io.read r.bps
    let nread := rd.1.length
    if nread ≤ 0 then
      (0, { r with mm_io := rd.2, calls := r.calls ++ [ptzr_call.flush] })
    else
      let r1 := { r with mm_io := rd.2, calls := r.calls ++ [ptzr_call.process rd.1],
                         bytes_processed := r.bytes_processed + nread }
      if nread ≠ r.bps then (0, { r1 with calls := r1.calls ++ [ptzr_call.flush] })
      else if rd.2.eof then (0, r1)
      else (env.EMOREDATA, r1)
  else
    let rd := r.mm_io.read env.max_dts_packet_size
    let rlen := rd.1.length
    let b0 := memwrite scratch0 rd.1
    if rlen ≤ 0 then
      (0, { r with mm_io := rd.2, calls := r.calls ++ [ptzr_call.flush] })
    else
      let s1 : List Nat × List Nat × Nat :=
        if r.dts_swap_bytes ≠ 0 then (b0, memwrite scratch1 (swab_bytes (b0.take rlen)), 1)
        else (b0, scratch1, 0)
      let src := if s1.2.2 = 0 then s1.1 else s1.2.1
      let dst := if s1.2.2 = 0 then s1.2.1 else s1.1
      let words := rlen / 16
      let cur : List Nat × Nat :=
        if r.dts_14_16 ≠ 0 then
          (memwrite dst (env.dts_14_to_dts_16 (src.take (words * 8 * 2))), words * 7 * 2)
        else (src, rlen)
      let r1 := { r with mm_io := rd.2,
                         calls := r.calls ++ [ptzr_call.process (cur.1.take cur.2)],
                         bytes_processed := r.bytes_processed + rlen }
      if rlen ≠ env.max_dts_packet_size then
        (0, { r1 with calls := r1.calls ++ [ptzr_call.flush] })
      else (env.EMOREDATA, r1)

/-! ### The four trial windows of the detector -/

/-- The destination area `dst` after `dts_14_to_dts_16(src, (rlen / 16) * 8, dst)`. -/
def expand_into {H : Type} (env : dts_common H) (dst src : List Nat) (rlen : Nat) : List Nat :=
  memwrite dst (env.dts_14_to_dts_16 (src.take (rlen / 16 * 8 * 2)))

/-- The area `find_dts_header` is called on in the first trial (no byte swap, no expansion):
the first `rlen` bytes of `buf[0]` after the copy of the probe bytes. -/
def window_plain (obuf scratch0 : List Nat) : List Nat :=
  (memwrite scratch0 obuf).take obuf.length

/-- The area `find_dts_header` is called on in the second trial (expansion only): the first
`rlen` bytes of `buf[1]` after the expansion of `buf[0]` into it, that is, the bytes the
expansion has stored followed by what `buf[1]` held before. -/
def window_expanded {H : Type} (env : dts_common H) (obuf scratch0 scratch1 : List Nat) :
    List Nat :=
  (expand_into env scratch1 (memwrite scratch0 obuf) obuf.length).take obuf.length

/-- The area `buf[0]` during the trials with byte swap: `swab` has stored the swapped copy of
`buf[1]`, which holds the probe bytes again. -/
def swapped_area {H : Type} (env : dts_common H) (obuf scratch0 scratch1 : List Nat) :
    List Nat :=
  memwrite (memwrite scratch0 obuf)
    (swab_bytes ((memwrite (expand_into env scratch1 (memwrite scratch0 obuf) obuf.length)
      obuf).take obuf.length))

/-- The area `find_dts_header` is called on in the third trial (byte swap only): the first
`rlen` bytes of `buf[0]` after `swab`. -/
def window_swapped {H : Type} (env : dts_common H) (obuf scratch0 scratch1 : List Nat) :
    List Nat :=
  (swapped_area env obuf scratch0 scratch1).take obuf.length

/-- The area `find_dts_header` is called on in the fourth trial (byte swap and expansion):
the first `rlen` bytes of `buf[1]` after the expansion of the swapped area into it, that is,
the bytes the expansion has stored followed by the probe bytes the `memcpy` had left in
`buf[1]`. -/
def window_swapped_expanded {H : Type} (env : dts_common H)
    (obuf scratch0 scratch1 : List Nat) : List Nat :=
  (expand_into env
    (memwrite (expand_into env scratch1 (memwrite scratch0 obuf) obuf.length) obuf)
    (swapped_area env obuf scratch0 scratch1) obuf.length).take obuf.length

/-- The probe window expanded, as the specification words the second trial: what
`dts_14_to_dts_16` stores for the whole groups of 8 words of the probe bytes. -/
def probe_expanded {H : Type} (env : dts_common H) (probe : List Nat) : List Nat :=
  env.dts_14_to_dts_16 (probe.take (probe.length / 16 * 8 * 2))

/-- The probe window byte-swapped, as the specification words the third trial. -/
def probe_swapped (probe : List Nat) : List Nat := swab_bytes probe

/-- The probe window byte-swapped and expanded, as the specification words the fourth
trial. -/
def probe_swapped_expanded {H : Type} (env : dts_common H) (probe : List Nat) : List Nat :=
  probe_expanded env (probe_swapped probe)

/-- The probe bytes of a file: what the constructor reads behind the header. -/
def probe_bytes {H : Type} (env : dts_common H) (file : mm_io_c) : List Nat :=
  (file.data.drop sizeof_wave_header).take env.max_dts_packet_size

/-- A sample instance of the `dts_common` parameters, used to run the model on concrete files:
a 16-byte probe window, a header search that accepts a window starting with the bytes
`7F FE`, and a stand-in expansion keeping 14 of every 16 bytes. -/
def sample_dts_common : dts_common Unit where
  max_dts_packet_size := 16
  find_dts_header := fun w => if w.take 2 = [127, 254] then 0 else -1
  find_dts_header_out := fun _ h => h
  dts_14_to_dts_16 := fun src => src.take (src.length / 16 * 14)
  EMOREDATA := -1

/-- A sample WAVE header: 2 channels, 44100 Hz, 16 bits. -/
def sample_wave_header : List Nat :=
  [82, 73, 70, 70, 52, 0, 0, 0, 87, 65, 86, 69, 102, 109, 116, 32, 16, 0, 0, 0, 1, 0, 2, 0,
   68, 172, 0, 0, 16, 177, 2, 0, 4, 0, 16, 0, 100, 97, 116, 97, 16, 0, 0, 0]

/-- A sample file whose payload starts with the bytes `7F FE`. -/
def sample_dts_file : mm_io_c :=
  { data := sample_wave_header ++ [127, 254, 128, 1, 1, 2, 3, 4, 5, 6, 7, 8, 9, 10, 11, 12],
    pos := 0, broken := false }

/-- A sample file with a payload on which the sample header search fails. -/
def sample_pcm_file : mm_io_c :=
  { data := sample_wave_header ++ [0, 1, 2, 3, 4, 5, 6, 7, 8, 9, 10, 11, 12, 13, 14, 15],
    pos := 0, broken := false }

/-! ## Binary64 arithmetic

The `double` values of the program are the rational numbers they denote.  An operation on
doubles is the exact operation followed by `round_binary64`, the rounding of IEEE 754 binary64
(53 significant bits, round to nearest, ties to even, gradual underflow).  Results of magnitude
`2^1024` and beyond (infinities in the program) and divisions by zero are outside the model. -/

/-- The power `2^k` for an integer exponent `k`. -/
def pow2 (k : Int) : ℚ :=
  if 0 ≤ k then ((2 ^ k.toNat : Nat) : ℚ) else 1 / ((2 ^ (-k).toNat : Nat) : ℚ)

/-- The search for the binary exponent of `a ≥ 1`, upward from `e`. -/
def exponent_up : Nat → Int → ℚ → Int
  | 0, e, _ => e
  | fuel + 1, e, a => if a < pow2 (e + 1) then e else exponent_up fuel (e + 1) a

/-- The search for the binary exponent of `0 < a < 1`, downward from `e`. -/
def exponent_down : Nat → Int → ℚ → Int
  | 0, e, _ => e
  | fuel + 1, e, a => if pow2 e ≤ a then e else exponent_down fuel (e - 1) a

/-- The binary exponent of a positive rational `a`: the integer `e` with
`2^e ≤ a < 2^(e+1)`. -/
def binary_exponent (a : ℚ) : Int :=
  if 1 ≤ a then exponent_up a.num.natAbs 0 a else exponent_down a.den (-1) a

/-- The integer nearest to `m`, the even one of the two when `m` lies halfway. -/
def round_half_even (m : ℚ) : Int :=
  let f : Int := m.num / m.den
  let r : ℚ := m - f
  if r < 1 / 2 then f
  else if 1 / 2 < r then f + 1
  else if f % 2 = 0 then f else f + 1

/-- The exponent of the last significant bit of the binary64 values around the positive
rational `a`: 52 below the binary exponent of `a`, and at least `-1074`. -/
def ulp_exponent (a : ℚ) : Int := max (binary_exponent a - 52) (-1074)

/-- The binary64 value nearest to `x` (ties to even): `x` is rounded to a multiple of
`2^k`, where `k` is the exponent of the last of the 53 significant bits
(`ulp_exponent`). -/
def round_binary64 (x : ℚ) : ℚ :=
  if x = 0 then 0
  else
    let k := ulp_exponent |x|
    let n := round_half_even (|x| / pow2 k)
    if x < 0 then -((n : ℚ) * pow2 k) else (n : ℚ) * pow2 k

/-- The product of two doubles. -/
def double_mul (a b : ℚ) : ℚ := round_binary64 (a * b)

/-- The quotient of two doubles. -/
def double_div (a b : ℚ) : ℚ := round_binary64 (a / b)

/-- The conversion of an integer value to `double`. -/
def double_of_int (n : Int) : ℚ := round_binary64 n

/-- The conversion `(int64_t)x` of a `double`: truncation toward zero. -/
def to_int64 (x : ℚ) : Int := Int.tdiv x.num x.den

/-! ## The AAC packetizer `aac_packetizer_c` -/

/-- The fields of `aac_header_t` the packetizer reads. -/
structure aac_header_t where
  bytes : Int
  header_bit_size : Int
  header_byte_size : Int
  data_byte_size : Int
deriving DecidableEq, Repr

/-- A packet as handed to `add_packet`: payload, timecode, duration. -/
structure packet_t where
  data : List Nat
  timecode : Int
  duration : Int
deriving DecidableEq, Repr

/-- What the packetizer uses from outside `p_aac.cpp`, with `σ` the synchronisation state kept
by the base class `generic_packetizer_c` (it contains `ti->async.displacement`).
`find_aac_header buf emphasis_present` yields the return value (negative: nothing found) and
the header stored through the pointer argument; `displacement` reads
`ti->async.displacement`. -/
structure aac_env (σ : Type) where
  find_aac_header : List Nat → Bool → Int × aac_header_t
  displacement : σ → ℚ
  needs_negative_displacement : σ → ℚ → Bool
  needs_positive_displacement : σ → ℚ → Bool
  displace : σ → ℚ → σ

/-- The members of `aac_packetizer_c` and the parts of its base class that the functions below
touch: `linear` is `ti->async.linear`, `async` the synchronisation state, `packet_queue` the
packets handed to `add_packet`, in order. -/
structure aac_packetizer_c (σ : Type) where
  packetno : Int
  bytes_output : Int
  samples_per_sec : Nat
  channels : Int
  id : Int
  profile : Int
  headerless : Bool
  emphasis_present : Bool
  num_packets_same_tc : Int
  last_timecode : Int
  byte_buffer : List Nat
  linear : ℚ
  async : σ
  packet_queue : List packet_t
  track_default_duration : Int

/-- The constructor `aac_packetizer_c::aac_packetizer_c`; `linear` and `async` are the
synchronisation settings of the track info `nti`, and `track_default_duration` is the value
passed to `set_track_default_duration`. -/
def aac_packetizer_c.create {σ : Type} (nid nprofile : Int) (nsamples_per_sec : Nat)
    (nchannels : Int) (linear : ℚ) (async : σ) (nemphasis_present nheaderless : Bool) :
    aac_packetizer_c σ :=
  { packetno := 0, bytes_output := 0, samples_per_sec := nsamples_per_sec,
    channels := nchannels, id := nid, profile := nprofile, headerless := nheaderless,
    emphasis_present := nemphasis_present, num_packets_same_tc := 0, last_timecode := -1,
    byte_buffer := [], linear := linear, async := async, packet_queue := [],
    track_default_duration :=
      to_int64 (double_div (double_mul (double_mul 1024 1000000000) linear)
        (double_of_int nsamples_per_sec)) }

/-- Modelled from the spec: the call `add_packet(mem, timecode, duration)` of
`generic_packetizer_c` (pr_generic, not among the sources), after section 6: the packet with
its payload, timestamp and duration is handed to the consumer. -/
def aac_packetizer_c.add_packet {σ : Type} (st : aac_packetizer_c σ) (mem : List Nat)
    (timecode duration : Int) : aac_packetizer_c σ :=
  { st with packet_queue := st.packet_queue ++ [⟨mem, timecode, duration⟩] }

/-- Modelled from the spec: the call `byte_buffer.remove(num)` of the accumulator
`byte_buffer_c` (common, not among the sources), after section 4.3: it fails when asked for
more bytes than it holds and drops the first `num` bytes otherwise.  (`byte_buffer.add` is the
append at the end and `get_size` the length.) -/
def byte_buffer_remove (buf : List Nat) (num : Int) : Except String (List Nat) :=
  if (buf.length : Int) < num then .error "byte_buffer_c: num > size"
  else .ok (buf.drop num.toNat)

/-- The copy loop of `get_aac_packet` for a header that is not byte aligned (p_aac.cpp lines
97-107): the freshly allocated area of `n` bytes after the loop; `src` are the bytes from the
source pointer on. -/
def shift_copy (src : List Nat) (up_shift down_shift n : Nat) : List Nat :=
  let buf0 := (List.replicate n 0).set 0 ((src.getD 0 0 <<< up_shift) % 256)
  (List.range' 1 (n - 1)).foldl
    (fun buf i =>
      let buf1 := buf.set (i - 1) (buf.getD (i - 1) 0 ||| (src.getD i 0 >>> down_shift))
      buf1.set i ((src.getD i 0 <<< up_shift) % 256))
    buf0

/-- The payload extraction of `get_aac_packet` (p_aac.cpp lines 90-108) for a header found at
offset `pos` of `packet_buffer`. -/
def extract_payload (packet_buffer : List Nat) (pos : Int) (aacheader : aac_header_t) :
    List Nat :=
  if aacheader.header_bit_size.tmod 8 = 0 then
    (packet_buffer.drop (pos + aacheader.header_byte_size).toNat).take
      aacheader.data_byte_size.toNat
  else
    let up_shift := aacheader.header_bit_size.tmod 8
    let down_shift := 8 - up_shift
    let src := packet_buffer.drop (pos + aacheader.header_bit_size.tdiv 8).toNat
    shift_copy src up_shift.toNat down_shift.toNat aacheader.data_byte_size.toNat

/-- The method `aac_packetizer_c::get_aac_packet`: the returned packet (`none` for `NULL`), the
header left in `*aacheader`, and the packetizer afterwards; `Except.error` when the
accumulator dies. -/
def get_aac_packet {σ : Type} (env : aac_env σ) (st : aac_packetizer_c σ) :
    Except String (Option (List Nat) × aac_header_t × aac_packetizer_c σ) :=
  let packet_buffer := st.byte_buffer
  let size : Int := packet_buffer.length
  let found := env.find_aac_header packet_buffer st.emphasis_present
  let pos := found.1
  let aacheader := found.2
  if pos < 0 then .ok (none, aacheader, st)
  else if pos + aacheader.bytes > size then .ok (none, aacheader, st)
  else
    let pins : ℚ := 1024 * 1000000000 / st.samples_per_sec
    if env.needs_negative_displacement st.async pins then
      let st1 := { st with async := env.displace st.async (-pins) }
      match byte_buffer_remove st1.byte_buffer (pos + aacheader.bytes) with
      | .error e => .error e
      | .ok b => .ok (none, aacheader, { st1 with byte_buffer := b })
    else
      let buf := extract_payload packet_buffer pos aacheader
      if env.needs_positive_displacement st.async pins then
        .ok (some buf, aacheader, { st with async := env.displace st.async pins })
      else
        match byte_buffer_remove st.byte_buffer (pos + aacheader.bytes) with
        | .error e => .error e
        | .ok b => .ok (some buf, aacheader, { st with byte_buffer := b })

/-- How a run of `process` ends: it returns, the process dies, or the bound on the number of
loop iterations given to the model is used up. -/
inductive run_result (α : Type) where
  | returned (a : α)
  | died (msg : String)
  | out_of_fuel

/-- The loop `while (needs_positive_displacement(duration))` of the headerless branch of
`process` (p_aac.cpp lines 198-201). -/
def duplicate_loop {σ : Type} (env : aac_env σ) (mem : List Nat) (my_timecode duration : Int) :
    Nat → aac_packetizer_c σ → run_result (aac_packetizer_c σ)
  | 0, _ => .out_of_fuel
  | fuel + 1, st =>
      if env.needs_positive_displacement st.async duration then
        let st1 := st.add_packet mem (to_int64 (my_timecode + env.displacement st.async)) duration
        duplicate_loop env mem my_timecode duration fuel
          { st1 with async := env.displace st1.async duration }
      else .returned st

/-- The computation of `my_timecode` at the start of the headerless branch of `process`
(p_aac.cpp lines 176-189): its value, and the packetizer with the repeat counter and the last
timecode updated. -/
def headerless_timecode {σ : Type} (st : aac_packetizer_c σ) (timecode : Int) :
    Int × aac_packetizer_c σ :=
  if timecode ≠ -1 then
    if st.last_timecode = timecode then
      let st1 := { st with num_packets_same_tc := st.num_packets_same_tc + 1 }
      (timecode + to_int64 (double_div
          (double_mul (double_of_int (st1.num_packets_same_tc * 1024)) 1000000000)
          (double_of_int st1.samples_per_sec)),
        st1)
    else (timecode, { st with last_timecode := timecode, num_packets_same_tc := 0 })
  else (to_int64 (double_div
      (double_mul (double_mul 1024 1000000000) (double_of_int st.packetno))
      (double_of_int st.samples_per_sec)), st)

/-- The headerless branch of `process` (p_aac.cpp lines 175-211). -/
def process_headerless {σ : Type} (env : aac_env σ) (fuel : Nat) (st : aac_packetizer_c σ)
    (mem : List Nat) (timecode : Int) : run_result (aac_packetizer_c σ) :=
  let r := headerless_timecode st timecode
  let my_timecode := r.1
  let duration := to_int64 (double_div (double_mul (double_mul 1024 1000000000) r.2.linear)
    (double_of_int r.2.samples_per_sec))
  let st2 := { r.2 with packetno := r.2.packetno + 1 }
  if env.needs_negative_displacement st2.async duration then
    .returned { st2 with async := env.displace st2.async (-(duration : ℚ)) }
  else
    match duplicate_loop env mem my_timecode duration fuel st2 with
    | .returned st3 =>
        let my_timecode1 :=
          to_int64 (double_mul (round_binary64 (my_timecode + env.displacement st3.async))
            st3.linear)
        .returned (st3.add_packet mem my_timecode1 duration)
    | .died e => .died e
    | .out_of_fuel => .out_of_fuel

/-- The loop `while ((packet = get_aac_packet(...)) != NULL)` of `process`
(p_aac.cpp lines 214-226). -/
def packet_loop {σ : Type} (env : aac_env σ) (timecode : Int) :
    Nat → aac_packetizer_c σ → run_result (aac_packetizer_c σ)
  | 0, _ => .out_of_fuel
  | fuel + 1, st =>
      match get_aac_packet env st with
      | .error e => .died e
      | .ok (none, _, st1) => .returned st1
      | .ok (some packet, _, st1) =>
          let my_timecode0 : Int :=
            if timecode = -1 then
              to_int64 (double_div
                (double_mul (double_mul 1024 1000000000) (double_of_int st1.packetno))
                (double_of_int st1.samples_per_sec))
            else to_int64 (timecode + env.displacement st1.async)
          let my_timecode := to_int64 (double_mul (double_of_int my_timecode0) st1.linear)
          let st2 := st1.add_packet packet my_timecode
            (to_int64 (double_div (double_mul (double_mul 1024 1000000000) st1.linear)
              (double_of_int st1.samples_per_sec)))
          packet_loop env timecode fuel { st2 with packetno := st2.packetno + 1 }

/-- The method `aac_packetizer_c::process(mem, timecode)`; `fuel` bounds the number of
iterations of its loop. -/
def process {σ : Type} (env : aac_env σ) (fuel : Nat) (st : aac_packetizer_c σ)
    (mem : List Nat) (timecode : Int) : run_result (aac_packetizer_c σ) :=
  if st.headerless then process_headerless env fuel st mem timecode
  else packet_loop env timecode fuel { st with byte_buffer := st.byte_buffer ++ mem }

/-- The area after the iterations `i = 1 .. m` of the copy loop of `shift_copy`, in closed
form: the bytes before `m` are complete, byte `m` still lacks the bits of its successor. -/
def shift_copy_after (src : List Nat) (up_shift down_shift n m : Nat) : List Nat :=
  (List.range n).map fun j =>
    if j < m then ((src.getD j 0 <<< up_shift) % 256) ||| (src.getD (j + 1) 0 >>> down_shift)
    else if j = m then (src.getD j 0 <<< up_shift) % 256
    else 0

/-! ### The helpers outside `p_aac.cpp`, after the specification -/

/-- Modelled from the spec: the function `find_aac_header` of aac_common (not among the
sources), after section 4.4: the search runs from offset 0 to the first position at which a
frame header validates.  `parse bytes emphasis_present` is the validation of a header at the
start of `bytes`; `scan_aac_header` is the search from the position `pos` on. -/
def scan_aac_header (parse : List Nat → Bool → Option aac_header_t) (emphasis_present : Bool) :
    Nat → List Nat → Option (Nat × aac_header_t)
  | _, [] => none
  | pos, b :: rest =>
      match parse (b :: rest) emphasis_present with
      | some h => some (pos, h)
      | none => scan_aac_header parse emphasis_present (pos + 1) rest

/-- Modelled from the spec: the function `find_aac_header` of aac_common (not among the
sources): the offset and header of the first valid frame header, or a negative value. -/
def spec_find_aac_header (parse : List Nat → Bool → Option aac_header_t) (buf : List Nat)
    (emphasis_present : Bool) : Int × aac_header_t :=
  match scan_aac_header parse emphasis_present 0 buf with
  | some (pos, h) => ((pos : Int), h)
  | none => (-1, ⟨0, 0, 0, 0⟩)

/-- Modelled from the spec: the displacement helpers `needs_negative_displacement`,
`needs_positive_displacement` and `displace` of `generic_packetizer_c` (pr_generic, not among
the sources), after section 4.5: the state is the displacement `d`; a frame of duration `T` is
suppressed when `d ≤ -T`, and then `d ← d + T`; it is duplicated when `d ≥ T`, and then
`d ← d - T`.  With the calls made by p_aac.cpp (`displace(-T)` on suppression, `displace(T)`
on duplication) the call `displace(x)` lowers `d` by `x`. -/
def spec_env (find : List Nat → Bool → Int × aac_header_t) : aac_env ℚ :=
  { find_aac_header := find
    displacement := fun d => d
    needs_negative_displacement := fun d T => decide (d ≤ -T)
    needs_positive_displacement := fun d T => decide (T ≤ d)
    displace := fun d x => d - x }

/-! ### Sample values -/

/-- A sample frame header: a frame of 10 bytes with a header of 58 bits (not byte aligned) and
2 payload bytes. -/
def sample_aac_header : aac_header_t := ⟨10, 58, 8, 2⟩

/-- A sample header search that reports `sample_aac_header` at offset 0. -/
def sample_find_aac_header : List Nat → Bool → Int × aac_header_t :=
  fun _ _ => (0, sample_aac_header)

/-- A sample packetizer in header-scanning mode (32000 Hz, linear factor 1, displacement 0)
whose accumulator holds one frame of 10 bytes. -/
def sample_aac_packetizer : aac_packetizer_c ℚ :=
  { (aac_packetizer_c.create 0 1 32000 2 1 0 true false : aac_packetizer_c ℚ) with
    byte_buffer := [255, 249, 80, 128, 1, 64, 0, 129, 130, 255] }

/-! ### Streams of frames -/

/-- Header and payload of a frame lie within the frame: the part of the frame the payload
extraction reads (from the end of the header on, `data_byte_size` bytes) does not reach beyond
the `bytes` bytes of the frame. -/
def payload_within_frame (h : aac_header_t) : Bool :=
  decide (0 ≤ h.header_bit_size) && decide (0 ≤ h.header_byte_size) &&
  decide (0 ≤ h.data_byte_size) &&
  decide (h.header_byte_size + h.data_byte_size ≤ h.bytes) &&
  decide (h.header_bit_size.tdiv 8 + h.data_byte_size ≤ h.bytes)

/-- The byte strings `fs` are complete valid frames lying one behind the other: at the start
of each one a header validates whose frame length is the length of that byte string. -/
def valid_frames (parse : List Nat → Bool → Option aac_header_t) (emphasis_present : Bool) :
    List (List Nat) → Bool
  | [] => true
  | f :: fs =>
      (match parse (f ++ fs.flatten) emphasis_present with
        | some h => decide (h.bytes = f.length) && decide (0 < f.length) &&
            payload_within_frame h
        | none => false) &&
      valid_frames parse emphasis_present fs

/-- The payloads of the frames `fs`, each extracted from its own frame. -/
def frame_payloads (parse : List Nat → Bool → Option aac_header_t) (emphasis_present : Bool) :
    List (List Nat) → List (List Nat)
  | [] => []
  | f :: fs =>
      (match parse (f ++ fs.flatten) emphasis_present with
        | some h => extract_payload f 0 h
        | none => []) :: frame_payloads parse emphasis_present fs

/-- A sample header validation that accepts nothing. -/
def sample_parse_none : List Nat → Bool → Option aac_header_t := fun _ _ => none

/-- A sample header validation: a frame starts with the byte 255, its second byte is the frame
length, the header takes 2 bytes (16 bits) and the payload the rest of the frame. -/
def sample_parse : List Nat → Bool → Option aac_header_t
  | 255 :: len :: _, _ =>
      if 2 ≤ len then some ⟨len, 16, 2, (len : Int) - 2⟩ else none
  | _, _ => none

/-- A sample packetizer in header-scanning mode (32000 Hz, linear factor 1, displacement 0)
with an empty accumulator, under the helpers modelled from the specification. -/
def sample_scanner : aac_packetizer_c ℚ :=
  aac_packetizer_c.create 0 1 32000 2 1 0 false false

/-- A sequence of calls of `process` on one packetizer, one call per element `(mem, timecode)`
of the list; `fuel` bounds the loop iterations of each call. -/
def process_calls {σ : Type} (env : aac_env σ) (fuel : Nat) :
    aac_packetizer_c σ → List (List Nat × Int) → run_result (aac_packetizer_c σ)
  | st, [] => .returned st
  | st, c :: rest =>
      match process env fuel st c.1 c.2 with
      | .returned st1 => process_calls env fuel st1 rest
      | .died e => .died e
      | .out_of_fuel => .out_of_fuel

/-- The timecode of the header-scanning branch for the packet number `n` when no upstream
timecode is supplied: `(int64_t)((int64_t)(1024 * 1000000000.0 * n / samples_per_sec) *
linear)`. -/
def index_timecode (samples_per_sec : Nat) (linear : ℚ) (n : Int) : Int :=
  to_int64 (double_mul
    (double_of_int (to_int64 (double_div
      (double_mul (double_mul 1024 1000000000) (double_of_int n))
      (double_of_int samples_per_sec))))
    linear)

/-- A sample packetizer in headerless mode (32000 Hz) with the linear factor `linear` and the
displacement `d`, under the helpers modelled from the specification. -/
def sample_headerless (linear d : ℚ) : aac_packetizer_c ℚ :=
  aac_packetizer_c.create 0 1 32000 2 linear d false true

/-- A sample packetizer in headerless mode at 44100 Hz with the linear factor 1 and the
displacement 0, under the helpers modelled from the specification. -/
def sample_headerless_44100 : aac_packetizer_c ℚ :=
  aac_packetizer_c.create 0 1 44100 2 1 0 false true

/-- A sample instance of the helpers for a track on which no displacement is ever pending:
the displacement is 0 and neither suppression nor duplication is asked for. -/
def sample_env_without_displacement : aac_env Unit :=
  { find_aac_header := spec_find_aac_header sample_parse
    displacement := fun _ => 0
    needs_negative_displacement := fun _ _ => false
    needs_positive_displacement := fun _ _ => false
    displace := fun s _ => s }

/-- A sample packetizer in headerless mode with the sample rate 2048000000000 Hz (a nominal
frame duration of half a time unit), the linear factor 1 and no displacement. -/
def sample_headerless_high_rate : aac_packetizer_c Unit :=
  aac_packetizer_c.create 0 1 2048000000000 2 1 () false true

/-- A sample packetizer in headerless mode at 32000 Hz with the linear factor 1 and no
displacement, for `sample_env_without_displacement`. -/
def sample_headerless_plain : aac_packetizer_c Unit :=
  aac_packetizer_c.create 0 1 32000 2 1 () false true

/-! ## The reader: progress display -/

/-- The conversion of an integer value to a 32-bit `int`: the value modulo `2^32`, read in
two's complement. -/
def to_int32 (n : Int) : Int := (n + 2 ^ 31) % 2 ^ 32 - 2 ^ 31

/-- The local `samples` of `display_progress`:
`(get_uint32(&wheader.riff.len) - sizeof(wheader) + 8) / bps`, the subtraction being done in
the unsigned 64-bit type of `sizeof` and the quotient stored in an `int`; `none` when `bps` is
zero. -/
def display_samples {H : Type} (r : wav_reader_c H) : Option Int :=
  if r.bps = 0 then none
  else some (to_int32
    (((get_uint32 r.wheader.riff_len + 2 ^ 64 - sizeof_wave_header + 8) % 2 ^ 64 / r.bps : Nat)))

/-- The method `wav_reader_c::display_progress(final)`: the three numbers printed (position,
total, percentage), or `none` when a division by zero is reached. -/
def wav_reader_c.display_progress {H : Type} (r : wav_reader_c H) (final : Bool) :
    Option (Int × Int × Int) :=
  match display_samples r with
  | none => none
  | some samples =>
      if final then some (samples, samples, 100)
      else if samples = 0 then none
      else some (to_int32 ((r.bytes_processed : Int).tdiv r.bps), samples,
        to_int32 (((r.bytes_processed * 100 : Nat) : Int).tdiv r.bps |>.tdiv samples))

/-! ## The AAC packetizer: track headers -/

/-- The constants of aac_common the packetizer compares `id` and `profile` with (the header
that defines them is not among the sources). -/
structure aac_constants where
  AAC_ID_MPEG4 : Int
  AAC_PROFILE_MAIN : Int
  AAC_PROFILE_LC : Int
  AAC_PROFILE_SSR : Int
  AAC_PROFILE_LTP : Int
  AAC_PROFILE_SBR : Int

/-- The codec identifiers `MKV_A_AAC_...` of matroska.h that `set_headers` chooses from. -/
inductive codec_id_t where
  | MKV_A_AAC_2MAIN
  | MKV_A_AAC_2LC
  | MKV_A_AAC_2SSR
  | MKV_A_AAC_2SBR
  | MKV_A_AAC_4MAIN
  | MKV_A_AAC_4LC
  | MKV_A_AAC_4SSR
  | MKV_A_AAC_4LTP
  | MKV_A_AAC_4SBR
deriving DecidableEq, Repr

/-- Modelled from the spec: the one-time track metadata kept by `generic_packetizer_c`
(pr_generic, not among the sources), after section 6: codec identifier, sample rate, channel
count, each unset at first and stored by `set_codec_id`, `set_audio_sampling_freq` and
`set_audio_channels`. -/
structure track_headers where
  codec_id : Option codec_id_t
  audio_sampling_freq : Option Nat
  audio_channels : Option Int
deriving DecidableEq, Repr

/-- The method `aac_packetizer_c::set_headers` on the track metadata `t`: the metadata after
the call, or, when `die` ends the process, the message together with the metadata as they are
at that moment. -/
def set_headers {σ : Type} (k : aac_constants) (st : aac_packetizer_c σ) (t : track_headers) :
    Except (String × track_headers) track_headers :=
  let r : Except (String × track_headers) track_headers :=
    if st.id = k.AAC_ID_MPEG4 then
      if st.profile = k.AAC_PROFILE_MAIN then
        .ok { t with codec_id := some codec_id_t.MKV_A_AAC_4MAIN }
      else if st.profile = k.AAC_PROFILE_LC then
        .ok { t with codec_id := some codec_id_t.MKV_A_AAC_4LC }
      else if st.profile = k.AAC_PROFILE_SSR then
        .ok { t with codec_id := some codec_id_t.MKV_A_AAC_4SSR }
      else if st.profile = k.AAC_PROFILE_LTP then
        .ok { t with codec_id := some codec_id_t.MKV_A_AAC_4LTP }
      else if st.profile = k.AAC_PROFILE_SBR then
        .ok { t with codec_id := some codec_id_t.MKV_A_AAC_4SBR }
      else .error ("aac_packetizer: Unknown AAC MPEG-4 object type.", t)
    else
      if st.profile = k.AAC_PROFILE_MAIN then
        .ok { t with codec_id := some codec_id_t.MKV_A_AAC_2MAIN }
      else if st.profile = k.AAC_PROFILE_LC then
        .ok { t with codec_id := some codec_id_t.MKV_A_AAC_2LC }
      else if st.profile = k.AAC_PROFILE_SSR then
        .ok { t with codec_id := some codec_id_t.MKV_A_AAC_2SSR }
      else if st.profile = k.AAC_PROFILE_SBR then
        .ok { t with codec_id := some codec_id_t.MKV_A_AAC_2SBR }
      else .error ("aac_packetizer: Unknown AAC MPEG-2 profile.", t)
  match r with
  | .error e => .error e
  | .ok t1 =>
      .ok { t1 with audio_sampling_freq := some st.samples_per_sec,
                    audio_channels := some st.channels }

/-- The table of codec identifiers keyed by the profile, as the specification words it: MAIN,
LC, SSR, LTP, SBR for MPEG-4 and MAIN, LC, SSR, SBR otherwise. -/
def codec_table (k : aac_constants) (mpeg4 : Bool) : List (Int × codec_id_t) :=
  if mpeg4 then
    [(k.AAC_PROFILE_MAIN, codec_id_t.MKV_A_AAC_4MAIN), (k.AAC_PROFILE_LC, codec_id_t.MKV_A_AAC_4LC),
     (k.AAC_PROFILE_SSR, codec_id_t.MKV_A_AAC_4SSR), (k.AAC_PROFILE_LTP, codec_id_t.MKV_A_AAC_4LTP),
     (k.AAC_PROFILE_SBR, codec_id_t.MKV_A_AAC_4SBR)]
  else
    [(k.AAC_PROFILE_MAIN, codec_id_t.MKV_A_AAC_2MAIN), (k.AAC_PROFILE_LC, codec_id_t.MKV_A_AAC_2LC),
     (k.AAC_PROFILE_SSR, codec_id_t.MKV_A_AAC_2SSR), (k.AAC_PROFILE_SBR, codec_id_t.MKV_A_AAC_2SBR)]

/-! ### More sample values -/

/-- The little-endian bytes of a 16-bit value. -/
def le16 (n : Nat) : List Nat := [n % 256, n / 256 % 256]

/-- The little-endian bytes of a 32-bit value. -/
def le32 (n : Nat) : List Nat := [n % 256, n / 256 % 256, n / 65536 % 256, n / 16777216 % 256]

/-- A sample WAVE header with the given riff length, channel count, sample rate, bit depth and
data length. -/
def sample_header (riff_len channels rate bits data_len : Nat) : List Nat :=
  [82, 73, 70, 70] ++ le32 riff_len ++ [87, 65, 86, 69] ++ [102, 109, 116, 32] ++ le32 16 ++
  le16 1 ++ le16 channels ++ le32 rate ++ le32 (channels * bits * rate / 8) ++
  le16 (channels * bits / 8) ++ le16 bits ++ [100, 97, 116, 97] ++ le32 data_len

/-- A sample file whose header declares 2 channels, 16 bits and the sample rate `2^31`. -/
def sample_wrapping_file : mm_io_c :=
  { data := sample_header 52 2 2147483648 16 16 ++ [0, 1, 2, 3, 4, 5, 6, 7, 8, 9, 10, 11, 12, 13,
      14, 15],
    pos := 0, broken := false }

/-- A sample file whose header declares 0 channels. -/
def sample_zero_channel_file : mm_io_c :=
  { data := sample_header 52 0 44100 16 16 ++ [0, 1, 2, 3, 4, 5, 6, 7, 8, 9, 10, 11, 12, 13,
      14, 15],
    pos := 0, broken := false }

/-- A sample header search that looks for the four bytes `7F FE 80 01` at any offset of the
window and returns the offset, or -1: the search from the offset `pos` on. -/
def sample_find_sync : Nat → List Nat → Int
  | pos, 127 :: 254 :: 128 :: 1 :: _ => pos
  | pos, _ :: rest => sample_find_sync (pos + 1) rest
  | _, [] => -1

/-- A sample instance of the `dts_common` parameters with a probe window of 32 bytes, a header
search at any offset of the window (`sample_find_sync`) and a stand-in expansion that stores
14 bytes for every 16. -/
def sample_dts_scanning : dts_common Unit where
  max_dts_packet_size := 32
  find_dts_header := sample_find_sync 0
  find_dts_header_out := fun _ h => h
  dts_14_to_dts_16 := fun src => src.take (src.length / 16 * 14)
  EMOREDATA := -1

/-- A sample file of 32 zero payload bytes behind the sample header. -/
def sample_silent_file : mm_io_c :=
  { data := sample_wave_header ++ List.replicate 32 0, pos := 0, broken := false }

/-- A sample content of a scratch area of 32 bytes: zero bytes only. -/
def sample_scratch_zero : List Nat := List.replicate 32 0

/-- A sample content of a scratch area of 32 bytes: the bytes `7F FE 80 01` at offset 28. -/
def sample_scratch_sync : List Nat := List.replicate 28 0 ++ [127, 254, 128, 1]

/-- Sample values of the constants of aac_common. -/
def sample_aac_constants : aac_constants :=
  { AAC_ID_MPEG4 := 0, AAC_PROFILE_MAIN := 0, AAC_PROFILE_LC := 1, AAC_PROFILE_SSR := 2,
    AAC_PROFILE_LTP := 3, AAC_PROFILE_SBR := 4 }

/-- A sample file of 32 payload bytes behind the sample header: 26 zero bytes followed by
`FE 7F 80 01 00 00`. -/
def sample_swapped_tail_file : mm_io_c :=
  { data := sample_wave_header ++ List.replicate 26 0 ++ [254, 127, 128, 1, 0, 0],
    pos := 0, broken := false }

/-! ### The timestamp expressions of `process`, by name -/

/-- The value `(int64_t)(1024 * 1000000000.0 * linear / samples_per_sec)`, computed in binary64
as the program computes it: the duration of a packet. -/
def frame_duration (samples_per_sec : Nat) (linear : ℚ) : Int :=
  to_int64 (double_div (double_mul (double_mul 1024 1000000000) linear)
    (double_of_int samples_per_sec))

/-- The value `(int64_t)(1024 * 1000000000.0 * n / samples_per_sec)`, computed in binary64: the
base of the timestamp derived from the packet number `n`. -/
def index_base (samples_per_sec : Nat) (n : Int) : Int :=
  to_int64 (double_div (double_mul (double_mul 1024 1000000000) (double_of_int n))
    (double_of_int samples_per_sec))

/-- The value `(int64_t)(n * 1024 * 1000000000.0 / samples_per_sec)`, computed in binary64: the
offset added to a timecode on its `n`-th consecutive repetition. -/
def repeat_offset (samples_per_sec : Nat) (n : Int) : Int :=
  to_int64 (double_div (double_mul (double_of_int (n * 1024)) 1000000000)
    (double_of_int samples_per_sec))

/-- The value `(int64_t)(x * linear)`, computed in binary64, for a sum `x` of a timecode and
the displacement. -/
def scale_timecode (linear : ℚ) (x : ℚ) : Int :=
  to_int64 (double_mul (round_binary64 x) linear)

/-- The base `my_timecode` of the headerless branch of `process`: the supplied timecode,
increased by the repeat offset when it equals the last one, or the index-derived base when
none is supplied. -/
def headerless_base {σ : Type} (st : aac_packetizer_c σ) (timecode : Int) : Int :=
  if timecode = -1 then index_base st.samples_per_sec st.packetno
  else if st.last_timecode = timecode then
    timecode + repeat_offset st.samples_per_sec (st.num_packets_same_tc + 1)
  else timecode

/-- The synchronisation state after a call of `get_aac_packet` that returns a packet: when
positive displacement is needed the packet is a duplicate and `displace(pins)` has been
called. -/
def async_after_packet {σ : Type} (env : aac_env σ) (samples_per_sec : Nat) (a : σ) : σ :=
  if env.needs_positive_displacement a (1024 * 1000000000 / samples_per_sec) then
    env.displace a (1024 * 1000000000 / samples_per_sec)
  else a

/-- The value of `1024 * 1000000000.0 * linear / samples_per_sec` in binary64, before the
conversion to `int64_t`. -/
def frame_duration_double (samples_per_sec : Nat) (linear : ℚ) : ℚ :=
  double_div (double_mul (double_mul 1024 1000000000) linear) (double_of_int samples_per_sec)

/-- A sample packetizer in headerless mode at 44100 Hz with the linear factor 1 and no
displacement, for `sample_env_without_displacement`. -/
def sample_headerless_plain_44100 : aac_packetizer_c Unit :=
  aac_packetizer_c.create 0 1 44100 2 1 () false true

/-! # Theorems -/

/-! ## The container header check -/

theorem strncmp_four_eq_zero_iff (s : List Nat) (a b c d : Nat) (hs : s.length = 4)
    (ha : a ≠ 0) (hb : b ≠ 0) (hc : c ≠ 0) (hd : d ≠ 0) :
    strncmp s [a, b, c, d, 0] 4 = 0 ↔ s = [a, b, c, d] := by
  match s, hs with
  | [x, y, z, w], _ =>
    simp only [strncmp]
    by_cases h1 : x = a
    · subst h1
      by_cases h2 : y = b
      · subst h2
        by_cases h3 : z = c
        · subst h3
          by_cases h4 : w = d
          · subst h4
            simp [ha, hb, hc, hd]
          · have : (w : Int) - d ≠ 0 := by omega
            simp [ha, hb, hc, h4, this]
        · have : (z : Int) - c ≠ 0 := by omega
          simp [ha, hb, h3, this]
      · have : (y : Int) - b ≠ 0 := by omega
        simp [ha, h2, this]
    · have : (x : Int) - a ≠ 0 := by omega
      simp [h1, this]

theorem header_field_of_read (data : List Nat) (off : Nat) (hoff : off + 4 ≤ 44) :
    (wave_header.mk ((data.drop 0).take 44)).field off 4 = (data.drop off).take 4 := by
  simp only [wave_header.field, List.drop_zero, List.drop_take, List.take_take]
  congr 1
  omega

theorem probe_file_result (io : mm_io_c) (size : Nat) :
    (probe_file io size).1 = 1 ∨ (probe_file io size).1 = 0 := by
  unfold probe_file
  by_cases h1 : size < sizeof_wave_header
  · simp [h1]
  · by_cases h2 : io.broken = true
    · simp [h1, h2]
    · by_cases h3 : ((io.setFilePointer 0).read sizeof_wave_header).1.length = sizeof_wave_header
      · simp only [h1, h2, h3, if_false, ne_eq, not_true_eq_false]
        split_ifs <;> simp
      · simp [h1, h2, h3]

theorem probe_file_eq_one_iff (io : mm_io_c) (size : Nat) :
    (probe_file io size).1 = 1 ↔
      sizeof_wave_header ≤ size ∧
      (io.broken = false ∧
        ((io.setFilePointer 0).read sizeof_wave_header).1.length = sizeof_wave_header) ∧
      io.data.take 4 = [82, 73, 70, 70] ∧
      (io.data.drop 8).take 4 = [87, 65, 86, 69] ∧
      (io.data.drop 36).take 4 = [100, 97, 116, 97] := by
  have hlen : ∀ off, off + 4 ≤ 44 →
      ((io.setFilePointer 0).read sizeof_wave_header).1.length = sizeof_wave_header →
      ((io.data.drop off).take 4).length = 4 := by
    intro off hoff h
    simp only [mm_io_c.read, mm_io_c.setFilePointer, sizeof_wave_header, List.drop_zero,
      List.length_take] at h
    simp only [List.length_take, List.length_drop]
    omega
  unfold probe_file
  by_cases h1 : size < sizeof_wave_header
  · simp only [h1, if_true]
    constructor
    · intro h; simp at h
    · rintro ⟨h, -⟩; omega
  · simp only [h1, if_false]
    by_cases h2 : io.broken = true
    · simp [h2]
    · simp only [h2]
      by_cases h3 : ((io.setFilePointer 0).read sizeof_wave_header).1.length = sizeof_wave_header
      · have e0 := hlen 0 (by omega) h3
        have e8 := hlen 8 (by omega) h3
        have e36 := hlen 36 (by omega) h3
        have r0 := strncmp_four_eq_zero_iff _ 82 73 70 70 e0
          (by decide) (by decide) (by decide) (by decide)
        have r8 := strncmp_four_eq_zero_iff _ 87 65 86 69 e8
          (by decide) (by decide) (by decide) (by decide)
        have r36 := strncmp_four_eq_zero_iff _ 100 97 116 97 e36
          (by decide) (by decide) (by decide) (by decide)
        have f0 := header_field_of_read io.data 0 (by omega)
        have f8 := header_field_of_read io.data 8 (by omega)
        have f36 := header_field_of_read io.data 36 (by omega)
        simp only [List.drop_zero] at r0 f0 f8 f36
        simp only [h3, ne_eq, not_true_eq_false, if_false, wave_header.riff_id,
          wave_header.riff_wave_id, wave_header.data_id, mm_io_c.read, mm_io_c.setFilePointer,
          sizeof_wave_header, List.drop_zero, f0, f8, f36, lit_RIFF, lit_WAVE, lit_data,
          r0, r8, r36]
        have h2' : io.broken = false := by simpa using h2
        have h1' : 44 ≤ size := by simp only [sizeof_wave_header] at h1; omega
        simp only [mm_io_c.read, mm_io_c.setFilePointer, sizeof_wave_header,
          List.drop_zero] at h3
        by_cases t0 : io.data.take 4 = [82, 73, 70, 70] <;>
        by_cases t8 : (io.data.drop 8).take 4 = [87, 65, 86, 69] <;>
        by_cases t36 : (io.data.drop 36).take 4 = [100, 97, 116, 97] <;>
        simp [t0, t8, t36, h2', h1', h3]
      · simp [h3]

/-- C10: `probe_file` returns 1 exactly when the size is at least the header size, the whole
header can be read and the three tags `RIFF`, `WAVE` and `data` are in place; it returns 0 in
every other case, and then the constructor ends with an error (no reader, no track). -/
theorem probe_file_accepts_iff {H : Type} (env : dts_common H) (io file : mm_io_c) (size : Nat)
    (scratch0 scratch1 : List Nat) (hdr0 : H) :
    ((probe_file io size).1 = 1 ↔
      sizeof_wave_header ≤ size ∧
      (io.broken = false ∧
        ((io.setFilePointer 0).read sizeof_wave_header).1.length = sizeof_wave_header) ∧
      io.data.take 4 = [82, 73, 70, 70] ∧
      (io.data.drop 8).take 4 = [87, 65, 86, 69] ∧
      (io.data.drop 36).take 4 = [100, 97, 116, 97]) ∧
    ((probe_file io size).1 ≠ 1 → (probe_file io size).1 = 0) ∧
    ((probe_file (file.seekEnd.setFilePointer 0) file.seekEnd.getFilePointer).1 ≠ 1 →
      wav_reader_c.create env file scratch0 scratch1 hdr0 =
          .error "wav_reader: Could not open the source file." ∨
      wav_reader_c.create env file scratch0 scratch1 hdr0 =
          .error "wav_reader: Source is not a valid WAVE file.") := by
  refine ⟨probe_file_eq_one_iff io size, ?_, ?_⟩
  · intro h
    rcases probe_file_result io size with h1 | h0
    · exact absurd h1 h
    · exact h0
  · intro h
    have h0 : (probe_file (file.seekEnd.setFilePointer 0) file.seekEnd.getFilePointer).1 = 0 := by
      rcases probe_file_result (file.seekEnd.setFilePointer 0) file.seekEnd.getFilePointer
        with h1 | h0
      · exact absurd h1 h
      · exact h0
    unfold wav_reader_c.create
    by_cases hb : file.broken = true
    · left; simp [hb]
    · right; simp [hb, h0]

/-! ## The embedded-format detector -/

theorem take_memwrite (dst src : List Nat) : (memwrite dst src).take src.length = src := by
  simp [memwrite]

theorem window_plain_eq (obuf scratch0 : List Nat) : window_plain obuf scratch0 = obuf :=
  take_memwrite scratch0 obuf

theorem probe_file_accept_state (io : mm_io_c) (size : Nat) (h : (probe_file io size).1 ≠ 0) :
    (probe_file io size).2 = { io with pos := 0, eof_flag := false } ∧
      sizeof_wave_header ≤ io.data.length := by
  unfold probe_file at h ⊢
  by_cases h1 : size < sizeof_wave_header
  · rw [if_pos h1] at h; exact absurd rfl h
  · rw [if_neg h1] at h ⊢
    by_cases h2 : io.broken = true
    · rw [if_pos h2] at h; exact absurd rfl h
    · rw [if_neg h2] at h ⊢
      dsimp only at h ⊢
      by_cases h3 : ((io.setFilePointer 0).read sizeof_wave_header).1.length ≠ sizeof_wave_header
      · rw [if_pos h3] at h; exact absurd rfl h
      · rw [if_neg h3] at h ⊢
        split_ifs at h ⊢ with h4
        · exact absurd rfl h
        · simp only [mm_io_c.read, mm_io_c.setFilePointer, sizeof_wave_header, List.drop_zero,
            List.length_take, ne_eq, not_not] at h3 ⊢
          exact ⟨trivial, by omega⟩

theorem create_ok {H : Type} (env : dts_common H) (file : mm_io_c)
    (scratch0 scratch1 : List Nat) (hdr0 : H) (r : wav_reader_c H)
    (hc : wav_reader_c.create env file scratch0 scratch1 hdr0 = .ok r) :
    r = { mm_io := { file with pos := sizeof_wave_header, eof_flag := false },
          wheader := ⟨file.data.take sizeof_wave_header⟩,
          bps := compute_bps ⟨file.data.take sizeof_wave_header⟩,
          bytes_processed := 0,
          is_dts := (detect_dts env (probe_bytes env file) scratch0 scratch1 hdr0).is_dts,
          dts_swap_bytes :=
            (detect_dts env (probe_bytes env file) scratch0 scratch1 hdr0).dts_swap_bytes,
          dts_14_16 := (detect_dts env (probe_bytes env file) scratch0 scratch1 hdr0).dts_14_16,
          dtsheader := (detect_dts env (probe_bytes env file) scratch0 scratch1 hdr0).dtsheader,
          ptzrs := [], calls := [] } := by
  unfold wav_reader_c.create at hc
  by_cases hb : file.broken = true
  · simp [hb] at hc
  · by_cases hp : (probe_file (file.seekEnd.setFilePointer 0) file.seekEnd.getFilePointer).1 = 0
    · simp [hb, hp] at hc
    · obtain ⟨hst, hlen⟩ := probe_file_accept_state _ _ hp
      simp only [hb, hp, hst, if_false] at hc
      have hl : ((file.data.drop 0).take sizeof_wave_header).length = sizeof_wave_header := by
        simp only [mm_io_c.seekEnd, mm_io_c.setFilePointer] at hlen
        simp only [List.drop_zero, List.length_take]
        omega
      simp only [mm_io_c.read, mm_io_c.seekEnd, mm_io_c.setFilePointer, hl, ne_eq,
        not_true_eq_false, if_false, Except.ok.injEq, List.drop_zero, Nat.zero_add] at hc
      simp only [List.drop_zero] at hl
      simp only [hl, Bool.false_eq_true, not_true_eq_false, if_false, Except.ok.injEq] at hc
      rw [← hc, probe_bytes]

theorem take_memwrite_le (dst src : List Nat) (n : Nat) (h : n ≤ src.length) :
    (memwrite dst src).take n = src.take n := by
  simp [memwrite, List.take_append_of_le_length h]

theorem detect_dts_is_dts_false_iff {H : Type} (env : dts_common H)
    (obuf s0 s1 : List Nat) (h0 : H) :
    ((detect_dts env obuf s0 s1 h0).is_dts = false ↔
      env.find_dts_header (window_plain obuf s0) < 0 ∧
      env.find_dts_header (window_expanded env obuf s0 s1) < 0 ∧
      env.find_dts_header (window_swapped env obuf s0 s1) < 0 ∧
      env.find_dts_header (window_swapped_expanded env obuf s0 s1) < 0) := by
  by_cases h1 : 0 ≤ env.find_dts_header (window_plain obuf s0) <;>
  by_cases h2 : 0 ≤ env.find_dts_header (window_expanded env obuf s0 s1) <;>
  by_cases h3 : 0 ≤ env.find_dts_header (window_swapped env obuf s0 s1) <;>
  by_cases h4 : 0 ≤ env.find_dts_header (window_swapped_expanded env obuf s0 s1) <;>
  simp only [window_plain, window_expanded,
    window_swapped, window_swapped_expanded, swapped_area, expand_into] at h1 h2 h3 h4 ⊢ <;>
  simp [detect_dts, dts_swap_bytes_loop, dts_swap_bytes_body, dts_14_16_loop,
    dts_14_16_body, dts_probe.buf, dts_probe.setBuf, h1, h2, h3, h4] <;>
  omega

theorem detect_dts_dts_14_16 {H : Type} (env : dts_common H)
    (obuf s0 s1 : List Nat) (h0 : H) :
    (detect_dts env obuf s0 s1 h0).dts_14_16 = 2 := by
  by_cases h1 : 0 ≤ env.find_dts_header (window_plain obuf s0) <;>
  by_cases h2 : 0 ≤ env.find_dts_header (window_expanded env obuf s0 s1) <;>
  by_cases h3 : 0 ≤ env.find_dts_header (window_swapped env obuf s0 s1) <;>
  by_cases h4 : 0 ≤ env.find_dts_header (window_swapped_expanded env obuf s0 s1) <;>
  simp only [window_plain, window_expanded,
    window_swapped, window_swapped_expanded, swapped_area, expand_into] at h1 h2 h3 h4 ⊢ <;>
  simp [detect_dts, dts_swap_bytes_loop, dts_swap_bytes_body, dts_14_16_loop,
    dts_14_16_body, dts_probe.buf, dts_probe.setBuf, h1, h2, h3, h4]

theorem detect_dts_plain {H : Type} (env : dts_common H)
    (obuf s0 s1 : List Nat) (h0 : H) (h : 0 ≤ env.find_dts_header obuf) :
    (detect_dts env obuf s0 s1 h0).is_dts = true ∧
    (detect_dts env obuf s0 s1 h0).dts_swap_bytes = 0 := by
  have h1 : 0 ≤ env.find_dts_header (window_plain obuf s0) := by
    rw [window_plain_eq]; exact h
  by_cases h2 : 0 ≤ env.find_dts_header (window_expanded env obuf s0 s1) <;>
  simp only [window_plain, window_expanded, expand_into] at h1 h2 ⊢ <;>
  simp [detect_dts, dts_swap_bytes_loop, dts_swap_bytes_body, dts_14_16_loop,
    dts_14_16_body, dts_probe.buf, dts_probe.setBuf, h1, h2]

/-- C1 (the code where the claim fails): when `find_dts_header` already succeeds on the probe
bytes as read (first trial, no byte swap, no expansion), the constructor ends with
`is_dts = true` and `dts_swap_bytes = 0`, but with `dts_14_16 = 2` instead of 0: the loop over
`dts_14_16` has no `break` and runs to its end.  The flag being non-zero, the following
`read()` hands the packetizer the 14-to-16-bit expansion of the chunk, not the chunk. -/
theorem constructor_plain_header_leaves_dts_14_16_two {H : Type} (env : dts_common H)
    (file : mm_io_c) (scratch0 scratch1 t0 t1 : List Nat) (hdr0 : H) (r : wav_reader_c H)
    (hc : wav_reader_c.create env file scratch0 scratch1 hdr0 = .ok r)
    (hfind : 0 ≤ env.find_dts_header (probe_bytes env file))
    (hne : probe_bytes env file ≠ []) :
    r.is_dts = true ∧ r.dts_swap_bytes = 0 ∧ r.dts_14_16 = 2 ∧
    (r.read env t0 t1).2.calls.head? = some (ptzr_call.process
      ((memwrite t1 (env.dts_14_to_dts_16
          ((probe_bytes env file).take ((probe_bytes env file).length / 16 * 8 * 2)))).take
        ((probe_bytes env file).length / 16 * 7 * 2))) := by
  have hr := create_ok env file scratch0 scratch1 hdr0 r hc
  obtain ⟨hd, hs⟩ := detect_dts_plain env (probe_bytes env file) scratch0 scratch1 hdr0 hfind
  have he := detect_dts_dts_14_16 env (probe_bytes env file) scratch0 scratch1 hdr0
  have hlen : 0 < (probe_bytes env file).length := List.length_pos.mpr hne
  have hle : (probe_bytes env file).length / 16 * 8 * 2 ≤ (probe_bytes env file).length := by
    omega
  subst hr
  refine ⟨hd, hs, he, ?_⟩
  have hpb : (({ file with pos := sizeof_wave_header, eof_flag := false } : mm_io_c).read
      env.max_dts_packet_size).1 = probe_bytes env file := rfl
  simp only [wav_reader_c.read, hd, hs, he, hpb, not_true_eq_false, if_false, ne_eq,
    not_false_eq_true, if_true]
  rw [if_neg (by omega)]
  simp [take_memwrite_le _ _ _ hle]
  split_ifs <;> simp

theorem constructor_plain_header_leaves_dts_14_16_two_witness :
    ∃ r, wav_reader_c.create sample_dts_common sample_dts_file [] [] () = .ok r ∧
      r.is_dts = true ∧ r.dts_swap_bytes = 0 ∧ r.dts_14_16 = 2 ∧
      (r.read sample_dts_common [] []).2.calls =
        [ptzr_call.process [127, 254, 128, 1, 1, 2, 3, 4, 5, 6, 7, 8, 9, 10]] := by
  have h := constructor_plain_header_leaves_dts_14_16_two sample_dts_common sample_dts_file
    [] [] [] [] () _ rfl (by decide) (by decide)
  exact ⟨_, rfl, h.1, h.2.1, h.2.2.1, rfl⟩

/-- The criterion of the code: after a successful constructor `is_dts` is false exactly when
`find_dts_header` returns a negative value on the four areas of `rlen` bytes the trials pass
to it (which, in the two expanded trials, end with bytes the expansion has not written);
`create_packetizer` then creates the PCM packetizer, and the DTS packetizer when `is_dts` is
true. -/
theorem is_dts_false_iff_all_four_trials_fail {H : Type} (env : dts_common H)
    (file : mm_io_c) (scratch0 scratch1 : List Nat) (hdr0 : H) (r : wav_reader_c H)
    (hc : wav_reader_c.create env file scratch0 scratch1 hdr0 = .ok r) :
    (r.is_dts = false ↔
      env.find_dts_header (window_plain (probe_bytes env file) scratch0) < 0 ∧
      env.find_dts_header (window_expanded env (probe_bytes env file) scratch0 scratch1) < 0 ∧
      env.find_dts_header (window_swapped env (probe_bytes env file) scratch0 scratch1) < 0 ∧
      env.find_dts_header
        (window_swapped_expanded env (probe_bytes env file) scratch0 scratch1) < 0) ∧
    (r.is_dts = false → r.create_packetizer.ptzrs =
      [packetizer.pcm (get_uint32 r.wheader.dwSamplesPerSec) (get_uint16 r.wheader.wChannels)
        (get_uint16 r.wheader.wBitsPerSample)]) ∧
    (r.is_dts = true → r.create_packetizer.ptzrs = [packetizer.dts r.dtsheader true]) := by
  have hr := create_ok env file scratch0 scratch1 hdr0 r hc
  have hp : r.ptzrs = [] := by rw [hr]
  have hd : r.is_dts = (detect_dts env (probe_bytes env file) scratch0 scratch1 hdr0).is_dts := by
    rw [hr]
  refine ⟨?_, ?_, ?_⟩
  · rw [hd]
    exact detect_dts_is_dts_false_iff env (probe_bytes env file) scratch0 scratch1 hdr0
  · intro h
    simp [wav_reader_c.create_packetizer, hp, h]
  · intro h
    simp [wav_reader_c.create_packetizer, hp, h]

theorem is_dts_false_iff_all_four_trials_fail_witness :
    ∃ r, wav_reader_c.create sample_dts_common sample_pcm_file [] [] () = .ok r ∧
      r.is_dts = false ∧ r.create_packetizer.ptzrs = [packetizer.pcm 44100 2 16] :=
  ⟨_, rfl, rfl, (is_dts_false_iff_all_four_trials_fail sample_dts_common sample_pcm_file
      [] [] () _ rfl).2.1 rfl⟩

/-! ## The AAC packetizer: payload extraction -/


theorem shift_copy_loop (src : List Nat) (up_shift down_shift n : Nat) :
    ∀ m, m + 1 ≤ n →
    (List.range' 1 m).foldl
      (fun buf i =>
        let buf1 := buf.set (i - 1) (buf.getD (i - 1) 0 ||| (src.getD i 0 >>> down_shift))
        buf1.set i ((src.getD i 0 <<< up_shift) % 256))
      ((List.replicate n 0).set 0 ((src.getD 0 0 <<< up_shift) % 256)) =
    shift_copy_after src up_shift down_shift n m := by
  intro m
  induction m with
  | zero =>
    intro _
    simp only [List.range'_zero, List.foldl_nil, shift_copy_after]
    apply List.ext_getElem
    · simp
    · intro j h1 h2
      simp only [List.length_set, List.length_replicate] at h1
      simp only [List.getElem_set, List.getElem_replicate, List.getElem_map, List.getElem_range,
        Nat.not_lt_zero, if_false]
      by_cases hj : j = 0
      · subst hj; simp
      · have : ¬ (0 = j) := fun h => hj h.symm
        simp [hj, this]
  | succ m ih =>
    intro hm
    rw [List.range'_1_concat, List.foldl_append, ih (by omega)]
    simp only [List.foldl_cons, List.foldl_nil, shift_copy_after]
    apply List.ext_getElem
    · simp
    · intro j h1 h2
      simp only [List.length_set, List.length_map, List.length_range] at h1
      have hm1 : 1 + m - 1 = m := by omega
      simp only [hm1, List.getElem_set, List.getElem_map, List.getElem_range]
      have hget : ((List.range n).map fun j =>
          if j < m then ((src.getD j 0 <<< up_shift) % 256) ||| (src.getD (j + 1) 0 >>> down_shift)
          else if j = m then (src.getD j 0 <<< up_shift) % 256
          else 0).getD m 0 = (src.getD m 0 <<< up_shift) % 256 := by
        rw [List.getD_eq_getElem _ _ (by simp; omega)]
        simp
      rw [hget]
      by_cases hj1 : 1 + m = j
      · subst hj1
        have : ¬ (1 + m < m + 1) := by omega
        have h3 : (1 + m = m + 1) := by omega
        simp [this, h3]
      · by_cases hj2 : m = j
        · subst hj2
          simp [hj1]
          rw [Nat.add_comm]
        · simp only [hj1, hj2, if_false]
          by_cases hj3 : j < m
          · have : j < m + 1 := by omega
            simp [hj3, this]
          · have h4 : ¬ j < m + 1 := by omega
            have h5 : ¬ j = m + 1 := by omega
            have h6 : ¬ j = m := fun h => hj2 h.symm
            simp [hj3, h4, h5, h6]

theorem shift_copy_eq (src : List Nat) (up_shift down_shift n : Nat) (hn : 0 < n) :
    shift_copy src up_shift down_shift n =
      shift_copy_after src up_shift down_shift n (n - 1) := by
  unfold shift_copy
  exact shift_copy_loop src up_shift down_shift n (n - 1) (by omega)

theorem get_aac_packet_some {σ : Type} (env : aac_env σ) (st st1 : aac_packetizer_c σ)
    (buf : List Nat) (hdr : aac_header_t)
    (h : get_aac_packet env st = .ok (some buf, hdr, st1)) :
    hdr = (env.find_aac_header st.byte_buffer st.emphasis_present).2 ∧
    buf = extract_payload st.byte_buffer
      (env.find_aac_header st.byte_buffer st.emphasis_present).1 hdr := by
  unfold get_aac_packet at h
  dsimp only at h
  split_ifs at h with h1 h2 h3 h4
  · simp at h
  · simp at h
  · split at h <;> simp at h
  · simp only [Except.ok.injEq, Prod.mk.injEq, Option.some.injEq] at h
    obtain ⟨hb, hh, -⟩ := h
    subst hh
    exact ⟨rfl, hb.symm⟩
  · split at h
    · simp at h
    · simp only [Except.ok.injEq, Prod.mk.injEq, Option.some.injEq] at h
      obtain ⟨hb, hh, -⟩ := h
      subst hh
      exact ⟨rfl, hb.symm⟩

/-- C3 (amended): when the header's bit length is not a multiple of 8, with
`up = header_bit_size mod 8` and `src` the bytes from offset `pos + header_bit_size div 8` on,
the payload returned by `get_aac_packet` has `data_byte_size` bytes; every byte `i` but the
last equals `((src[i] << up) | (src[i+1] >> (8 - up))) mod 256`, and the last byte, at
`n = data_byte_size - 1`, equals `(src[n] << up) mod 256`: the byte behind it is not read. -/
theorem unaligned_payload_last_byte_lacks_following_bits {σ : Type} (env : aac_env σ)
    (st st1 : aac_packetizer_c σ) (buf : List Nat) (hdr : aac_header_t)
    (hget : get_aac_packet env st = .ok (some buf, hdr, st1))
    (hbits : hdr.header_bit_size.tmod 8 ≠ 0) (hn : 0 < hdr.data_byte_size) :
    buf.length = hdr.data_byte_size.toNat ∧
    (∀ i, i + 1 < hdr.data_byte_size.toNat →
      buf.getD i 0 =
        (((st.byte_buffer.drop ((env.find_aac_header st.byte_buffer st.emphasis_present).1 +
              hdr.header_bit_size.tdiv 8).toNat).getD i 0
            <<< (hdr.header_bit_size.tmod 8).toNat) % 256) |||
          ((st.byte_buffer.drop ((env.find_aac_header st.byte_buffer st.emphasis_present).1 +
              hdr.header_bit_size.tdiv 8).toNat).getD (i + 1) 0
            >>> (8 - hdr.header_bit_size.tmod 8).toNat)) ∧
    buf.getD (hdr.data_byte_size.toNat - 1) 0 =
      ((st.byte_buffer.drop ((env.find_aac_header st.byte_buffer st.emphasis_present).1 +
            hdr.header_bit_size.tdiv 8).toNat).getD (hdr.data_byte_size.toNat - 1) 0
          <<< (hdr.header_bit_size.tmod 8).toNat) % 256 := by
  obtain ⟨-, hb⟩ := get_aac_packet_some env st st1 buf hdr hget
  have hpos : 0 < hdr.data_byte_size.toNat := by omega
  rw [hb]
  unfold extract_payload
  rw [if_neg hbits]
  dsimp only
  rw [shift_copy_eq _ _ _ _ hpos]
  unfold shift_copy_after
  refine ⟨by simp, ?_, ?_⟩
  · intro i hi
    rw [List.getD_eq_getElem _ _ (by simp; omega)]
    have hi' : i < hdr.data_byte_size.toNat - 1 := by omega
    simp [hi']
  · rw [List.getD_eq_getElem _ _ (by simp; omega)]
    simp

theorem unaligned_payload_last_byte_lacks_following_bits_witness :
    get_aac_packet (spec_env sample_find_aac_header) sample_aac_packetizer =
      .ok (some [6, 8], sample_aac_header, { sample_aac_packetizer with byte_buffer := [] }) ∧
    ([6, 8] : List Nat).getD 1 0 = (130 <<< 2) % 256 := by
  have hget : get_aac_packet (spec_env sample_find_aac_header) sample_aac_packetizer =
      .ok (some [6, 8], sample_aac_header, { sample_aac_packetizer with byte_buffer := [] }) := by
    with_unfolding_all rfl
  have h := unaligned_payload_last_byte_lacks_following_bits (spec_env sample_find_aac_header)
    sample_aac_packetizer _ [6, 8] sample_aac_header hget (by decide) (by decide)
  exact ⟨hget, h.2.2⟩

/-- C3 (counterexample): a frame of 10 bytes with a header of 58 bits and 2 payload bytes,
whose bytes 7, 8, 9 are 129, 130, 255: the payload returned is `[6, 8]`, while the claimed
value of its last byte is `((130 << 2) | (255 >> 6)) mod 256 = 11`. -/
theorem unaligned_payload_last_byte_differs_from_claim :
    get_aac_packet (spec_env sample_find_aac_header) sample_aac_packetizer =
      .ok (some [6, 8], sample_aac_header, { sample_aac_packetizer with byte_buffer := [] }) ∧
    sample_aac_packetizer.byte_buffer.drop 7 = [129, 130, 255] ∧
    (((sample_aac_packetizer.byte_buffer.drop 7).getD 1 0 <<< 2) |||
      ((sample_aac_packetizer.byte_buffer.drop 7).getD 2 0 >>> 6)) % 256 = 11 ∧
    ([6, 8] : List Nat).getD 1 0 ≠ 11 := by
  refine ⟨by with_unfolding_all rfl, by with_unfolding_all rfl, by with_unfolding_all rfl,
    by decide⟩

/-! ## The AAC packetizer: the accumulator and the packet loop -/

theorem get_aac_packet_none_of_not_found {σ : Type} (env : aac_env σ) (st : aac_packetizer_c σ)
    (h : (env.find_aac_header st.byte_buffer st.emphasis_present).1 < 0 ∨
      (env.find_aac_header st.byte_buffer st.emphasis_present).1 +
        (env.find_aac_header st.byte_buffer st.emphasis_present).2.bytes >
          (st.byte_buffer.length : Int)) :
    get_aac_packet env st =
      .ok (none, (env.find_aac_header st.byte_buffer st.emphasis_present).2, st) := by
  unfold get_aac_packet
  dsimp only
  by_cases h1 : (env.find_aac_header st.byte_buffer st.emphasis_present).1 < 0
  · rw [if_pos h1]
  · rw [if_neg h1]
    have h2 := h.resolve_left h1
    rw [if_pos h2]

/-- C4: when `find_aac_header` finds no header in the accumulated bytes, or the frame found is
not complete yet, `get_aac_packet` returns `NULL` and leaves the packetizer (accumulator and
displacement state included) as it is; the `process` call in progress then returns with that
state, and the next `process` call searches the old bytes followed by the new ones. -/
theorem get_aac_packet_keeps_state_without_frame {σ : Type} (env : aac_env σ)
    (st : aac_packetizer_c σ)
    (h : (env.find_aac_header st.byte_buffer st.emphasis_present).1 < 0 ∨
      (env.find_aac_header st.byte_buffer st.emphasis_present).1 +
        (env.find_aac_header st.byte_buffer st.emphasis_present).2.bytes >
          (st.byte_buffer.length : Int)) :
    (∃ hdr, get_aac_packet env st = .ok (none, hdr, st)) ∧
    (∀ fuel timecode, packet_loop env timecode (fuel + 1) st = .returned st) ∧
    (∀ fuel mem timecode, st.headerless = false →
      process env fuel st mem timecode =
        packet_loop env timecode fuel { st with byte_buffer := st.byte_buffer ++ mem }) := by
  have hg := get_aac_packet_none_of_not_found env st h
  refine ⟨⟨_, hg⟩, ?_, ?_⟩
  · intro fuel timecode
    simp only [packet_loop, hg]
  · intro fuel mem timecode hl
    simp [process, hl]

theorem get_aac_packet_keeps_state_without_frame_witness :
    (∃ hdr, get_aac_packet (spec_env (spec_find_aac_header sample_parse))
        { sample_aac_packetizer with byte_buffer := [255, 4, 7] } =
      .ok (none, hdr, { sample_aac_packetizer with byte_buffer := [255, 4, 7] })) ∧
    process (spec_env (spec_find_aac_header sample_parse)) 3
        { sample_aac_packetizer with byte_buffer := [255, 4, 7] } [8] 0 =
      packet_loop (spec_env (spec_find_aac_header sample_parse)) 0 3
        { sample_aac_packetizer with byte_buffer := [255, 4, 7, 8] } :=
  have h := get_aac_packet_keeps_state_without_frame
    (spec_env (spec_find_aac_header sample_parse))
    { sample_aac_packetizer with byte_buffer := [255, 4, 7] } (Or.inr (by decide))
  ⟨h.1, h.2.2 3 [8] 0 rfl⟩

theorem scan_aac_header_skip (parse : List Nat → Bool → Option aac_header_t) (e : Bool)
    (junk rest : List Nat) :
    ∀ q, (∀ p, p < junk.length → parse ((junk ++ rest).drop p) e = none) →
      scan_aac_header parse e q (junk ++ rest) =
        scan_aac_header parse e (q + junk.length) rest := by
  induction junk with
  | nil => intro q _; simp
  | cons b junk ih =>
    intro q h
    have h0 := h 0 (by simp)
    simp only [List.drop_zero, List.cons_append] at h0
    rw [List.cons_append, scan_aac_header]
    simp only [h0, List.length_cons]
    rw [ih (q + 1)]
    · congr 1; omega
    · intro p hp
      have := h (p + 1) (by simp; omega)
      simpa using this

theorem scan_aac_header_hit (parse : List Nat → Bool → Option aac_header_t) (e : Bool)
    (buf : List Nat) (q : Nat) (h : aac_header_t) (hne : 0 < buf.length)
    (hp : parse buf e = some h) : scan_aac_header parse e q buf = some (q, h) := by
  match buf, hne with
  | b :: rest, _ => simp only [scan_aac_header, hp]

theorem spec_find_aac_header_frame (parse : List Nat → Bool → Option aac_header_t) (e : Bool)
    (junk f rest : List Nat) (h : aac_header_t) (hne : 0 < f.length)
    (hjunk : ∀ p, p < junk.length → parse ((junk ++ (f ++ rest)).drop p) e = none)
    (hp : parse (f ++ rest) e = some h) :
    spec_find_aac_header parse (junk ++ (f ++ rest)) e = ((junk.length : Int), h) := by
  unfold spec_find_aac_header
  rw [scan_aac_header_skip parse e junk (f ++ rest) 0 hjunk,
    scan_aac_header_hit parse e (f ++ rest) _ h (by simp; omega) hp]
  simp

theorem spec_find_aac_header_junk (parse : List Nat → Bool → Option aac_header_t) (e : Bool)
    (junk : List Nat)
    (hjunk : ∀ p, p < junk.length → parse (junk.drop p) e = none) :
    (spec_find_aac_header parse junk e).1 = -1 := by
  unfold spec_find_aac_header
  have h := scan_aac_header_skip parse e junk [] 0 (by simpa using hjunk)
  rw [List.append_nil] at h
  rw [h]
  simp [scan_aac_header]

theorem shift_copy_congr (src src' : List Nat) (up_shift down_shift n : Nat)
    (h : ∀ i, i < n → src.getD i 0 = src'.getD i 0) :
    shift_copy src up_shift down_shift n = shift_copy src' up_shift down_shift n := by
  rcases Nat.eq_zero_or_pos n with hn | hn
  · subst hn
    simp [shift_copy]
  · rw [shift_copy_eq _ _ _ _ hn, shift_copy_eq _ _ _ _ hn]
    unfold shift_copy_after
    apply List.map_congr_left
    intro j hj
    have hj' : j < n := by simpa using hj
    by_cases h1 : j < n - 1
    · simp only [h1, if_true]
      rw [h j hj', h (j + 1) (by omega)]
    · have h2 : j = n - 1 := by omega
      subst h2
      simp only [h1, if_false, if_true]
      rw [h (n - 1) (by omega)]

theorem valid_frames_cons (parse : List Nat → Bool → Option aac_header_t) (e : Bool)
    (f : List Nat) (fs : List (List Nat)) (hv : valid_frames parse e (f :: fs) = true) :
    (∃ h, parse (f ++ fs.flatten) e = some h ∧ h.bytes = f.length ∧ 0 < f.length ∧
      payload_within_frame h = true) ∧
    valid_frames parse e fs = true := by
  rw [valid_frames, Bool.and_eq_true] at hv
  obtain ⟨hhead, hrest⟩ := hv
  refine ⟨?_, hrest⟩
  cases hp : parse (f ++ fs.flatten) e with
  | none => rw [hp] at hhead; simp at hhead
  | some h =>
    rw [hp] at hhead
    simp only [Bool.and_eq_true, decide_eq_true_eq] at hhead
    exact ⟨h, rfl, hhead.1.1, hhead.1.2, hhead.2⟩

theorem extract_payload_in_frame (junk f rest : List Nat) (h : aac_header_t)
    (hb : h.bytes = f.length) (hw : payload_within_frame h = true) :
    extract_payload (junk ++ (f ++ rest)) (junk.length : Int) h = extract_payload f 0 h := by
  simp only [payload_within_frame, Bool.and_eq_true, decide_eq_true_eq] at hw
  obtain ⟨⟨⟨⟨h1, h2⟩, h3⟩, h4⟩, h5⟩ := hw
  unfold extract_payload
  by_cases ha : h.header_bit_size.tmod 8 = 0
  · rw [if_pos ha, if_pos ha]
    have e1 : ((junk.length : Int) + h.header_byte_size).toNat =
        junk.length + h.header_byte_size.toNat := by omega
    have e2 : ((0 : Int) + h.header_byte_size).toNat = h.header_byte_size.toNat := by omega
    have e3 : h.header_byte_size.toNat ≤ f.length := by omega
    rw [e1, e2, List.drop_append, List.drop_append_of_le_length e3,
      List.take_append_of_le_length]
    rw [List.length_drop]
    omega
  · rw [if_neg ha, if_neg ha]
    dsimp only
    have hq : 0 ≤ h.header_bit_size.tdiv 8 := Int.tdiv_nonneg h1 (by omega)
    have e1 : ((junk.length : Int) + h.header_bit_size.tdiv 8).toNat =
        junk.length + (h.header_bit_size.tdiv 8).toNat := by omega
    have e2 : ((0 : Int) + h.header_bit_size.tdiv 8).toNat =
        (h.header_bit_size.tdiv 8).toNat := by omega
    have e3 : (h.header_bit_size.tdiv 8).toNat ≤ f.length := by omega
    rw [e1, e2, List.drop_append, List.drop_append_of_le_length e3]
    apply shift_copy_congr
    intro i hi
    apply List.getD_append
    rw [List.length_drop]
    omega

theorem get_aac_packet_frame {σ : Type} (env : aac_env σ)
    (parse : List Nat → Bool → Option aac_header_t)
    (hfind : env.find_aac_header = spec_find_aac_header parse)
    (st : aac_packetizer_c σ) (junk f rest : List Nat) (h : aac_header_t)
    (hbuf : st.byte_buffer = junk ++ (f ++ rest))
    (hjunk : ∀ p, p < junk.length →
      parse ((junk ++ (f ++ rest)).drop p) st.emphasis_present = none)
    (hp : parse (f ++ rest) st.emphasis_present = some h)
    (hb : h.bytes = f.length) (hne : 0 < f.length) (hw : payload_within_frame h = true)
    (hneg : env.needs_negative_displacement st.async
      (1024 * 1000000000 / st.samples_per_sec) = false)
    (hpos : env.needs_positive_displacement st.async
      (1024 * 1000000000 / st.samples_per_sec) = false) :
    get_aac_packet env st =
      .ok (some (extract_payload f 0 h), h, { st with byte_buffer := rest }) := by
  have hf := spec_find_aac_header_frame parse st.emphasis_present junk f rest h hne hjunk hp
  unfold get_aac_packet
  dsimp only
  rw [hfind, hbuf, hf]
  dsimp only
  rw [if_neg (by omega), if_neg (by simp only [List.length_append]; omega)]
  simp only [hneg, hpos, Bool.false_eq_true, if_false]
  have hrem : byte_buffer_remove (junk ++ (f ++ rest)) ((junk.length : Int) + h.bytes) =
      .ok rest := by
    unfold byte_buffer_remove
    rw [if_neg (by simp only [List.length_append]; omega)]
    have : ((junk.length : Int) + h.bytes).toNat = (junk ++ f).length := by
      simp only [List.length_append]; omega
    rw [this, ← List.append_assoc, List.drop_left]
  rw [hrem, extract_payload_in_frame junk f rest h hb hw]

theorem packet_loop_frames {σ : Type} (env : aac_env σ)
    (parse : List Nat → Bool → Option aac_header_t)
    (hfind : env.find_aac_header = spec_find_aac_header parse) (timecode : Int) :
    ∀ (fs : List (List Nat)) (junk : List Nat) (st : aac_packetizer_c σ) (fuel : Nat),
      st.byte_buffer = junk ++ fs.flatten →
      (∀ p, p < junk.length →
        parse ((junk ++ fs.flatten).drop p) st.emphasis_present = none) →
      valid_frames parse st.emphasis_present fs = true →
      env.needs_negative_displacement st.async (1024 * 1000000000 / st.samples_per_sec) = false →
      env.needs_positive_displacement st.async (1024 * 1000000000 / st.samples_per_sec) = false →
      fs.length < fuel →
      ∃ st1, packet_loop env timecode fuel st = .returned st1 ∧
        st1.byte_buffer = (if fs = [] then junk else []) ∧
        st1.packet_queue.map packet_t.data =
          st.packet_queue.map packet_t.data ++ frame_payloads parse st.emphasis_present fs ∧
        st1.packet_queue.length = st.packet_queue.length + fs.length := by
  intro fs
  induction fs with
  | nil =>
    intro junk st fuel hbuf hjunk _ _ _ hfuel
    obtain ⟨fuel, rfl⟩ : ∃ k, fuel = k + 1 := ⟨fuel - 1, by omega⟩
    simp only [List.flatten_nil, List.append_nil] at hbuf hjunk
    have hf : (env.find_aac_header st.byte_buffer st.emphasis_present).1 < 0 := by
      rw [hfind, hbuf, spec_find_aac_header_junk parse st.emphasis_present junk hjunk]
      decide
    have hg := get_aac_packet_none_of_not_found env st (Or.inl hf)
    refine ⟨st, ?_, ?_, ?_, ?_⟩
    · simp only [packet_loop, hg]
    · simp [hbuf]
    · simp [frame_payloads]
    · simp
  | cons f fs ih =>
    intro junk st fuel hbuf hjunk hvalid hneg hpos hfuel
    obtain ⟨fuel, rfl⟩ : ∃ k, fuel = k + 1 := ⟨fuel - 1, by omega⟩
    obtain ⟨⟨h, hp, hb, hne, hw⟩, hrest⟩ := valid_frames_cons _ _ _ _ hvalid
    rw [List.flatten_cons] at hbuf hjunk
    have hg := get_aac_packet_frame env parse hfind st junk f fs.flatten h hbuf hjunk hp hb hne
      hw hneg hpos
    simp only [packet_loop, hg]
    obtain ⟨st1, hrun, hb1, hq1, hl1⟩ := ih []
      { ({ st with byte_buffer := fs.flatten } : aac_packetizer_c σ).add_packet
          (extract_payload f 0 h)
          (to_int64 (double_mul (double_of_int (if timecode = -1 then
              to_int64 (double_div
                (double_mul (double_mul 1024 1000000000) (double_of_int st.packetno))
                (double_of_int st.samples_per_sec))
            else to_int64 (timecode + env.displacement st.async))) st.linear))
          (to_int64 (double_div (double_mul (double_mul 1024 1000000000) st.linear)
            (double_of_int st.samples_per_sec))) with
        packetno := st.packetno + 1 }
      fuel (by simp [aac_packetizer_c.add_packet]) (by simp)
      (by simpa [aac_packetizer_c.add_packet] using hrest)
      (by simpa [aac_packetizer_c.add_packet] using hneg)
      (by simpa [aac_packetizer_c.add_packet] using hpos)
      (by simp only [List.length_cons] at hfuel; omega)
    refine ⟨st1, ?_, ?_, ?_, ?_⟩
    · simpa [aac_packetizer_c.add_packet] using hrun
    · simp only [hb1, ite_self]
      simp
    · rw [hq1]
      simp [aac_packetizer_c.add_packet, frame_payloads, hp]
    · rw [hl1]
      simp [aac_packetizer_c.add_packet]
      omega

/-- C5 (amended): in header-scanning mode with no displacement pending, when the accumulator
after the append holds `j` bytes at which no header validates, followed by `k` complete valid
frames, one call of `process` returns after handing exactly `k` packets to `add_packet`, the
`i`-th carrying the payload of the `i`-th frame; the first frame is found at offset `j`; the
accumulator is left empty when `k ≥ 1`, and keeps the `j` bytes when `k = 0`. -/
theorem process_emits_every_frame_after_skipped_bytes {σ : Type} (env : aac_env σ)
    (parse : List Nat → Bool → Option aac_header_t)
    (hfind : env.find_aac_header = spec_find_aac_header parse)
    (st : aac_packetizer_c σ) (mem junk : List Nat) (fs : List (List Nat))
    (fuel : Nat) (timecode : Int)
    (hmode : st.headerless = false)
    (hbuf : st.byte_buffer ++ mem = junk ++ fs.flatten)
    (hjunk : ∀ p, p < junk.length →
      parse ((junk ++ fs.flatten).drop p) st.emphasis_present = none)
    (hvalid : valid_frames parse st.emphasis_present fs = true)
    (hneg : env.needs_negative_displacement st.async
      (1024 * 1000000000 / st.samples_per_sec) = false)
    (hpos : env.needs_positive_displacement st.async
      (1024 * 1000000000 / st.samples_per_sec) = false)
    (hfuel : fs.length < fuel) :
    ∃ st1, process env fuel st mem timecode = .returned st1 ∧
      st1.packet_queue.length = st.packet_queue.length + fs.length ∧
      st1.packet_queue.map packet_t.data =
        st.packet_queue.map packet_t.data ++ frame_payloads parse st.emphasis_present fs ∧
      (fs ≠ [] →
        (env.find_aac_header (st.byte_buffer ++ mem) st.emphasis_present).1 = junk.length) ∧
      (fs ≠ [] → st1.byte_buffer = []) ∧
      (fs = [] → st1.byte_buffer = junk) := by
  obtain ⟨st1, hrun, hb1, hq1, hl1⟩ := packet_loop_frames env parse hfind timecode fs junk
    { st with byte_buffer := st.byte_buffer ++ mem } fuel hbuf hjunk hvalid hneg hpos hfuel
  refine ⟨st1, ?_, hl1, hq1, ?_, ?_, ?_⟩
  · unfold process
    rw [if_neg (by simp [hmode])]
    exact hrun
  · intro hne
    match fs, hne, hvalid, hbuf, hjunk with
    | f :: fs, _, hvalid, hbuf, hjunk =>
      obtain ⟨⟨h, hp, _, hlen, _⟩, _⟩ := valid_frames_cons _ _ _ _ hvalid
      rw [List.flatten_cons] at hbuf hjunk
      rw [hfind, hbuf,
        spec_find_aac_header_frame parse st.emphasis_present junk f fs.flatten h hlen hjunk hp]
  · intro hne
    rw [hb1, if_neg hne]
  · intro he
    rw [hb1, if_pos he]

theorem process_emits_every_frame_after_skipped_bytes_witness :
    ∃ st1, process (spec_env (spec_find_aac_header sample_parse)) 4 sample_scanner
        ([0] ++ [[255, 3, 10], [255, 4, 20, 21], [255, 2]].flatten) (-1) = .returned st1 ∧
      st1.packet_queue.map packet_t.data = [[10], [20, 21], []] ∧
      (spec_find_aac_header sample_parse
        ([0] ++ [[255, 3, 10], [255, 4, 20, 21], [255, 2]].flatten) false).1 = 1 ∧
      st1.byte_buffer = [] := by
  obtain ⟨st1, h1, -, h3, h4, h5, -⟩ := process_emits_every_frame_after_skipped_bytes
    (spec_env (spec_find_aac_header sample_parse)) sample_parse rfl sample_scanner
    ([0] ++ [[255, 3, 10], [255, 4, 20, 21], [255, 2]].flatten) [0]
    [[255, 3, 10], [255, 4, 20, 21], [255, 2]] 4 (-1) rfl rfl
    (by intro p hp
        have : p = 0 := by simpa using hp
        subst this
        rfl)
    (by with_unfolding_all rfl)
    (by simp [spec_env, sample_scanner, aac_packetizer_c.create])
    (by simp [spec_env, sample_scanner, aac_packetizer_c.create])
    (by decide)
  exact ⟨st1, h1, h3, h4 (by simp), h5 (by simp)⟩

/-- C5 (counterexample): one byte at which no header validates and no frame behind it: the
call of `process` returns with the byte still in the accumulator. -/
theorem process_keeps_skipped_bytes_without_frame :
    ∃ st1, process (spec_env (spec_find_aac_header sample_parse_none)) 1 sample_scanner
        [0] (-1) = .returned st1 ∧ st1.packet_queue = [] ∧ st1.byte_buffer = [0] ∧
      st1.byte_buffer ≠ [] := by
  refine ⟨{ sample_scanner with byte_buffer := [0] }, ?_, rfl, rfl, by decide⟩
  simp [process, packet_loop, get_aac_packet, spec_env, spec_find_aac_header,
    scan_aac_header, sample_parse_none, sample_scanner, aac_packetizer_c.create]

/-! ## Truncation toward zero -/

theorem to_int64_of_nonneg (x : ℚ) (hx : 0 ≤ x) : to_int64 x = ⌊x⌋ := by
  unfold to_int64
  rw [Rat.floor_def, Int.tdiv_eq_ediv (Rat.num_nonneg.mpr hx) (by exact_mod_cast Nat.zero_le _)]

theorem to_int64_neg (x : ℚ) : to_int64 (-x) = -to_int64 x := by
  unfold to_int64
  rw [Rat.num_neg_eq_neg_num, Rat.den_neg_eq_den, Int.neg_tdiv]

theorem to_int64_of_nonpos (x : ℚ) (hx : x ≤ 0) : to_int64 x = ⌈x⌉ := by
  have h := to_int64_of_nonneg (-x) (by linarith)
  rw [to_int64_neg] at h
  rw [Int.floor_neg] at h
  omega

theorem to_int64_intCast (n : Int) : to_int64 (n : ℚ) = n := by
  unfold to_int64
  simp

theorem to_int64_mono {x y : ℚ} (h : x ≤ y) : to_int64 x ≤ to_int64 y := by
  rcases le_total 0 x with hx | hx
  · rw [to_int64_of_nonneg x hx, to_int64_of_nonneg y (le_trans hx h)]
    exact Int.floor_mono h
  · rcases le_total 0 y with hy | hy
    · rw [to_int64_of_nonpos x hx, to_int64_of_nonneg y hy]
      have h1 : ⌈x⌉ ≤ 0 := Int.ceil_le.mpr (by simpa using hx)
      have h2 : 0 ≤ ⌊y⌋ := Int.floor_nonneg.mpr hy
      omega
    · rw [to_int64_of_nonpos x hx, to_int64_of_nonpos y hy]
      exact Int.ceil_mono h

theorem to_int64_le_self (x : ℚ) (hx : 0 ≤ x) : (to_int64 x : ℚ) ≤ x ∧ x < to_int64 x + 1 := by
  rw [to_int64_of_nonneg x hx]
  exact ⟨Int.floor_le x, Int.lt_floor_add_one x⟩

theorem to_int64_nonneg (x : ℚ) (hx : 0 ≤ x) : 0 ≤ to_int64 x := by
  rw [to_int64_of_nonneg x hx]
  exact Int.floor_nonneg.mpr hx

/-! ## The reader: what the constructor leaves behind -/

/-- C11 (counterexample): a header that `probe_file` accepts, with 2 channels, 16 bits per
sample and the sample rate `2^31`: the product `2^36` wraps to 0 in 32 bits, so the constructor
stores `bps = 0`, not `2^36 / 8 = 2^33`. -/
theorem bps_wraps_for_large_sample_rate :
    ∃ r, wav_reader_c.create sample_dts_common sample_wrapping_file [] [] () = .ok r ∧
      (probe_file sample_wrapping_file sample_wrapping_file.data.length).1 = 1 ∧
      get_uint16 r.wheader.wChannels = 2 ∧ get_uint16 r.wheader.wBitsPerSample = 16 ∧
      get_uint32 r.wheader.dwSamplesPerSec = 2147483648 ∧
      r.bps = 0 ∧
      r.bps ≠ get_uint16 r.wheader.wChannels * get_uint16 r.wheader.wBitsPerSample *
        get_uint32 r.wheader.dwSamplesPerSec / 8 :=
  ⟨_, rfl, by decide, by decide, by decide, by decide, by decide, by decide⟩

/-- C11 (amended): after a successful constructor `bps` is the product
channels × bitsPerSample × sampleRate of the header fields reduced modulo `2^32`, divided by 8
(rounded down); it is the mathematical value `floor(product / 8)` whenever the product is
below `2^32`. -/
theorem bps_is_product_modulo_two_pow_32 {H : Type} (env : dts_common H) (file : mm_io_c)
    (scratch0 scratch1 : List Nat) (hdr0 : H) (r : wav_reader_c H)
    (hc : wav_reader_c.create env file scratch0 scratch1 hdr0 = .ok r) :
    r.wheader = ⟨file.data.take sizeof_wave_header⟩ ∧
    r.bps = (get_uint16 r.wheader.wChannels * get_uint16 r.wheader.wBitsPerSample *
      get_uint32 r.wheader.dwSamplesPerSec) % 2 ^ 32 / 8 ∧
    (get_uint16 r.wheader.wChannels * get_uint16 r.wheader.wBitsPerSample *
        get_uint32 r.wheader.dwSamplesPerSec < 2 ^ 32 →
      r.bps = get_uint16 r.wheader.wChannels * get_uint16 r.wheader.wBitsPerSample *
        get_uint32 r.wheader.dwSamplesPerSec / 8) := by
  have hr := create_ok env file scratch0 scratch1 hdr0 r hc
  have hb : r.bps = compute_bps r.wheader := by rw [hr]
  have hw : r.wheader = ⟨file.data.take sizeof_wave_header⟩ := by rw [hr]
  refine ⟨hw, ?_, ?_⟩
  · rw [hb, compute_bps]
  · intro hlt
    rw [hb, compute_bps, Nat.mod_eq_of_lt hlt]

theorem bps_is_product_modulo_two_pow_32_witness :
    ∃ r, wav_reader_c.create sample_dts_common sample_pcm_file [] [] () = .ok r ∧
      r.bps = (get_uint16 r.wheader.wChannels * get_uint16 r.wheader.wBitsPerSample *
        get_uint32 r.wheader.dwSamplesPerSec) % 2 ^ 32 / 8 ∧
      r.bps = 176400 := by
  have h := bps_is_product_modulo_two_pow_32 sample_dts_common sample_pcm_file [] [] () _ rfl
  exact ⟨_, rfl, h.2.1, by decide⟩

/-- C15: after a successful constructor the read position of the file is `sizeof(wave_header)`,
whatever the detector found and however many probe bytes were read; the file content is
untouched. -/
theorem constructor_leaves_position_after_header {H : Type} (env : dts_common H)
    (file : mm_io_c) (scratch0 scratch1 : List Nat) (hdr0 : H) (r : wav_reader_c H)
    (hc : wav_reader_c.create env file scratch0 scratch1 hdr0 = .ok r) :
    r.mm_io.getFilePointer = sizeof_wave_header ∧ r.mm_io.data = file.data ∧
    (r.mm_io.read env.max_dts_packet_size).1 = probe_bytes env file := by
  have hr := create_ok env file scratch0 scratch1 hdr0 r hc
  subst hr
  exact ⟨rfl, rfl, rfl⟩

theorem constructor_leaves_position_after_header_witness :
    ∃ r, wav_reader_c.create sample_dts_common sample_dts_file [] [] () = .ok r ∧
      r.is_dts = true ∧ r.mm_io.getFilePointer = 44 := by
  have h := constructor_leaves_position_after_header sample_dts_common sample_dts_file
    [] [] () _ rfl
  exact ⟨_, rfl, by decide, h.1⟩

/-- C14 (the code where the claim fails): two runs of the constructor on the same file (same
header, same probe window of 32 zero bytes) that differ only in the prior content of the
scratch area `buf[1]`.  The trial with expansion searches `erlen = rlen` bytes of `buf[1]`,
of which the expansion has written only the first 28; the last 4 are the prior content.  With
zero bytes there no trial finds a header (`is_dts = false`, `dts_swap_bytes = 2`); with the
bytes `7F FE 80 01` there the search succeeds (`is_dts = true`, `dts_swap_bytes = 0`). -/
theorem detector_outcome_depends_on_scratch_contents :
    ∃ ra rb,
      wav_reader_c.create sample_dts_scanning sample_silent_file sample_scratch_zero
        sample_scratch_zero () = .ok ra ∧
      wav_reader_c.create sample_dts_scanning sample_silent_file sample_scratch_zero
        sample_scratch_sync () = .ok rb ∧
      ra.wheader = rb.wheader ∧
      probe_bytes sample_dts_scanning sample_silent_file = List.replicate 32 0 ∧
      window_expanded sample_dts_scanning (List.replicate 32 0) sample_scratch_zero
        sample_scratch_zero = List.replicate 32 0 ∧
      window_expanded sample_dts_scanning (List.replicate 32 0) sample_scratch_zero
        sample_scratch_sync = List.replicate 28 0 ++ [127, 254, 128, 1] ∧
      ra.is_dts = false ∧ rb.is_dts = true ∧
      ra.dts_swap_bytes = 2 ∧ rb.dts_swap_bytes = 0 :=
  ⟨_, _, rfl, rfl, by decide, by decide, by decide, by decide, by decide, by decide, by decide,
    by decide⟩

/-! ## The reader: the divisors of the progress display -/

/-- C20 (the code where the claim fails): two headers that `probe_file` accepts and on which
the constructor succeeds.  The first declares 0 channels: the constructor stores `bps = 0` and
`display_progress` divides by zero at its first division, final or not.  The second is an
ordinary PCM file shorter than one second (2 channels, 16 bits, 44100 Hz, riff length 52): it
has `bps = 176400` and `samples = (52 - 44 + 8) / 176400 = 0`, and the non-final call divides
by `samples`. -/
theorem accepted_headers_with_zero_divisor :
    ∃ ra rb,
      wav_reader_c.create sample_dts_common sample_zero_channel_file [] [] () = .ok ra ∧
      wav_reader_c.create sample_dts_common sample_pcm_file [] [] () = .ok rb ∧
      (probe_file sample_zero_channel_file sample_zero_channel_file.data.length).1 = 1 ∧
      (probe_file sample_pcm_file sample_pcm_file.data.length).1 = 1 ∧
      ra.bps = 0 ∧ ra.display_progress true = none ∧ ra.display_progress false = none ∧
      rb.bps = 176400 ∧ get_uint32 rb.wheader.riff_len = 52 ∧ display_samples rb = some 0 ∧
      rb.display_progress false = none :=
  ⟨_, _, rfl, rfl, by decide, by decide, by decide, by decide, by decide, by decide, by decide,
    by decide, by decide⟩

/-- Where `display_progress` divides by zero: when `bps` is zero, or, in the non-final case,
when `samples` is zero.  `samples` is the quotient of the riff length minus the header size
plus 8 (modulo `2^64`) by `bps`, stored in a 32-bit `int`. -/
theorem display_progress_divides_by_zero_iff {H : Type} (r : wav_reader_c H) (final : Bool) :
    (r.display_progress final = none ↔
      r.bps = 0 ∨ (final = false ∧ display_samples r = some 0)) ∧
    (r.bps ≠ 0 → display_samples r = some (to_int32
      (((get_uint32 r.wheader.riff_len + 2 ^ 64 - sizeof_wave_header + 8) % 2 ^ 64 / r.bps
        : Nat)))) := by
  constructor
  · unfold wav_reader_c.display_progress display_samples
    by_cases hb : r.bps = 0
    · simp [hb]
    · cases final <;> simp [hb]
  · intro hb
    simp [display_samples, hb]

/-! ## The AAC packetizer: the codec identifier -/

theorem lookup_cons_ite {β : Type} (a x : Int) (b : β) (l : List (Int × β)) :
    List.lookup x ((a, b) :: l) = if x = a then some b else List.lookup x l := by
  by_cases h : x = a
  · simp [List.lookup, h]
  · have : (x == a) = false := by simpa using h
    simp [List.lookup, h, this]

theorem set_headers_eq {σ : Type} (k : aac_constants)
    (st : aac_packetizer_c σ) (t : track_headers) :
    set_headers k st t =
      match (codec_table k (decide (st.id = k.AAC_ID_MPEG4))).lookup st.profile with
      | some c => .ok { codec_id := some c, audio_sampling_freq := some st.samples_per_sec,
                        audio_channels := some st.channels }
      | none => .error (if st.id = k.AAC_ID_MPEG4 then
                          "aac_packetizer: Unknown AAC MPEG-4 object type."
                        else "aac_packetizer: Unknown AAC MPEG-2 profile.", t) := by
  unfold set_headers codec_table
  by_cases hid : st.id = k.AAC_ID_MPEG4
  · simp only [hid, decide_True, if_true, lookup_cons_ite, List.lookup_nil]
    split_ifs <;> rfl
  · simp only [hid, decide_False, if_false, lookup_cons_ite, List.lookup_nil,
      Bool.false_eq_true]
    split_ifs <;> rfl

theorem lookup_eq_none_iff_not_mem_keys {β : Type} (x : Int) (l : List (Int × β)) :
    List.lookup x l = none ↔ x ∉ l.map Prod.fst := by
  induction l with
  | nil => simp
  | cons p l ih =>
    obtain ⟨a, b⟩ := p
    rw [lookup_cons_ite]
    by_cases h : x = a
    · simp [h]
    · simp [h, ih]

/-- C12: `set_headers` follows the table keyed by `id` and `profile`: when the profile is in
the table for the id, the codec identifier of its (first) entry is stored together with the
sample rate and the channel count; when it is not, `die` is reached, and this is the only way
to reach it; at that moment the track metadata are as they were before the call.  With
`AAC_PROFILE_LTP` different from the four MPEG-2 profiles, MPEG-2 with LTP aborts. -/
theorem set_headers_follows_codec_table {σ : Type} (k : aac_constants)
    (st : aac_packetizer_c σ) (t : track_headers) :
    (∀ c, (codec_table k (decide (st.id = k.AAC_ID_MPEG4))).lookup st.profile = some c →
      set_headers k st t = .ok { codec_id := some c,
                                 audio_sampling_freq := some st.samples_per_sec,
                                 audio_channels := some st.channels }) ∧
    ((∃ e, set_headers k st t = .error e) ↔
      st.profile ∉ (codec_table k (decide (st.id = k.AAC_ID_MPEG4))).map Prod.fst) ∧
    (∀ e, set_headers k st t = .error e → e.2 = t) ∧
    (st.id ≠ k.AAC_ID_MPEG4 → st.profile = k.AAC_PROFILE_LTP →
      k.AAC_PROFILE_LTP ∉
        [k.AAC_PROFILE_MAIN, k.AAC_PROFILE_LC, k.AAC_PROFILE_SSR, k.AAC_PROFILE_SBR] →
      set_headers k st t = .error ("aac_packetizer: Unknown AAC MPEG-2 profile.", t)) := by
  have he := set_headers_eq k st t
  refine ⟨?_, ?_, ?_, ?_⟩
  · intro c hc
    rw [he, hc]
  · rw [← lookup_eq_none_iff_not_mem_keys]
    cases hl : (codec_table k (decide (st.id = k.AAC_ID_MPEG4))).lookup st.profile with
    | none =>
      rw [hl] at he
      simp [he]
    | some c =>
      rw [hl] at he
      simp [he]
  · intro e hee
    cases hl : (codec_table k (decide (st.id = k.AAC_ID_MPEG4))).lookup st.profile with
    | none =>
      rw [hl] at he
      rw [he] at hee
      cases hee
      rfl
    | some c =>
      rw [hl] at he
      rw [he] at hee
      cases hee
  · intro hid hp hn
    have hl : (codec_table k (decide (st.id = k.AAC_ID_MPEG4))).lookup st.profile = none := by
      rw [lookup_eq_none_iff_not_mem_keys]
      simpa [codec_table, hid, hp] using hn
    rw [hl] at he
    rw [he, if_neg hid]

/-- C12 on sample values: MPEG-4 with LTP selects `MKV_A_AAC_4LTP`, MPEG-2 with LTP aborts
and leaves the metadata unset. -/
theorem set_headers_sample_runs :
    set_headers sample_aac_constants
        { sample_aac_packetizer with id := 0, profile := 3 } ⟨none, none, none⟩ =
      .ok ⟨some codec_id_t.MKV_A_AAC_4LTP, some sample_aac_packetizer.samples_per_sec,
        some sample_aac_packetizer.channels⟩ ∧
    set_headers sample_aac_constants
        { sample_aac_packetizer with id := 1, profile := 3 } ⟨none, none, none⟩ =
      .error ("aac_packetizer: Unknown AAC MPEG-2 profile.", ⟨none, none, none⟩) := by
  constructor <;> with_unfolding_all rfl

/-! ## The AAC packetizer: removal from the accumulator -/

theorem byte_buffer_remove_of_le (buf : List Nat) (num : Int) (h : num ≤ buf.length) :
    byte_buffer_remove buf num = .ok (buf.drop num.toNat) := by
  unfold byte_buffer_remove
  rw [if_neg (by omega)]

theorem get_aac_packet_eq {σ : Type} (env : aac_env σ) (st : aac_packetizer_c σ) :
    get_aac_packet env st =
      .ok (if (env.find_aac_header st.byte_buffer st.emphasis_present).1 < 0 ∨
          (env.find_aac_header st.byte_buffer st.emphasis_present).1 +
            (env.find_aac_header st.byte_buffer st.emphasis_present).2.bytes >
              st.byte_buffer.length then
          (none, (env.find_aac_header st.byte_buffer st.emphasis_present).2, st)
        else if env.needs_negative_displacement st.async
            (1024 * 1000000000 / st.samples_per_sec) then
          (none, (env.find_aac_header st.byte_buffer st.emphasis_present).2,
            { st with
              async := env.displace st.async (-(1024 * 1000000000 / st.samples_per_sec)),
              byte_buffer := st.byte_buffer.drop
                ((env.find_aac_header st.byte_buffer st.emphasis_present).1 +
                  (env.find_aac_header st.byte_buffer st.emphasis_present).2.bytes).toNat })
        else if env.needs_positive_displacement st.async
            (1024 * 1000000000 / st.samples_per_sec) then
          (some (extract_payload st.byte_buffer
              (env.find_aac_header st.byte_buffer st.emphasis_present).1
              (env.find_aac_header st.byte_buffer st.emphasis_present).2),
            (env.find_aac_header st.byte_buffer st.emphasis_present).2,
            { st with
              async := env.displace st.async (1024 * 1000000000 / st.samples_per_sec) })
        else
          (some (extract_payload st.byte_buffer
              (env.find_aac_header st.byte_buffer st.emphasis_present).1
              (env.find_aac_header st.byte_buffer st.emphasis_present).2),
            (env.find_aac_header st.byte_buffer st.emphasis_present).2,
            { st with
              byte_buffer := st.byte_buffer.drop
                ((env.find_aac_header st.byte_buffer st.emphasis_present).1 +
                  (env.find_aac_header st.byte_buffer st.emphasis_present).2.bytes).toNat })) := by
  unfold get_aac_packet
  dsimp only
  by_cases h1 : (env.find_aac_header st.byte_buffer st.emphasis_present).1 < 0
  · rw [if_pos h1, if_pos (Or.inl h1)]
  · rw [if_neg h1]
    by_cases h2 : (env.find_aac_header st.byte_buffer st.emphasis_present).1 +
        (env.find_aac_header st.byte_buffer st.emphasis_present).2.bytes >
          st.byte_buffer.length
    · rw [if_pos h2, if_pos (Or.inr h2)]
    · have hor : ¬ ((env.find_aac_header st.byte_buffer st.emphasis_present).1 < 0 ∨
          (env.find_aac_header st.byte_buffer st.emphasis_present).1 +
            (env.find_aac_header st.byte_buffer st.emphasis_present).2.bytes >
              st.byte_buffer.length) := by
        rintro (h | h)
        · exact h1 h
        · exact h2 h
      rw [if_neg h2, if_neg hor, byte_buffer_remove_of_le _ _ (by omega)]
      by_cases h3 : env.needs_negative_displacement st.async
          (1024 * 1000000000 / st.samples_per_sec) = true
      · rw [if_pos h3, if_pos h3]
      · rw [if_neg h3, if_neg h3]
        by_cases h4 : env.needs_positive_displacement st.async
            (1024 * 1000000000 / st.samples_per_sec) = true
        · rw [if_pos h4, if_pos h4]
        · rw [if_neg h4, if_neg h4]

theorem packet_loop_never_dies {σ : Type} (env : aac_env σ) (timecode : Int) (msg : String) :
    ∀ (fuel : Nat) (st : aac_packetizer_c σ), packet_loop env timecode fuel st ≠ .died msg := by
  intro fuel
  induction fuel with
  | zero => intro st; simp [packet_loop]
  | succ fuel ih =>
    intro st
    rw [packet_loop]
    split
    · rename_i e he
      rw [get_aac_packet_eq] at he
      cases he
    · simp
    · exact ih _

theorem duplicate_loop_never_dies {σ : Type} (env : aac_env σ) (mem : List Nat)
    (my_timecode duration : Int) (msg : String) :
    ∀ (fuel : Nat) (st : aac_packetizer_c σ),
      duplicate_loop env mem my_timecode duration fuel st ≠ .died msg := by
  intro fuel
  induction fuel with
  | zero => intro st; simp [duplicate_loop]
  | succ fuel ih =>
    intro st
    rw [duplicate_loop]
    split_ifs
    · exact ih _
    · simp

/-- C16: the precondition of `byte_buffer.remove` holds at every call `get_aac_packet` makes:
the call never ends in the failure of the accumulator, whatever the accumulator holds and
whatever `find_aac_header` and the displacement helpers answer; whenever the accumulator is
shortened, the number of bytes removed is `pos + bytes` of the header found, with
`0 ≤ pos` and `pos + bytes ≤ size`.  Hence neither the extraction loop nor `process` dies. -/
theorem accumulator_remove_precondition_always_holds {σ : Type} (env : aac_env σ)
    (st : aac_packetizer_c σ) :
    (∃ res, get_aac_packet env st = .ok res) ∧
    (∀ res, get_aac_packet env st = .ok res →
      res.2.2.byte_buffer = st.byte_buffer ∨
      (0 ≤ (env.find_aac_header st.byte_buffer st.emphasis_present).1 ∧
        (env.find_aac_header st.byte_buffer st.emphasis_present).1 +
          (env.find_aac_header st.byte_buffer st.emphasis_present).2.bytes ≤
            st.byte_buffer.length ∧
        byte_buffer_remove st.byte_buffer
          ((env.find_aac_header st.byte_buffer st.emphasis_present).1 +
            (env.find_aac_header st.byte_buffer st.emphasis_present).2.bytes) =
          .ok res.2.2.byte_buffer)) ∧
    (∀ timecode fuel msg, packet_loop env timecode fuel st ≠ .died msg) ∧
    (∀ fuel mem timecode msg, process env fuel st mem timecode ≠ .died msg) := by
  refine ⟨⟨_, get_aac_packet_eq env st⟩, ?_, ?_, ?_⟩
  · intro res hres
    rw [get_aac_packet_eq] at hres
    simp only [Except.ok.injEq] at hres
    subst hres
    split_ifs with h1 h2 h3
    · exact Or.inl rfl
    · refine Or.inr ⟨by omega, by omega, ?_⟩
      rw [byte_buffer_remove_of_le _ _ (by omega)]
    · exact Or.inl rfl
    · refine Or.inr ⟨by omega, by omega, ?_⟩
      rw [byte_buffer_remove_of_le _ _ (by omega)]
  · intro timecode fuel msg
    exact packet_loop_never_dies env timecode msg fuel st
  · intro fuel mem timecode msg
    unfold process
    split_ifs
    · unfold process_headerless
      dsimp only
      split_ifs
      · simp
      · split
        · simp
        · rename_i e he
          exact absurd he (duplicate_loop_never_dies env _ _ _ _ _ _)
        · simp
    · exact packet_loop_never_dies env timecode msg fuel _

/-! ## The AAC packetizer: suppressed and duplicated frames -/

/-- C19: in header-scanning mode, when the first frame found in the accumulator (after the
append of the input) is complete and negative displacement is needed, `process` returns
after the first call of `get_aac_packet`: the displacement has been raised by one frame
duration, the accumulator has lost the bytes up to the end of that frame and keeps all bytes
behind it (further frames included), no packet has been handed to `add_packet` and `packetno`
is as before. -/
theorem suppressed_frame_ends_extraction_loop {σ : Type} (env : aac_env σ)
    (st : aac_packetizer_c σ) (mem : List Nat) (timecode : Int) (fuel : Nat)
    (hmode : st.headerless = false)
    (hpos : 0 ≤ (env.find_aac_header (st.byte_buffer ++ mem) st.emphasis_present).1)
    (hfit : (env.find_aac_header (st.byte_buffer ++ mem) st.emphasis_present).1 +
      (env.find_aac_header (st.byte_buffer ++ mem) st.emphasis_present).2.bytes ≤
        (st.byte_buffer ++ mem).length)
    (hneg : env.needs_negative_displacement st.async
      (1024 * 1000000000 / st.samples_per_sec) = true) :
    ∃ st1, process env (fuel + 1) st mem timecode = .returned st1 ∧
      st1.packet_queue = st.packet_queue ∧ st1.packetno = st.packetno ∧
      st1.async = env.displace st.async (-(1024 * 1000000000 / st.samples_per_sec)) ∧
      st1.byte_buffer = (st.byte_buffer ++ mem).drop
        ((env.find_aac_header (st.byte_buffer ++ mem) st.emphasis_present).1 +
          (env.find_aac_header (st.byte_buffer ++ mem) st.emphasis_present).2.bytes).toNat := by
  refine ⟨{ st with
      async := env.displace st.async (-(1024 * 1000000000 / st.samples_per_sec)),
      byte_buffer := (st.byte_buffer ++ mem).drop
        ((env.find_aac_header (st.byte_buffer ++ mem) st.emphasis_present).1 +
          (env.find_aac_header (st.byte_buffer ++ mem) st.emphasis_present).2.bytes).toNat },
    ?_, rfl, rfl, rfl, rfl⟩
  unfold process
  rw [if_neg (by simp [hmode]), packet_loop, get_aac_packet_eq]
  dsimp only
  rw [if_neg (by omega), if_pos hneg]

theorem suppressed_frame_ends_extraction_loop_witness :
    ∃ st1, process (spec_env (spec_find_aac_header sample_parse)) 1
        { sample_scanner with async := -32000000 } [255, 4, 1, 2, 255, 3, 9] (-1) =
          .returned st1 ∧
      st1.packet_queue = [] ∧ st1.packetno = 0 ∧ st1.async = 0 ∧
      st1.byte_buffer = [255, 3, 9] := by
  obtain ⟨st1, h1, h2, h3, h4, h5⟩ := suppressed_frame_ends_extraction_loop
    (spec_env (spec_find_aac_header sample_parse))
    { sample_scanner with async := -32000000 } [255, 4, 1, 2, 255, 3, 9] (-1) 0 rfl
    (by with_unfolding_all decide) (by with_unfolding_all decide)
    (by with_unfolding_all decide)
  refine ⟨st1, h1, h2, h3, ?_, ?_⟩
  · rw [h4]
    with_unfolding_all rfl
  · rw [h5]
    with_unfolding_all rfl

/-- C17: under the displacement helpers of the specification, in header-scanning mode with a
positive sample rate: when a complete frame is found and positive displacement is needed
(`T ≤ d` for the frame duration `T`), `get_aac_packet` returns the payload of the frame,
lowers the displacement to `d - T` and leaves the accumulator as it is; the call that follows
finds the same header at the same offset and returns the same payload; it removes the frame
from the accumulator exactly when positive displacement is no longer needed
(`d - T < T`). -/
theorem duplicates_are_byte_identical (find : List Nat → Bool → Int × aac_header_t)
    (st : aac_packetizer_c ℚ)
    (hsps : 0 < st.samples_per_sec)
    (hpos : 0 ≤ (find st.byte_buffer st.emphasis_present).1)
    (hfit : (find st.byte_buffer st.emphasis_present).1 +
      (find st.byte_buffer st.emphasis_present).2.bytes ≤ st.byte_buffer.length)
    (hdup : 1024 * 1000000000 / (st.samples_per_sec : ℚ) ≤ st.async) :
    get_aac_packet (spec_env find) st =
      .ok (some (extract_payload st.byte_buffer (find st.byte_buffer st.emphasis_present).1
            (find st.byte_buffer st.emphasis_present).2),
          (find st.byte_buffer st.emphasis_present).2,
          { st with async := st.async - 1024 * 1000000000 / st.samples_per_sec }) ∧
    get_aac_packet (spec_env find)
        { st with async := st.async - 1024 * 1000000000 / st.samples_per_sec } =
      .ok (some (extract_payload st.byte_buffer (find st.byte_buffer st.emphasis_present).1
            (find st.byte_buffer st.emphasis_present).2),
          (find st.byte_buffer st.emphasis_present).2,
          if 1024 * 1000000000 / (st.samples_per_sec : ℚ) ≤
              st.async - 1024 * 1000000000 / st.samples_per_sec then
            { st with async := st.async - 1024 * 1000000000 / st.samples_per_sec -
                1024 * 1000000000 / st.samples_per_sec }
          else
            { st with async := st.async - 1024 * 1000000000 / st.samples_per_sec,
                      byte_buffer := st.byte_buffer.drop
                        ((find st.byte_buffer st.emphasis_present).1 +
                          (find st.byte_buffer st.emphasis_present).2.bytes).toNat }) := by
  have hT : (0 : ℚ) < 1024 * 1000000000 / (st.samples_per_sec : ℚ) := by
    have : (0 : ℚ) < (st.samples_per_sec : ℚ) := by exact_mod_cast hsps
    positivity
  have hor : ¬ ((find st.byte_buffer st.emphasis_present).1 < 0 ∨
      (find st.byte_buffer st.emphasis_present).1 +
        (find st.byte_buffer st.emphasis_present).2.bytes > st.byte_buffer.length) := by
    omega
  constructor
  · rw [get_aac_packet_eq]
    simp only [spec_env]
    rw [if_neg hor, if_neg (by simp only [decide_eq_true_eq]; linarith),
      if_pos (by simp only [decide_eq_true_eq]; exact hdup)]
  · rw [get_aac_packet_eq]
    simp only [spec_env]
    rw [if_neg hor, if_neg (by simp only [decide_eq_true_eq]; linarith)]
    by_cases h2 : 1024 * 1000000000 / (st.samples_per_sec : ℚ) ≤
        st.async - 1024 * 1000000000 / st.samples_per_sec
    · rw [if_pos (by simp only [decide_eq_true_eq]; exact h2), if_pos h2]
    · rw [if_neg (by simp only [decide_eq_true_eq]; exact h2), if_neg h2]

theorem duplicates_are_byte_identical_witness :
    get_aac_packet (spec_env (spec_find_aac_header sample_parse))
        { sample_scanner with async := 32000000, byte_buffer := [255, 4, 1, 2, 255, 3, 9] } =
      .ok (some [1, 2], ⟨4, 16, 2, 2⟩,
        { sample_scanner with async := 0, byte_buffer := [255, 4, 1, 2, 255, 3, 9] }) ∧
    get_aac_packet (spec_env (spec_find_aac_header sample_parse))
        { sample_scanner with async := 0, byte_buffer := [255, 4, 1, 2, 255, 3, 9] } =
      .ok (some [1, 2], ⟨4, 16, 2, 2⟩,
        { sample_scanner with async := 0, byte_buffer := [255, 3, 9] }) := by
  have h := duplicates_are_byte_identical (spec_find_aac_header sample_parse)
    { sample_scanner with async := 32000000, byte_buffer := [255, 4, 1, 2, 255, 3, 9] }
    (by with_unfolding_all decide) (by with_unfolding_all decide)
    (by with_unfolding_all decide) (by with_unfolding_all decide)
  constructor
  · refine h.1.trans ?_
    with_unfolding_all rfl
  · refine Eq.trans ?_ (h.2.trans ?_)
    · with_unfolding_all rfl
    · with_unfolding_all rfl

/-! ## Binary64 arithmetic: the rounding -/

theorem pow2_eq_zpow (k : Int) : pow2 k = (2 : ℚ) ^ k := by
  unfold pow2
  split_ifs with h
  · obtain ⟨n, rfl⟩ := Int.eq_ofNat_of_zero_le h
    simp
  · obtain ⟨n, hn⟩ := Int.eq_ofNat_of_zero_le (show 0 ≤ -k by omega)
    have hk : k = -(n : Int) := by omega
    subst hk
    simp

theorem pow2_pos (k : Int) : 0 < pow2 k := by
  rw [pow2_eq_zpow]
  exact zpow_pos (by norm_num) k

theorem pow2_le_pow2 {j k : Int} (h : j ≤ k) : pow2 j ≤ pow2 k := by
  rw [pow2_eq_zpow, pow2_eq_zpow]
  exact zpow_le_zpow_right₀ (by norm_num) h

theorem pow2_lt_pow2_iff {j k : Int} : pow2 j < pow2 k ↔ j < k := by
  rw [pow2_eq_zpow, pow2_eq_zpow]
  exact zpow_lt_zpow_iff_right₀ (by norm_num)

theorem pow2_add (j k : Int) : pow2 (j + k) = pow2 j * pow2 k := by
  rw [pow2_eq_zpow, pow2_eq_zpow, pow2_eq_zpow]
  exact zpow_add₀ (by norm_num) j k

theorem pow2_natCast (n : Nat) : pow2 (n : Int) = ((2 ^ n : Nat) : ℚ) := by
  rw [pow2_eq_zpow]
  simp

theorem exponent_up_spec : ∀ (fuel : Nat) (e : Int) (a : ℚ),
    pow2 e ≤ a → a < pow2 (e + fuel) →
    pow2 (exponent_up fuel e a) ≤ a ∧ a < pow2 (exponent_up fuel e a + 1) := by
  intro fuel
  induction fuel with
  | zero =>
    intro e a h1 h2
    simp only [Nat.cast_zero, add_zero] at h2
    exact absurd h1 (not_le.mpr h2)
  | succ fuel ih =>
    intro e a h1 h2
    rw [exponent_up]
    split_ifs with h
    · exact ⟨h1, h⟩
    · apply ih
      · exact not_lt.mp h
      · have : e + 1 + (fuel : Int) = e + ((fuel + 1 : Nat) : Int) := by push_cast; ring
        rw [this]
        exact h2

theorem exponent_down_spec : ∀ (fuel : Nat) (e : Int) (a : ℚ),
    a < pow2 (e + 1) → pow2 (e + 1 - fuel) ≤ a →
    pow2 (exponent_down fuel e a) ≤ a ∧ a < pow2 (exponent_down fuel e a + 1) := by
  intro fuel
  induction fuel with
  | zero =>
    intro e a h1 h2
    simp only [Nat.cast_zero, sub_zero] at h2
    exact absurd h2 (not_le.mpr h1)
  | succ fuel ih =>
    intro e a h1 h2
    rw [exponent_down]
    split_ifs with h
    · exact ⟨h, h1⟩
    · apply ih
      · have : e - 1 + 1 = e := by ring
        rw [this]
        exact not_le.mp h
      · have : e - 1 + 1 - (fuel : Int) = e + 1 - ((fuel + 1 : Nat) : Int) := by
          push_cast; ring
        rw [this]
        exact h2

theorem binary_exponent_spec (a : ℚ) (ha : 0 < a) :
    pow2 (binary_exponent a) ≤ a ∧ a < pow2 (binary_exponent a + 1) := by
  have hnum : 0 < a.num := Rat.num_pos.mpr ha
  have hden : (0 : ℚ) < a.den := by exact_mod_cast a.den_pos
  have hden1 : (1 : ℚ) ≤ a.den := by exact_mod_cast a.den_pos
  have hcast : ((a.num.natAbs : Nat) : ℚ) = (a.num : ℚ) := by
    have h0 : ((a.num.natAbs : Nat) : Int) = a.num := Int.natAbs_of_nonneg hnum.le
    rw [← Int.cast_natCast, h0]
  have hmul : a * a.den = a.num := Rat.mul_den_eq_num a
  have hnum1 : (1 : ℚ) ≤ a.num := by exact_mod_cast hnum
  unfold binary_exponent
  split_ifs with h1
  · apply exponent_up_spec
    · simpa [pow2] using h1
    · rw [zero_add, pow2_natCast]
      have h2 : a ≤ a.num := by
        rw [← hmul]
        nlinarith
      have h3 : ((a.num.natAbs : Nat) : ℚ) < ((2 ^ a.num.natAbs : Nat) : ℚ) := by
        exact_mod_cast Nat.lt_two_pow _
      rw [hcast] at h3
      linarith
  · apply exponent_down_spec
    · simpa [pow2] using not_le.mp h1
    · have e1 : (-1 : Int) + 1 - (a.den : Int) = -(a.den : Int) := by ring
      rw [e1, pow2_eq_zpow, zpow_neg, zpow_natCast]
      have h3 : ((a.den : Nat) : ℚ) < (2 : ℚ) ^ a.den := by
        exact_mod_cast Nat.lt_two_pow _
      have h4 : ((2 : ℚ) ^ a.den)⁻¹ ≤ (a.den : ℚ)⁻¹ :=
        inv_anti₀ hden h3.le
      have h5 : (a.den : ℚ)⁻¹ ≤ a := by
        rw [inv_eq_one_div, div_le_iff₀ hden, hmul]
        exact hnum1
      linarith

theorem binary_exponent_unique (a : ℚ) (e : Int) (h1 : pow2 e ≤ a) (h2 : a < pow2 (e + 1)) :
    binary_exponent a = e := by
  have ha : 0 < a := lt_of_lt_of_le (pow2_pos e) h1
  obtain ⟨g1, g2⟩ := binary_exponent_spec a ha
  have k1 : binary_exponent a < e + 1 := pow2_lt_pow2_iff.mp (lt_of_le_of_lt g1 h2)
  have k2 : e < binary_exponent a + 1 := pow2_lt_pow2_iff.mp (lt_of_le_of_lt h1 g2)
  omega

theorem binary_exponent_mono {a b : ℚ} (ha : 0 < a) (h : a ≤ b) :
    binary_exponent a ≤ binary_exponent b := by
  obtain ⟨g1, -⟩ := binary_exponent_spec a ha
  obtain ⟨-, k2⟩ := binary_exponent_spec b (lt_of_lt_of_le ha h)
  have := pow2_lt_pow2_iff.mp (lt_of_le_of_lt (le_trans g1 h) k2)
  omega

theorem round_half_even_eq (m : ℚ) :
    round_half_even m =
      if m - ⌊m⌋ < 1 / 2 then ⌊m⌋
      else if 1 / 2 < m - ⌊m⌋ then ⌊m⌋ + 1
      else if ⌊m⌋ % 2 = 0 then ⌊m⌋ else ⌊m⌋ + 1 := by
  unfold round_half_even
  rw [← Rat.floor_def]

theorem round_half_even_bounds (m : ℚ) :
    ⌊m⌋ ≤ round_half_even m ∧ round_half_even m ≤ ⌊m⌋ + 1 := by
  rw [round_half_even_eq]
  split_ifs <;> constructor <;> omega

theorem round_half_even_error (m : ℚ) : |(round_half_even m : ℚ) - m| ≤ 1 / 2 := by
  have h1 := Int.floor_le m
  have h2 := Int.lt_floor_add_one m
  rw [round_half_even_eq, abs_le]
  split_ifs with a b c
  · constructor <;> linarith
  · push_cast; constructor <;> linarith
  · have : m - ⌊m⌋ = 1 / 2 := le_antisymm (not_lt.mp b) (not_lt.mp a)
    constructor <;> linarith
  · have : m - ⌊m⌋ = 1 / 2 := le_antisymm (not_lt.mp b) (not_lt.mp a)
    push_cast; constructor <;> linarith

theorem round_half_even_intCast (n : Int) : round_half_even (n : ℚ) = n := by
  rw [round_half_even_eq]
  simp

theorem round_half_even_mono {a b : ℚ} (h : a ≤ b) : round_half_even a ≤ round_half_even b := by
  have hf : ⌊a⌋ ≤ ⌊b⌋ := Int.floor_mono h
  rcases lt_or_eq_of_le hf with hlt | heq
  · have h1 := (round_half_even_bounds a).2
    have h2 := (round_half_even_bounds b).1
    omega
  · rw [round_half_even_eq, round_half_even_eq, heq]
    have hr : a - ⌊b⌋ ≤ b - ⌊b⌋ := by linarith
    split_ifs <;> first | omega | (exfalso; linarith)

theorem round_half_even_le_of_le_int {m : ℚ} {n : Int} (h : m ≤ n) : round_half_even m ≤ n := by
  have := round_half_even_mono h
  rwa [round_half_even_intCast] at this

theorem round_half_even_ge_of_int_le {m : ℚ} {n : Int} (h : (n : ℚ) ≤ m) :
    n ≤ round_half_even m := by
  have := round_half_even_mono h
  rwa [round_half_even_intCast] at this

theorem round_binary64_zero : round_binary64 0 = 0 := by
  simp [round_binary64]

theorem round_binary64_of_pos {x : ℚ} (hx : 0 < x) :
    round_binary64 x =
      (round_half_even (x / pow2 (ulp_exponent x)) : ℚ) * pow2 (ulp_exponent x) := by
  unfold round_binary64
  rw [if_neg hx.ne', abs_of_pos hx]
  dsimp only
  rw [if_neg (not_lt.mpr hx.le)]

theorem round_binary64_neg (x : ℚ) : round_binary64 (-x) = -round_binary64 x := by
  rcases lt_trichotomy x 0 with h | h | h
  · have h' : 0 < -x := by linarith
    rw [round_binary64_of_pos h']
    unfold round_binary64
    rw [if_neg h.ne, abs_of_neg h]
    dsimp only
    rw [if_pos h, neg_neg]
  · subst h
    simp [round_binary64_zero]
  · have h' : -x < 0 := by linarith
    rw [round_binary64_of_pos h]
    unfold round_binary64
    rw [if_neg h'.ne, abs_of_neg h', neg_neg]
    dsimp only
    rw [if_pos h']

theorem round_binary64_nonneg {x : ℚ} (hx : 0 ≤ x) : 0 ≤ round_binary64 x := by
  rcases eq_or_lt_of_le hx with h | h
  · rw [← h, round_binary64_zero]
  · rw [round_binary64_of_pos h]
    apply mul_nonneg _ (pow2_pos _).le
    have h1 : (0 : ℚ) ≤ x / pow2 (ulp_exponent x) := div_nonneg hx (pow2_pos _).le
    have h2 : ((0 : Int) : ℚ) ≤ x / pow2 (ulp_exponent x) := by simpa using h1
    exact_mod_cast round_half_even_ge_of_int_le h2

theorem ulp_exponent_mono {a b : ℚ} (ha : 0 < a) (h : a ≤ b) :
    ulp_exponent a ≤ ulp_exponent b := by
  unfold ulp_exponent
  have := binary_exponent_mono ha h
  omega

theorem round_binary64_mono_of_pos {x y : ℚ} (hx : 0 < x) (h : x ≤ y) :
    round_binary64 x ≤ round_binary64 y := by
  have hy : 0 < y := lt_of_lt_of_le hx h
  rw [round_binary64_of_pos hx, round_binary64_of_pos hy]
  have hk := ulp_exponent_mono hx h
  rcases lt_or_eq_of_le hk with hlt | heq
  · -- the exponents differ: a power of two lies between the two results
    have hex : binary_exponent x < binary_exponent y := by
      unfold ulp_exponent at hlt
      omega
    have hey : -1074 ≤ binary_exponent y - 52 := by
      unfold ulp_exponent at hlt
      omega
    obtain ⟨-, x2⟩ := binary_exponent_spec x hx
    obtain ⟨y1, -⟩ := binary_exponent_spec y hy
    have hky : ulp_exponent y ≤ binary_exponent y := by
      unfold ulp_exponent
      omega
    obtain ⟨nx, hnx⟩ := Int.eq_ofNat_of_zero_le
      (show 0 ≤ max (binary_exponent x + 1) (ulp_exponent x) - ulp_exponent x by omega)
    obtain ⟨ny, hny⟩ := Int.eq_ofNat_of_zero_le
      (show 0 ≤ binary_exponent y - ulp_exponent y by omega)
    have ex : pow2 (max (binary_exponent x + 1) (ulp_exponent x)) =
        ((2 ^ nx : Nat) : ℚ) * pow2 (ulp_exponent x) := by
      rw [← pow2_natCast, ← pow2_add, ← hnx]
      congr 1
      ring
    have ey : pow2 (binary_exponent y) = ((2 ^ ny : Nat) : ℚ) * pow2 (ulp_exponent y) := by
      rw [← pow2_natCast, ← pow2_add, ← hny]
      congr 1
      ring
    have b1 : (round_half_even (x / pow2 (ulp_exponent x)) : ℚ) * pow2 (ulp_exponent x) ≤
        pow2 (max (binary_exponent x + 1) (ulp_exponent x)) := by
      rw [ex]
      apply mul_le_mul_of_nonneg_right _ (pow2_pos _).le
      have : x / pow2 (ulp_exponent x) ≤ (((2 ^ nx : Nat) : Int) : ℚ) := by
        rw [div_le_iff₀ (pow2_pos _)]
        push_cast
        push_cast at ex
        rw [← ex]
        exact le_trans x2.le (pow2_le_pow2 (le_max_left _ _))
      have := round_half_even_le_of_le_int this
      exact_mod_cast this
    have b2 : pow2 (binary_exponent y) ≤
        (round_half_even (y / pow2 (ulp_exponent y)) : ℚ) * pow2 (ulp_exponent y) := by
      rw [ey]
      apply mul_le_mul_of_nonneg_right _ (pow2_pos _).le
      have : (((2 ^ ny : Nat) : Int) : ℚ) ≤ y / pow2 (ulp_exponent y) := by
        rw [le_div_iff₀ (pow2_pos _)]
        push_cast
        push_cast at ey
        rw [← ey]
        exact y1
      have := round_half_even_ge_of_int_le this
      exact_mod_cast this
    have b3 : pow2 (max (binary_exponent x + 1) (ulp_exponent x)) ≤
        pow2 (binary_exponent y) :=
      pow2_le_pow2 (by omega)
    linarith
  · rw [heq]
    apply mul_le_mul_of_nonneg_right _ (pow2_pos _).le
    have : x / pow2 (ulp_exponent y) ≤ y / pow2 (ulp_exponent y) :=
      div_le_div_of_nonneg_right h (pow2_pos _).le
    exact_mod_cast round_half_even_mono this

theorem round_binary64_mono {x y : ℚ} (h : x ≤ y) : round_binary64 x ≤ round_binary64 y := by
  rcases lt_trichotomy 0 x with hx | hx | hx
  · exact round_binary64_mono_of_pos hx h
  · rw [← hx, round_binary64_zero]
    exact round_binary64_nonneg (by linarith)
  · have h1 : round_binary64 x ≤ 0 := by
      have := round_binary64_nonneg (show 0 ≤ -x by linarith)
      rw [round_binary64_neg] at this
      linarith
    rcases le_or_lt 0 y with hy | hy
    · exact le_trans h1 (round_binary64_nonneg hy)
    · have := round_binary64_mono_of_pos (show 0 < -y by linarith) (show -y ≤ -x by linarith)
      rw [round_binary64_neg, round_binary64_neg] at this
      linarith

theorem round_binary64_representable_of_pos (m j : Int) (h0 : 0 < m) (hm : m < 2 ^ 53)
    (hj : -1074 ≤ j) : round_binary64 ((m : ℚ) * pow2 j) = (m : ℚ) * pow2 j := by
  have hmq : (0 : ℚ) < m := by exact_mod_cast h0
  have hx : 0 < (m : ℚ) * pow2 j := mul_pos hmq (pow2_pos j)
  obtain ⟨e1, -⟩ := binary_exponent_spec _ hx
  have hlt : (m : ℚ) * pow2 j < pow2 (53 + j) := by
    rw [pow2_add]
    apply mul_lt_mul_of_pos_right _ (pow2_pos j)
    have : pow2 53 = 2 ^ 53 := by rw [pow2_eq_zpow]; norm_cast
    rw [this]
    exact_mod_cast hm
  have he : binary_exponent ((m : ℚ) * pow2 j) < 53 + j :=
    pow2_lt_pow2_iff.mp (lt_of_le_of_lt e1 hlt)
  have hk : ulp_exponent ((m : ℚ) * pow2 j) ≤ j := by
    unfold ulp_exponent
    omega
  obtain ⟨n, hn⟩ := Int.eq_ofNat_of_zero_le
    (show 0 ≤ j - ulp_exponent ((m : ℚ) * pow2 j) by omega)
  have hj2 : pow2 j = ((2 ^ n : Nat) : ℚ) * pow2 (ulp_exponent ((m : ℚ) * pow2 j)) := by
    rw [← pow2_natCast, ← pow2_add, ← hn]
    congr 1
    ring
  rw [round_binary64_of_pos hx]
  have hq : (m : ℚ) * pow2 j / pow2 (ulp_exponent ((m : ℚ) * pow2 j)) =
      ((m * ((2 ^ n : Nat) : Int) : Int) : ℚ) := by
    rw [div_eq_iff (pow2_pos _).ne']
    conv_lhs => rw [hj2]
    push_cast
    ring
  rw [hq, round_half_even_intCast]
  conv_rhs => rw [hj2]
  push_cast
  ring

theorem round_binary64_representable (m j : Int) (hm : |m| < 2 ^ 53) (hj : -1074 ≤ j) :
    round_binary64 ((m : ℚ) * pow2 j) = (m : ℚ) * pow2 j := by
  rw [abs_lt] at hm
  rcases lt_trichotomy 0 m with h | h | h
  · exact round_binary64_representable_of_pos m j h hm.2 hj
  · subst h
    simp [round_binary64_zero]
  · have := round_binary64_representable_of_pos (-m) j (by omega) (by omega) hj
    have e : ((-m : Int) : ℚ) * pow2 j = -((m : ℚ) * pow2 j) := by push_cast; ring
    rw [e, round_binary64_neg] at this
    linarith

theorem round_binary64_intCast (n : Int) (hn : |n| ≤ 2 ^ 53) :
    round_binary64 (n : ℚ) = n := by
  rcases lt_or_eq_of_le hn with h | h
  · have := round_binary64_representable n 0 h (by norm_num)
    have e : pow2 0 = 1 := by simp [pow2]
    rwa [e, mul_one] at this
  · have e53 : pow2 53 = 2 ^ 53 := by rw [pow2_eq_zpow]; norm_cast
    rcases abs_eq (by norm_num : (0 : Int) ≤ 2 ^ 53) |>.mp h with h1 | h1
    · have := round_binary64_representable 1 53 (by norm_num) (by norm_num)
      rw [e53] at this
      rw [h1]
      push_cast
      simpa using this
    · have := round_binary64_representable (-1) 53 (by norm_num) (by norm_num)
      rw [e53] at this
      rw [h1]
      push_cast
      simpa using this

theorem double_of_int_eq (n : Int) (hn : |n| ≤ 2 ^ 53) : double_of_int n = n :=
  round_binary64_intCast n hn

theorem round_binary64_error_of_pos {x : ℚ} (hx : pow2 (-1022) ≤ x) :
    |round_binary64 x - x| ≤ x / 2 ^ 53 := by
  have h0 : 0 < x := lt_of_lt_of_le (pow2_pos _) hx
  obtain ⟨e1, e2⟩ := binary_exponent_spec x h0
  have he : -1022 < binary_exponent x + 1 := pow2_lt_pow2_iff.mp (lt_of_le_of_lt hx e2)
  have hk : ulp_exponent x = binary_exponent x - 52 := by
    unfold ulp_exponent
    omega
  rw [round_binary64_of_pos h0, hk]
  have hp := pow2_pos (binary_exponent x - 52)
  have herr := round_half_even_error (x / pow2 (binary_exponent x - 52))
  have e3 : (round_half_even (x / pow2 (binary_exponent x - 52)) : ℚ) *
      pow2 (binary_exponent x - 52) - x =
      ((round_half_even (x / pow2 (binary_exponent x - 52)) : ℚ) -
        x / pow2 (binary_exponent x - 52)) * pow2 (binary_exponent x - 52) := by
    field_simp
  rw [e3, abs_mul, abs_of_pos hp]
  have e4 : pow2 (binary_exponent x) = pow2 (binary_exponent x - 52) * 2 ^ 52 := by
    have : binary_exponent x = binary_exponent x - 52 + 52 := by ring
    conv_lhs => rw [this, pow2_add]
    congr 1
  have e5 : pow2 (binary_exponent x - 52) * 2 ^ 52 ≤ x := by rw [← e4]; exact e1
  calc |(round_half_even (x / pow2 (binary_exponent x - 52)) : ℚ) -
        x / pow2 (binary_exponent x - 52)| * pow2 (binary_exponent x - 52)
      ≤ 1 / 2 * pow2 (binary_exponent x - 52) := mul_le_mul_of_nonneg_right herr hp.le
    _ = pow2 (binary_exponent x - 52) * 2 ^ 52 / 2 ^ 53 := by ring
    _ ≤ x / 2 ^ 53 := div_le_div_of_nonneg_right e5 (by positivity)

/-! ## The reader: the end of the data -/

theorem create_eof_flag {H : Type} (env : dts_common H) (file : mm_io_c)
    (scratch0 scratch1 : List Nat) (hdr0 : H) (r : wav_reader_c H)
    (hc : wav_reader_c.create env file scratch0 scratch1 hdr0 = .ok r) :
    r.mm_io.eof_flag = false := by
  have hr := create_ok env file scratch0 scratch1 hdr0 r hc
  rw [hr]

/-- C2 (the code where the claim fails): a file whose probe window is 26 zero bytes followed by
`FE 7F 80 01 00 00`, with a header search for the bytes `7F FE 80 01` at any offset.  The
search fails on all four transformed probe windows (plain, expanded, swapped, swapped and
expanded), yet the constructor ends with `is_dts = true` and `dts_swap_bytes = 1`, and
`create_packetizer` builds the DTS packetizer: the fourth trial searches `rlen = 32` bytes of
`buf[1]`, the 28 bytes of the expansion followed by the probe bytes 28 to 31, and finds
`7F FE` (swapped) followed by `80 01` (not swapped). -/
theorem detector_reports_dts_though_all_four_transforms_fail :
    ∃ r, wav_reader_c.create sample_dts_scanning sample_swapped_tail_file sample_scratch_zero
        sample_scratch_zero () = .ok r ∧
      probe_bytes sample_dts_scanning sample_swapped_tail_file =
        List.replicate 26 0 ++ [254, 127, 128, 1, 0, 0] ∧
      sample_dts_scanning.find_dts_header
        (probe_bytes sample_dts_scanning sample_swapped_tail_file) < 0 ∧
      sample_dts_scanning.find_dts_header (probe_expanded sample_dts_scanning
        (probe_bytes sample_dts_scanning sample_swapped_tail_file)) < 0 ∧
      sample_dts_scanning.find_dts_header
        (probe_swapped (probe_bytes sample_dts_scanning sample_swapped_tail_file)) < 0 ∧
      sample_dts_scanning.find_dts_header (probe_swapped_expanded sample_dts_scanning
        (probe_bytes sample_dts_scanning sample_swapped_tail_file)) < 0 ∧
      probe_swapped_expanded sample_dts_scanning
          (probe_bytes sample_dts_scanning sample_swapped_tail_file) =
        List.replicate 26 0 ++ [127, 254] ∧
      window_swapped_expanded sample_dts_scanning
          (probe_bytes sample_dts_scanning sample_swapped_tail_file)
          sample_scratch_zero sample_scratch_zero =
        List.replicate 26 0 ++ [127, 254] ++ [128, 1, 0, 0] ∧
      r.is_dts = true ∧ r.dts_swap_bytes = 1 ∧
      r.create_packetizer.ptzrs = [packetizer.dts r.dtsheader true] :=
  ⟨_, rfl, by decide, by decide, by decide, by decide, by decide, by decide, by decide,
    by decide, by decide, rfl⟩

/-! ## The AAC packetizer: the duration of the packets -/

theorem get_aac_packet_fields {σ : Type} (env : aac_env σ) (st st1 : aac_packetizer_c σ)
    (r : Option (List Nat)) (hdr : aac_header_t)
    (h : get_aac_packet env st = .ok (r, hdr, st1)) :
    st1.packetno = st.packetno ∧ st1.samples_per_sec = st.samples_per_sec ∧
    st1.linear = st.linear ∧ st1.packet_queue = st.packet_queue ∧
    st1.headerless = st.headerless ∧ st1.emphasis_present = st.emphasis_present := by
  unfold get_aac_packet at h
  dsimp only at h
  split_ifs at h with h1 h2 h3 h4
  · simp only [Except.ok.injEq, Prod.mk.injEq] at h
    obtain ⟨-, -, rfl⟩ := h
    simp
  · simp only [Except.ok.injEq, Prod.mk.injEq] at h
    obtain ⟨-, -, rfl⟩ := h
    simp
  · split at h
    · simp at h
    · simp only [Except.ok.injEq, Prod.mk.injEq] at h
      obtain ⟨-, -, rfl⟩ := h
      simp
  · simp only [Except.ok.injEq, Prod.mk.injEq] at h
    obtain ⟨-, -, rfl⟩ := h
    simp
  · split at h
    · simp at h
    · simp only [Except.ok.injEq, Prod.mk.injEq] at h
      obtain ⟨-, -, rfl⟩ := h
      simp

theorem headerless_timecode_fields {σ : Type} (st : aac_packetizer_c σ) (timecode : Int) :
    (headerless_timecode st timecode).2.packetno = st.packetno ∧
    (headerless_timecode st timecode).2.samples_per_sec = st.samples_per_sec ∧
    (headerless_timecode st timecode).2.linear = st.linear ∧
    (headerless_timecode st timecode).2.packet_queue = st.packet_queue ∧
    (headerless_timecode st timecode).2.headerless = st.headerless ∧
    (headerless_timecode st timecode).2.async = st.async := by
  unfold headerless_timecode
  split_ifs <;> simp

theorem get_aac_packet_keeps_default_duration {σ : Type} (env : aac_env σ)
    (st st1 : aac_packetizer_c σ) (r : Option (List Nat)) (hdr : aac_header_t)
    (h : get_aac_packet env st = .ok (r, hdr, st1)) :
    st1.track_default_duration = st.track_default_duration := by
  rw [get_aac_packet_eq] at h
  simp only [Except.ok.injEq] at h
  split_ifs at h <;>
  · simp only [Prod.mk.injEq] at h
    obtain ⟨-, -, rfl⟩ := h
    rfl

theorem packet_loop_durations {σ : Type} (env : aac_env σ) (timecode : Int) :
    ∀ (fuel : Nat) (st st1 : aac_packetizer_c σ),
      packet_loop env timecode fuel st = .returned st1 →
      st1.samples_per_sec = st.samples_per_sec ∧ st1.linear = st.linear ∧
      st1.track_default_duration = st.track_default_duration ∧
      ∃ new : List packet_t, st1.packet_queue = st.packet_queue ++ new ∧
        ∀ p ∈ new, p.duration =
          to_int64 (double_div (double_mul (double_mul 1024 1000000000) st.linear)
          (double_of_int st.samples_per_sec)) := by
  intro fuel
  induction fuel with
  | zero => intro st st1 h; simp [packet_loop] at h
  | succ fuel ih =>
    intro st st1 h
    rw [packet_loop] at h
    split at h
    · simp at h
    · rename_i hdr st2 hg
      simp only [run_result.returned.injEq] at h
      subst h
      obtain ⟨-, h2, h3, h4, -, -⟩ := get_aac_packet_fields env st st2 none hdr hg
      exact ⟨h2, h3, get_aac_packet_keeps_default_duration env st st2 none hdr hg,
        [], by simp [h4], by simp⟩
    · rename_i packet hdr st2 hg
      obtain ⟨-, h2, h3, h4, -, -⟩ := get_aac_packet_fields env st st2 (some packet) hdr hg
      have h5 := get_aac_packet_keeps_default_duration env st st2 (some packet) hdr hg
      obtain ⟨g1, g2, g3, new, g4, g5⟩ := ih _ _ h
      simp only [aac_packetizer_c.add_packet, h2, h3, h4, h5] at g1 g2 g3 g4 g5
      rw [List.append_assoc] at g4
      refine ⟨g1, g2, g3, _, g4, ?_⟩
      intro p hp
      rcases List.mem_append.mp hp with hp | hp
      · rw [List.mem_singleton.mp hp]
      · exact g5 p hp

theorem duplicate_loop_durations {σ : Type} (env : aac_env σ) (mem : List Nat)
    (my_timecode duration : Int) :
    ∀ (fuel : Nat) (st st1 : aac_packetizer_c σ),
      duplicate_loop env mem my_timecode duration fuel st = .returned st1 →
      st1.samples_per_sec = st.samples_per_sec ∧ st1.linear = st.linear ∧
      st1.track_default_duration = st.track_default_duration ∧
      ∃ new : List packet_t, st1.packet_queue = st.packet_queue ++ new ∧
        ∀ p ∈ new, p.duration = duration := by
  intro fuel
  induction fuel with
  | zero => intro st st1 h; simp [duplicate_loop] at h
  | succ fuel ih =>
    intro st st1 h
    rw [duplicate_loop] at h
    split_ifs at h
    · obtain ⟨g1, g2, g3, new, g4, g5⟩ := ih _ _ h
      simp only [aac_packetizer_c.add_packet] at g1 g2 g3 g4
      rw [List.append_assoc] at g4
      refine ⟨g1, g2, g3, _, g4, ?_⟩
      intro p hp
      rcases List.mem_append.mp hp with hp | hp
      · rw [List.mem_singleton.mp hp]
      · exact g5 p hp
    · simp only [run_result.returned.injEq] at h
      subst h
      exact ⟨rfl, rfl, rfl, [], by simp, by simp⟩

theorem headerless_timecode_keeps_default_duration {σ : Type} (st : aac_packetizer_c σ)
    (timecode : Int) :
    (headerless_timecode st timecode).2.track_default_duration = st.track_default_duration := by
  unfold headerless_timecode
  split_ifs <;> rfl

theorem process_durations {σ : Type} (env : aac_env σ) (fuel : Nat)
    (st st1 : aac_packetizer_c σ) (mem : List Nat) (timecode : Int)
    (h : process env fuel st mem timecode = .returned st1) :
    st1.samples_per_sec = st.samples_per_sec ∧ st1.linear = st.linear ∧
    st1.track_default_duration = st.track_default_duration ∧
    ∃ new : List packet_t, st1.packet_queue = st.packet_queue ++ new ∧
      ∀ p ∈ new, p.duration =
        to_int64 (double_div (double_mul (double_mul 1024 1000000000) st.linear)
          (double_of_int st.samples_per_sec)) := by
  unfold process at h
  split_ifs at h with hm
  · obtain ⟨-, f2, f3, f4, -, -⟩ := headerless_timecode_fields st timecode
    have f5 := headerless_timecode_keeps_default_duration st timecode
    unfold process_headerless at h
    dsimp only at h
    split_ifs at h with hn
    · simp only [run_result.returned.injEq] at h
      subst h
      exact ⟨f2, f3, f5, [], by simp [f4], by simp⟩
    · split at h
      · rename_i st3 hd
        obtain ⟨g1, g2, g3, new, g4, g5⟩ := duplicate_loop_durations _ _ _ _ _ _ _ hd
        simp only [run_result.returned.injEq] at h
        subst h
        simp only [f2, f3, f4, f5] at g1 g2 g3 g4 g5
        have hq : ∀ t d : Int, (st3.add_packet mem t d).packet_queue =
            st.packet_queue ++ (new ++ [⟨mem, t, d⟩]) := by
          intro t d
          simp only [aac_packetizer_c.add_packet, g4, List.append_assoc]
        refine ⟨g1, g2, g3, _, hq _ _, ?_⟩
        intro p hp
        rcases List.mem_append.mp hp with hp | hp
        · exact g5 p hp
        · rw [List.mem_singleton.mp hp]
          simp only [f2, f3]
      · simp at h
      · simp at h
  · exact packet_loop_durations env timecode fuel
      { st with byte_buffer := st.byte_buffer ++ mem } st1 h

theorem process_calls_durations {σ : Type} (env : aac_env σ) (fuel : Nat) :
    ∀ (calls : List (List Nat × Int)) (st st1 : aac_packetizer_c σ),
      process_calls env fuel st calls = .returned st1 →
      st1.samples_per_sec = st.samples_per_sec ∧ st1.linear = st.linear ∧
      st1.track_default_duration = st.track_default_duration ∧
      ∃ new : List packet_t, st1.packet_queue = st.packet_queue ++ new ∧
        ∀ p ∈ new, p.duration =
          to_int64 (double_div (double_mul (double_mul 1024 1000000000) st.linear)
          (double_of_int st.samples_per_sec)) := by
  intro calls
  induction calls with
  | nil =>
    intro st st1 h
    simp only [process_calls, run_result.returned.injEq] at h
    subst h
    exact ⟨rfl, rfl, rfl, [], by simp, by simp⟩
  | cons c rest ih =>
    intro st st1 h
    rw [process_calls] at h
    split at h
    · rename_i st2 hp
      obtain ⟨a1, a2, a3, n1, a4, a5⟩ := process_durations env fuel st st2 c.1 c.2 hp
      obtain ⟨b1, b2, b3, n2, b4, b5⟩ := ih st2 st1 h
      rw [a1, a2] at b5
      refine ⟨b1.trans a1, b2.trans a2, b3.trans a3, n1 ++ n2, ?_, ?_⟩
      · rw [b4, a4, List.append_assoc]
      · intro p hp
        rcases List.mem_append.mp hp with hp | hp
        · exact a5 p hp
        · exact b5 p hp
    · simp at h
    · simp at h

/-- C18 (amended): on a packetizer made by the constructor, every packet handed to
`add_packet` by a sequence of calls of `process` that return, in headerless and in
header-scanning mode, duplicates included, has the duration
`(int64_t)(1024 * 1000000000.0 * linear / samples_per_sec)`, the product and the quotient
each rounded to binary64, which is the track default duration the constructor has set. -/
theorem every_packet_has_the_track_default_duration {σ : Type} (env : aac_env σ) (fuel : Nat)
    (nid nprofile : Int) (nsamples_per_sec : Nat) (nchannels : Int) (linear : ℚ) (async : σ)
    (nemphasis_present nheaderless : Bool) (calls : List (List Nat × Int))
    (st1 : aac_packetizer_c σ)
    (h : process_calls env fuel
      (aac_packetizer_c.create nid nprofile nsamples_per_sec nchannels linear async
        nemphasis_present nheaderless) calls = .returned st1) :
    st1.track_default_duration = to_int64 (double_div (double_mul (double_mul 1024 1000000000) linear)
        (double_of_int nsamples_per_sec)) ∧
    ∀ p ∈ st1.packet_queue,
      p.duration = to_int64 (double_div (double_mul (double_mul 1024 1000000000) linear)
        (double_of_int nsamples_per_sec)) := by
  obtain ⟨-, -, a3, new, a4, a5⟩ := process_calls_durations env fuel calls _ st1 h
  refine ⟨a3, ?_⟩
  intro p hp
  rw [a4] at hp
  simp only [aac_packetizer_c.create, List.nil_append] at hp
  exact a5 p hp


theorem every_packet_has_the_track_default_duration_witness :
    process_calls (spec_env (spec_find_aac_header sample_parse)) 4
        (aac_packetizer_c.create 0 1 48000 2 (round_binary64 (999 / 1000)) 21312000 false true)
        [([1, 2], -1), ([3], -1)] =
      .returned { (aac_packetizer_c.create 0 1 48000 2 (round_binary64 (999 / 1000)) 0 false
          true : aac_packetizer_c ℚ) with
        packetno := 2
        packet_queue := [⟨[1, 2], 21312000, 21312000⟩, ⟨[1, 2], 0, 21312000⟩,
          ⟨[3], 21311999, 21312000⟩] } ∧
    (aac_packetizer_c.create 0 1 48000 2 (round_binary64 (999 / 1000)) (21312000 : ℚ) false
      true).track_default_duration = 21312000 ∧
    ∀ p ∈ [(⟨[1, 2], 21312000, 21312000⟩ : packet_t), ⟨[1, 2], 0, 21312000⟩,
        ⟨[3], 21311999, 21312000⟩], p.duration = 21312000 := by
  have hd : to_int64 (double_div (double_mul (double_mul 1024 1000000000)
      (round_binary64 (999 / 1000))) (double_of_int (48000 : Nat))) = 21312000 := by
    with_unfolding_all rfl
  have hr : process_calls (spec_env (spec_find_aac_header sample_parse)) 4
        (aac_packetizer_c.create 0 1 48000 2 (round_binary64 (999 / 1000)) 21312000 false true)
        [([1, 2], -1), ([3], -1)] =
      .returned { (aac_packetizer_c.create 0 1 48000 2 (round_binary64 (999 / 1000)) 0 false
          true : aac_packetizer_c ℚ) with
        packetno := 2
        packet_queue := [⟨[1, 2], 21312000, 21312000⟩, ⟨[1, 2], 0, 21312000⟩,
          ⟨[3], 21311999, 21312000⟩] } := by
    with_unfolding_all rfl
  have h := every_packet_has_the_track_default_duration
    (spec_env (spec_find_aac_header sample_parse)) 4 0 1 48000 2 (round_binary64 (999 / 1000))
    21312000 false true [([1, 2], -1), ([3], -1)] _ hr
  rw [hd] at h
  exact ⟨hr, by with_unfolding_all rfl, h.2⟩

/-- C18 (counterexample): at 48000 Hz with the linear factor 0.999 (the binary64 value nearest
to it, `8998192055486251 / 2^53`), the constructor sets the track default duration 21312000
and a headerless call of `process` hands over a packet of duration 21312000, while the exact
quotient `1024 * 10^9 * L / 48000` for this `L` lies below 21312000 and truncates to
21311999: the product `1024 * 10^9 * L` is rounded to binary64 before the division. -/
theorem duration_is_not_the_truncated_exact_quotient :
    round_binary64 (999 / 1000) = 8998192055486251 / 9007199254740992 ∧
    (aac_packetizer_c.create 0 1 48000 2 (round_binary64 (999 / 1000)) () false true :
      aac_packetizer_c Unit).track_default_duration = 21312000 ∧
    process sample_env_without_displacement 1
        (aac_packetizer_c.create 0 1 48000 2 (round_binary64 (999 / 1000)) () false true)
        [1, 2] (-1) =
      .returned { (aac_packetizer_c.create 0 1 48000 2 (round_binary64 (999 / 1000)) () false
          true : aac_packetizer_c Unit) with
        packetno := 1
        packet_queue := [⟨[1, 2], 0, 21312000⟩] } ∧
    to_int64 ((1024 : ℚ) * 1000000000 * round_binary64 (999 / 1000) / (48000 : Nat)) =
      21311999 := by
  refine ⟨by with_unfolding_all rfl, by with_unfolding_all rfl, by with_unfolding_all rfl,
    by with_unfolding_all rfl⟩

/-! ## The AAC packetizer: the timestamps of the packets -/

theorem headerless_timecode_fst {σ : Type} (st : aac_packetizer_c σ) (timecode : Int) :
    (headerless_timecode st timecode).1 = headerless_base st timecode := by
  unfold headerless_timecode headerless_base index_base repeat_offset
  by_cases h1 : timecode = -1
  · simp [h1]
  · by_cases h2 : st.last_timecode = timecode
    · simp [h1, h2]
    · simp [h1, h2]

theorem index_timecode_eq (samples_per_sec : Nat) (linear : ℚ) (n : Int) :
    index_timecode samples_per_sec linear n =
      scale_timecode linear (index_base samples_per_sec n) := rfl

theorem get_aac_packet_some_async {σ : Type} (env : aac_env σ) (st st1 : aac_packetizer_c σ)
    (p : List Nat) (hdr : aac_header_t)
    (h : get_aac_packet env st = .ok (some p, hdr, st1)) :
    st1.async = async_after_packet env st.samples_per_sec st.async := by
  rw [get_aac_packet_eq] at h
  simp only [Except.ok.injEq] at h
  unfold async_after_packet
  split_ifs at h with h1 h2 h3
  · simp at h
  · simp at h
  · simp only [Prod.mk.injEq] at h
    obtain ⟨-, -, rfl⟩ := h
    rw [if_pos h3]
  · simp only [Prod.mk.injEq] at h
    obtain ⟨-, -, rfl⟩ := h
    rw [if_neg h3]

theorem packet_loop_timecodes {σ : Type} (env : aac_env σ) (timecode : Int) :
    ∀ (fuel : Nat) (st st1 : aac_packetizer_c σ),
      packet_loop env timecode fuel st = .returned st1 →
      ∃ new : List packet_t,
        st1.packet_queue = st.packet_queue ++ new ∧
        st1.packetno = st.packetno + new.length ∧
        st1.samples_per_sec = st.samples_per_sec ∧ st1.linear = st.linear ∧
        st1.headerless = st.headerless ∧
        (timecode = -1 → new.map packet_t.timecode =
          (List.range new.length).map (fun i : Nat =>
            index_timecode st.samples_per_sec st.linear (st.packetno + (i : Int)))) ∧
        (timecode ≠ -1 → new.map packet_t.timecode =
          (List.range new.length).map (fun i : Nat =>
            scale_timecode st.linear (to_int64 (timecode + env.displacement
              ((async_after_packet env st.samples_per_sec)^[i + 1] st.async))))) := by
  intro fuel
  induction fuel with
  | zero => intro st st1 h; simp [packet_loop] at h
  | succ fuel ih =>
    intro st st1 h
    rw [packet_loop] at h
    split at h
    · simp at h
    · rename_i hdr st2 hg
      simp only [run_result.returned.injEq] at h
      subst h
      obtain ⟨h1, h2, h3, h4, h5, -⟩ := get_aac_packet_fields env st st2 none hdr hg
      exact ⟨[], by simp [h4], by simp [h1], h2, h3, h5, by simp, by simp⟩
    · rename_i packet hdr st2 hg
      obtain ⟨h1, h2, h3, h4, h5, -⟩ := get_aac_packet_fields env st st2 (some packet) hdr hg
      have ha := get_aac_packet_some_async env st st2 packet hdr hg
      obtain ⟨new, g1, g2, g3, g4, g5, g7, g8⟩ := ih _ _ h
      simp only [aac_packetizer_c.add_packet, h1, h2, h3, h4, ha] at g1 g2 g3 g4 g5 g7 g8
      rw [List.append_assoc] at g1
      refine ⟨_, g1, ?_, g3, g4, ?_, ?_, ?_⟩
      · rw [g2]; simp only [List.length_cons, List.singleton_append]; push_cast; ring
      · rw [g5]; exact h5
      · intro ht
        simp only [List.singleton_append, List.map_cons, List.length_cons,
          List.range_succ_eq_map, List.map_map, g7 ht, ht, if_true]
        congr 1
        · simp [index_timecode]
        · apply List.map_congr_left
          intro i _
          simp only [Function.comp]
          congr 1
          push_cast
          ring
      · intro ht
        simp only [List.singleton_append, List.map_cons, List.length_cons,
          List.range_succ_eq_map, List.map_map, g8 ht, ht, if_false]
        congr 1

theorem frame_duration_eq (samples_per_sec : Nat) (linear : ℚ) :
    frame_duration samples_per_sec linear =
      to_int64 (frame_duration_double samples_per_sec linear) := rfl

theorem process_headerless_plain {σ : Type} (env : aac_env σ) (fuel : Nat)
    (st : aac_packetizer_c σ) (mem : List Nat) (timecode : Int)
    (hneg : env.needs_negative_displacement st.async
      (frame_duration st.samples_per_sec st.linear : Int) = false)
    (hpos : env.needs_positive_displacement st.async
      (frame_duration st.samples_per_sec st.linear : Int) = false) :
    process_headerless env (fuel + 1) st mem timecode =
      .returned (({ (headerless_timecode st timecode).2 with
          packetno := st.packetno + 1 } : aac_packetizer_c σ).add_packet mem
        (scale_timecode st.linear ((headerless_base st timecode : Int) +
          env.displacement st.async))
        (frame_duration st.samples_per_sec st.linear)) := by
  obtain ⟨f1, f2, f3, f4, f5, f6⟩ := headerless_timecode_fields st timecode
  have f7 := headerless_timecode_fst st timecode
  unfold frame_duration at hneg hpos
  unfold process_headerless
  simp only [f1, f2, f3, f6, f7, hneg, Bool.false_eq_true, if_false, duplicate_loop, hpos]
  rfl

theorem process_calls_headerless_plain {σ : Type} (env : aac_env σ) (fuel : Nat) :
    ∀ (calls : List (List Nat × Int)) (st : aac_packetizer_c σ),
      st.headerless = true →
      env.needs_negative_displacement st.async
        (frame_duration st.samples_per_sec st.linear : Int) = false →
      env.needs_positive_displacement st.async
        (frame_duration st.samples_per_sec st.linear : Int) = false →
      ∃ (st1 : aac_packetizer_c σ) (new : List packet_t),
        process_calls env (fuel + 1) st calls = .returned st1 ∧
        st1.packet_queue = st.packet_queue ++ new ∧ new.length = calls.length ∧
        (∀ p ∈ new, p.duration = frame_duration st.samples_per_sec st.linear) ∧
        st1.async = st.async ∧ st1.linear = st.linear ∧
        st1.samples_per_sec = st.samples_per_sec := by
  intro calls
  induction calls with
  | nil =>
    intro st _ _ _
    exact ⟨st, [], rfl, by simp, rfl, by simp, rfl, rfl, rfl⟩
  | cons c rest ih =>
    intro st hm hneg hpos
    obtain ⟨f1, f2, f3, f4, f5, f6⟩ := headerless_timecode_fields st c.2
    have hstep := process_headerless_plain env fuel st c.1 c.2 hneg hpos
    obtain ⟨st1, new, g1, g2, g3, g4, g5, g6, g7⟩ := ih
      (({ (headerless_timecode st c.2).2 with
          packetno := st.packetno + 1 } : aac_packetizer_c σ).add_packet c.1
        (scale_timecode st.linear ((headerless_base st c.2 : Int) +
          env.displacement st.async))
        (frame_duration st.samples_per_sec st.linear))
      (by simp [aac_packetizer_c.add_packet, f5, hm])
      (by simpa [aac_packetizer_c.add_packet, f2, f3, f6] using hneg)
      (by simpa [aac_packetizer_c.add_packet, f2, f3, f6] using hpos)
    simp only [aac_packetizer_c.add_packet, f2, f3, f4, f6] at g2 g4 g5 g6 g7
    rw [List.append_assoc] at g2
    refine ⟨st1, _, ?_, g2, ?_, ?_, g5, g6, g7⟩
    · simp only [process_calls, process, hm, if_true, hstep]
      exact g1
    · simp [g3]
    · intro p hp
      rcases List.mem_append.mp hp with hp | hp
      · rw [List.mem_singleton.mp hp]
      · exact g4 p hp

theorem sum_of_constant_durations (new : List packet_t) (D : Int)
    (h : ∀ p ∈ new, p.duration = D) : (new.map packet_t.duration).sum = new.length * D := by
  induction new with
  | nil => simp
  | cons p rest ih =>
    have h1 := h p (by simp)
    have h2 := ih (fun q hq => h q (by simp [hq]))
    simp only [List.map_cons, List.sum_cons, List.length_cons, h1, h2]
    push_cast
    ring

theorem double_mul_1024_1000000000 : double_mul 1024 1000000000 = 1024000000000 := by
  have h := round_binary64_intCast 1024000000000 (by norm_num)
  unfold double_mul
  have e : (1024 : ℚ) * 1000000000 = ((1024000000000 : Int) : ℚ) := by norm_num
  rw [e, h]
  norm_num

theorem frame_duration_double_nonneg (samples_per_sec : Nat) (linear : ℚ) (hL : 0 ≤ linear) :
    0 ≤ frame_duration_double samples_per_sec linear := by
  unfold frame_duration_double double_div
  apply round_binary64_nonneg
  apply div_nonneg
  · unfold double_mul
    apply round_binary64_nonneg
    apply mul_nonneg _ hL
    apply round_binary64_nonneg
    norm_num
  · unfold double_of_int
    apply round_binary64_nonneg
    positivity

theorem drift_without_displacement (samples_per_sec : Nat) (linear : ℚ) (n : Nat)
    (hL : 0 ≤ linear) :
    0 ≤ (n : ℚ) * frame_duration_double samples_per_sec linear -
        ((n * frame_duration samples_per_sec linear : Int) : ℚ) ∧
    (n : ℚ) * frame_duration_double samples_per_sec linear -
        ((n * frame_duration samples_per_sec linear : Int) : ℚ) ≤ n := by
  have hx := frame_duration_double_nonneg samples_per_sec linear hL
  obtain ⟨h1, h2⟩ := to_int64_le_self _ hx
  rw [← frame_duration_eq] at h1 h2
  have hn : (0 : ℚ) ≤ n := by positivity
  push_cast
  constructor
  · nlinarith
  · nlinarith

theorem two_roundings_bound (q z T w : ℚ) (hw : 0 < w) (hw1 : w ≤ 1) (hT : 0 < T)
    (z1 : z - T ≤ T * w) (z2 : -(T * w) ≤ z - T)
    (e2a : -(z * w) ≤ q - z) (e2b : q - z ≤ z * w) : |q - T| ≤ 3 * T * w := by
  have hTw : 0 ≤ T * w := by positivity
  have hTww : T * w * w ≤ T * w := by nlinarith
  have hzw : z * w ≤ 2 * T * w := by nlinarith
  rw [abs_le]
  constructor
  · nlinarith
  · nlinarith

theorem frame_duration_double_close (samples_per_sec : Nat) (linear : ℚ)
    (hs0 : 0 < samples_per_sec) (hs1 : samples_per_sec ≤ 2 ^ 53)
    (hL : pow2 (-900) ≤ linear) :
    |frame_duration_double samples_per_sec linear -
        linear * (1024 * 1000000000 / samples_per_sec)| ≤
      3 * (linear * (1024 * 1000000000 / samples_per_sec)) / 2 ^ 53 := by
  have hL0 : 0 < linear := lt_of_lt_of_le (pow2_pos _) hL
  have hsq : (0 : ℚ) < samples_per_sec := by exact_mod_cast hs0
  have hsq1 : (samples_per_sec : ℚ) ≤ 2 ^ 53 := by exact_mod_cast hs1
  have hsd : double_of_int (samples_per_sec : Int) = (samples_per_sec : ℚ) := by
    have := double_of_int_eq (samples_per_sec : Int)
      (by rw [abs_of_nonneg (by positivity)]; exact_mod_cast hs1)
    simpa using this
  unfold frame_duration_double double_div
  rw [double_mul_1024_1000000000, hsd]
  unfold double_mul
  have h900 : pow2 (-900) = pow2 (-15) * pow2 (-885) := by rw [← pow2_add]; norm_num
  have h15 : pow2 (-15) = 1 / 32768 := by simp [pow2]
  have h885 : pow2 (-1022) ≤ pow2 (-885) := pow2_le_pow2 (by norm_num)
  have h915 : pow2 (-1022) ≤ pow2 (-15) * pow2 (-900) := by
    rw [← pow2_add]
    exact pow2_le_pow2 (by norm_num)
  have h1022 : pow2 (-1022) ≤ pow2 (-900) := pow2_le_pow2 (by norm_num)
  have hcl : pow2 (-1022) ≤ 1024000000000 * linear := by nlinarith
  have e1 := round_binary64_error_of_pos hcl
  rw [abs_le] at e1
  obtain ⟨e1a, e1b⟩ := e1
  -- the rounded product
  generalize round_binary64 (1024000000000 * linear) = y at e1a e1b ⊢
  have hw : (0 : ℚ) < 1 / 2 ^ 53 := by positivity
  have hw1 : (1 : ℚ) / 2 ^ 53 ≤ 1 := by norm_num
  have hT : 0 < linear * (1024 * 1000000000 / (samples_per_sec : ℚ)) := by positivity
  have ez : y / samples_per_sec - linear * (1024 * 1000000000 / (samples_per_sec : ℚ)) =
      (y - 1024000000000 * linear) / samples_per_sec := by
    field_simp
    ring
  have eT : 1024000000000 * linear / 2 ^ 53 / (samples_per_sec : ℚ) =
      linear * (1024 * 1000000000 / (samples_per_sec : ℚ)) * (1 / 2 ^ 53) := by
    field_simp
    ring
  have z1 : y / samples_per_sec - linear * (1024 * 1000000000 / (samples_per_sec : ℚ)) ≤
      linear * (1024 * 1000000000 / (samples_per_sec : ℚ)) * (1 / 2 ^ 53) := by
    rw [ez, ← eT]
    exact div_le_div_of_nonneg_right e1b hsq.le
  have z2 : -(linear * (1024 * 1000000000 / (samples_per_sec : ℚ)) * (1 / 2 ^ 53)) ≤
      y / samples_per_sec - linear * (1024 * 1000000000 / (samples_per_sec : ℚ)) := by
    rw [ez, ← eT, ← neg_div]
    exact div_le_div_of_nonneg_right e1a hsq.le
  have hzlow : pow2 (-1022) ≤ y / samples_per_sec := by
    have hy : 1024000000000 * linear / 2 ≤ y := by
      have : 1024000000000 * linear / 2 ^ 53 ≤ 1024000000000 * linear / 2 := by
        apply div_le_div_of_nonneg_left (by positivity) (by norm_num) (by norm_num)
      linarith
    have h2 : 1024000000000 * linear / 2 / 2 ^ 53 ≤ y / samples_per_sec := by
      calc 1024000000000 * linear / 2 / 2 ^ 53
          ≤ y / 2 ^ 53 := div_le_div_of_nonneg_right hy (by positivity)
        _ ≤ y / samples_per_sec :=
            div_le_div_of_nonneg_left (by linarith [hy, hL0]) hsq hsq1
    have h3 : pow2 (-15) * pow2 (-900) ≤ 1024000000000 * linear / 2 / 2 ^ 53 := by
      rw [h15]
      have : (1 : ℚ) / 32768 * linear ≤ 1024000000000 * linear / 2 / 2 ^ 53 := by
        have : (1 : ℚ) / 32768 ≤ 1024000000000 / 2 / 2 ^ 53 := by norm_num
        calc (1 : ℚ) / 32768 * linear ≤ 1024000000000 / 2 / 2 ^ 53 * linear :=
              mul_le_mul_of_nonneg_right this hL0.le
          _ = 1024000000000 * linear / 2 / 2 ^ 53 := by ring
      have h4 : (1 : ℚ) / 32768 * pow2 (-900) ≤ 1 / 32768 * linear :=
        mul_le_mul_of_nonneg_left hL (by norm_num)
      linarith
    linarith
  have e2 := round_binary64_error_of_pos hzlow
  rw [abs_le] at e2
  obtain ⟨e2a, e2b⟩ := e2
  have ezw : y / samples_per_sec / 2 ^ 53 = y / samples_per_sec * (1 / 2 ^ 53) := by ring
  rw [ezw] at e2a e2b
  have e3T : 3 * (linear * (1024 * 1000000000 / (samples_per_sec : ℚ))) / 2 ^ 53 =
      3 * (linear * (1024 * 1000000000 / (samples_per_sec : ℚ))) * (1 / 2 ^ 53) := by ring
  rw [e3T]
  exact two_roundings_bound _ _ _ _ hw hw1 hT z1 z2 e2a e2b

/-- C7 (amended): with a linear factor `L ≥ 0` and no displacement pending (no frame is
suppressed or duplicated), every frame yields one packet of duration `trunc(q)`, where `q` is
the binary64 value of `1024 * 10^9 * L / samples_per_sec` (`frame_duration_double`); so after
`n` frames, fed as `n` headerless calls of `process` or as `n` complete frames in the
accumulator of one header-scanning call, the sum of the emitted durations is `n * trunc(q)`
and falls short of `n * q` by at least 0 and at most `n` time units.  For a sample rate from
1 to `2^53` and `L ≥ 2^-900`, `q` differs from `L * T`, `T = 1024 * 10^9 / samples_per_sec`
the nominal frame duration, by at most `3 * L * T / 2^53`. -/
theorem drift_without_pending_displacement {σ : Type} (env : aac_env σ) (fuel : Nat)
    (st : aac_packetizer_c σ) (hL : 0 ≤ st.linear) :
    (∀ calls : List (List Nat × Int),
      st.headerless = true →
      env.needs_negative_displacement st.async
        (frame_duration st.samples_per_sec st.linear : Int) = false →
      env.needs_positive_displacement st.async
        (frame_duration st.samples_per_sec st.linear : Int) = false →
      ∃ (st1 : aac_packetizer_c σ) (new : List packet_t),
        process_calls env (fuel + 1) st calls = .returned st1 ∧
        st1.packet_queue = st.packet_queue ++ new ∧ new.length = calls.length ∧
        (new.map packet_t.duration).sum =
          calls.length * to_int64 (frame_duration_double st.samples_per_sec st.linear) ∧
        0 ≤ (calls.length : ℚ) * frame_duration_double st.samples_per_sec st.linear -
          (((new.map packet_t.duration).sum : Int) : ℚ) ∧
        (calls.length : ℚ) * frame_duration_double st.samples_per_sec st.linear -
          (((new.map packet_t.duration).sum : Int) : ℚ) ≤ calls.length) ∧
    (∀ (parse : List Nat → Bool → Option aac_header_t) (mem junk : List Nat)
        (fs : List (List Nat)) (timecode : Int),
      env.find_aac_header = spec_find_aac_header parse →
      st.headerless = false →
      st.byte_buffer ++ mem = junk ++ fs.flatten →
      (∀ p, p < junk.length →
        parse ((junk ++ fs.flatten).drop p) st.emphasis_present = none) →
      valid_frames parse st.emphasis_present fs = true →
      env.needs_negative_displacement st.async
        (1024 * 1000000000 / st.samples_per_sec) = false →
      env.needs_positive_displacement st.async
        (1024 * 1000000000 / st.samples_per_sec) = false →
      fs.length < fuel →
      ∃ (st1 : aac_packetizer_c σ) (new : List packet_t),
        process env fuel st mem timecode = .returned st1 ∧
        st1.packet_queue = st.packet_queue ++ new ∧ new.length = fs.length ∧
        (new.map packet_t.duration).sum =
          fs.length * to_int64 (frame_duration_double st.samples_per_sec st.linear) ∧
        0 ≤ (fs.length : ℚ) * frame_duration_double st.samples_per_sec st.linear -
          (((new.map packet_t.duration).sum : Int) : ℚ) ∧
        (fs.length : ℚ) * frame_duration_double st.samples_per_sec st.linear -
          (((new.map packet_t.duration).sum : Int) : ℚ) ≤ fs.length) ∧
    (0 < st.samples_per_sec → st.samples_per_sec ≤ 2 ^ 53 → pow2 (-900) ≤ st.linear →
      |frame_duration_double st.samples_per_sec st.linear -
          st.linear * (1024 * 1000000000 / st.samples_per_sec)| ≤
        3 * (st.linear * (1024 * 1000000000 / st.samples_per_sec)) / 2 ^ 53) := by
  refine ⟨?_, ?_, ?_⟩
  · intro calls hm hneg hpos
    obtain ⟨st1, new, g1, g2, g3, g4, -⟩ :=
      process_calls_headerless_plain env fuel calls st hm hneg hpos
    have hs := sum_of_constant_durations new _ g4
    rw [g3] at hs
    obtain ⟨b1, b2⟩ := drift_without_displacement st.samples_per_sec st.linear calls.length hL
    exact ⟨st1, new, g1, g2, g3, hs, by rw [hs]; exact b1, by rw [hs]; exact b2⟩
  · intro parse mem junk fs timecode hfind hm hbuf hjunk hvalid hneg hpos hfuel
    obtain ⟨st1, hrun, -, -, hlen⟩ := packet_loop_frames env parse hfind timecode fs junk
      { st with byte_buffer := st.byte_buffer ++ mem } fuel hbuf hjunk hvalid hneg hpos hfuel
    obtain ⟨-, -, -, new, g1, g6⟩ := packet_loop_durations env timecode fuel _ _ hrun
    have hl : new.length = fs.length := by
      have := congrArg List.length g1
      simp only [List.length_append] at this
      simp only at hlen
      omega
    have hs := sum_of_constant_durations new _ g6
    rw [hl] at hs
    obtain ⟨b1, b2⟩ := drift_without_displacement st.samples_per_sec st.linear fs.length hL
    refine ⟨st1, new, ?_, g1, hl, hs, by rw [hs]; exact b1, by rw [hs]; exact b2⟩
    unfold process
    rw [if_neg (by simp [hm])]
    exact hrun
  · intro hs0 hs1 hmin
    exact frame_duration_double_close st.samples_per_sec st.linear hs0 hs1 hmin

theorem drift_without_pending_displacement_witness :
    ∃ (st1 : aac_packetizer_c ℚ) (new : List packet_t),
      process_calls (spec_env (spec_find_aac_header sample_parse)) 1
        (aac_packetizer_c.create 0 1 48000 2 (round_binary64 (999 / 1000)) 0 false true)
        [([1], -1), ([2], -1)] = .returned st1 ∧
      st1.packet_queue = [] ++ new ∧
      (new.map packet_t.duration).sum = (2 : Nat) * (21312000 : Int) := by
  obtain ⟨st1, new, h1, h2, -, h4, -⟩ :=
    (drift_without_pending_displacement (spec_env (spec_find_aac_header sample_parse)) 0
      (aac_packetizer_c.create 0 1 48000 2 (round_binary64 (999 / 1000)) 0 false true)
      (by with_unfolding_all decide)).1 [([1], -1), ([2], -1)] rfl
      (by with_unfolding_all rfl) (by with_unfolding_all rfl)
  have hD : to_int64 (frame_duration_double
      (aac_packetizer_c.create 0 1 48000 2 (round_binary64 (999 / 1000)) (0 : ℚ) false
        true).samples_per_sec
      (aac_packetizer_c.create 0 1 48000 2 (round_binary64 (999 / 1000)) (0 : ℚ) false
        true).linear) = 21312000 := by with_unfolding_all rfl
  rw [hD] at h4
  exact ⟨st1, new, h1, h2, h4⟩

/-- C7 (counterexample): (a) at 32000 Hz with the linear factor 1 and the displacement
64000000 (two nominal frame durations of 32000000), one headerless frame yields three packets:
the emitted durations sum to 96000000 and exceed the nominal 32000000 by two frame durations;
(b) at 44100 Hz with the linear factor 1 and no displacement, after 40000000 frames the
emitted durations fall short of the nominal sum by more than one nominal frame duration. -/
theorem drift_exceeds_one_frame_duration :
    (process (spec_env (spec_find_aac_header sample_parse)) 3
        (sample_headerless 1 64000000) [1] (-1) =
      .returned { sample_headerless 1 64000000 with
        async := 0, packetno := 1,
        packet_queue := [⟨[1], 64000000, 32000000⟩, ⟨[1], 32000000, 32000000⟩,
          ⟨[1], 0, 32000000⟩] } ∧
      (((32000000 + 32000000 + 32000000 : Int) : ℚ) - 1 * (1 * (1024 * 1000000000 / 32000)) >
        1024 * 1000000000 / 32000)) ∧
    (∃ (st1 : aac_packetizer_c ℚ) (new : List packet_t),
      process_calls (spec_env (spec_find_aac_header sample_parse)) 1 sample_headerless_44100
        (List.replicate 40000000 ([], -1)) = .returned st1 ∧
      st1.packet_queue = new ∧ new.length = 40000000 ∧
      (1 : ℚ) * (40000000 * (1024 * 1000000000 / 44100)) -
          (((new.map packet_t.duration).sum : Int) : ℚ) > 1024 * 1000000000 / 44100) := by
  refine ⟨⟨by with_unfolding_all rfl, by norm_num⟩, ?_⟩
  obtain ⟨st1, new, g1, g2, g3, g4, -⟩ :=
    process_calls_headerless_plain (spec_env (spec_find_aac_header sample_parse)) 0
      (List.replicate 40000000 ([], -1)) sample_headerless_44100 rfl
      (by with_unfolding_all rfl) (by with_unfolding_all rfl)
  have hD : frame_duration sample_headerless_44100.samples_per_sec
      sample_headerless_44100.linear = 23219954 := by with_unfolding_all rfl
  rw [hD] at g4
  have hs := sum_of_constant_durations new _ g4
  rw [List.length_replicate] at g3
  rw [g3] at hs
  refine ⟨st1, new, g1, by simpa [sample_headerless_44100, aac_packetizer_c.create] using g2,
    g3, ?_⟩
  rw [hs]
  norm_num

/-! ## The AAC packetizer: the order of the timestamps -/

theorem pairwise_le_map_range (f : Nat → Int) (hf : ∀ i j, i ≤ j → f i ≤ f j) (n : Nat) :
    ((List.range n).map f).Pairwise (fun a b => a ≤ b) := by
  rw [List.pairwise_map]
  exact (List.pairwise_lt_range n).imp (fun h => hf _ _ (le_of_lt h))

theorem double_of_int_mono {m n : Int} (h : m ≤ n) : double_of_int m ≤ double_of_int n := by
  unfold double_of_int
  apply round_binary64_mono
  exact_mod_cast h

theorem double_of_int_nonneg {n : Int} (h : 0 ≤ n) : 0 ≤ double_of_int n := by
  unfold double_of_int
  apply round_binary64_nonneg
  exact_mod_cast h

theorem index_base_mono (samples_per_sec : Nat) {m n : Int} (h : m ≤ n) :
    index_base samples_per_sec m ≤ index_base samples_per_sec n := by
  unfold index_base
  apply to_int64_mono
  unfold double_div
  apply round_binary64_mono
  apply div_le_div_of_nonneg_right _ (double_of_int_nonneg (by positivity))
  unfold double_mul
  apply round_binary64_mono
  apply mul_le_mul_of_nonneg_left (double_of_int_mono h)
  apply round_binary64_nonneg
  norm_num

theorem scale_timecode_mono (linear : ℚ) (hL : 0 ≤ linear) {x y : ℚ} (h : x ≤ y) :
    scale_timecode linear x ≤ scale_timecode linear y := by
  unfold scale_timecode
  apply to_int64_mono
  unfold double_mul
  apply round_binary64_mono
  exact mul_le_mul_of_nonneg_right (round_binary64_mono h) hL

theorem index_timecode_mono (samples_per_sec : Nat) (linear : ℚ) (hL : 0 ≤ linear)
    {m n : Int} (h : m ≤ n) :
    index_timecode samples_per_sec linear m ≤ index_timecode samples_per_sec linear n := by
  rw [index_timecode_eq, index_timecode_eq]
  apply scale_timecode_mono _ hL
  exact_mod_cast index_base_mono samples_per_sec h

theorem process_calls_scanning_untimed {σ : Type} (env : aac_env σ) (fuel : Nat) :
    ∀ (calls : List (List Nat × Int)) (st st1 : aac_packetizer_c σ),
      st.headerless = false → (∀ c ∈ calls, c.2 = -1) →
      process_calls env fuel st calls = .returned st1 →
      ∃ new : List packet_t,
        st1.packet_queue = st.packet_queue ++ new ∧
        new.map packet_t.timecode =
          (List.range new.length).map (fun i : Nat =>
            index_timecode st.samples_per_sec st.linear (st.packetno + (i : Int))) := by
  intro calls
  induction calls with
  | nil =>
    intro st st1 _ _ h
    simp only [process_calls, run_result.returned.injEq] at h
    subst h
    exact ⟨[], by simp, by simp⟩
  | cons c rest ih =>
    intro st st1 hm htc h
    rw [process_calls] at h
    split at h
    · rename_i st2 hp
      unfold process at hp
      rw [if_neg (by simp [hm])] at hp
      obtain ⟨new1, g1, g2, g3, g4, g5, g7, -⟩ :=
        packet_loop_timecodes env c.2 fuel _ _ hp
      simp only at g1 g2 g3 g4 g5 g7
      obtain ⟨new2, k1, k2⟩ := ih st2 st1 (by rw [g5]; exact hm)
        (fun c hc => htc c (by simp [hc])) h
      refine ⟨new1 ++ new2, by rw [k1, g1, List.append_assoc], ?_⟩
      rw [List.map_append, g7 (htc c (by simp)), k2, g2, g3, g4, List.length_append,
        List.range_add, List.map_append, List.map_map]
      congr 1
      apply List.map_congr_left
      intro i _
      simp only [Function.comp]
      congr 1
      push_cast
      ring
    · simp at h
    · simp at h

theorem process_calls_headerless_untimed {σ : Type} (env : aac_env σ) (fuel : Nat) :
    ∀ (calls : List (List Nat × Int)) (st : aac_packetizer_c σ),
      st.headerless = true → (∀ c ∈ calls, c.2 = -1) →
      env.needs_negative_displacement st.async
        (frame_duration st.samples_per_sec st.linear : Int) = false →
      env.needs_positive_displacement st.async
        (frame_duration st.samples_per_sec st.linear : Int) = false →
      ∃ (st1 : aac_packetizer_c σ) (new : List packet_t),
        process_calls env (fuel + 1) st calls = .returned st1 ∧
        st1.packet_queue = st.packet_queue ++ new ∧
        new.map packet_t.timecode =
          (List.range calls.length).map (fun i : Nat =>
            scale_timecode st.linear
              ((index_base st.samples_per_sec (st.packetno + (i : Int)) : Int) +
                env.displacement st.async)) := by
  intro calls
  induction calls with
  | nil =>
    intro st _ _ _ _
    exact ⟨st, [], rfl, by simp, by simp⟩
  | cons c rest ih =>
    intro st hm htc hneg hpos
    have hc : c.2 = -1 := htc c (by simp)
    have hb : headerless_base st c.2 = index_base st.samples_per_sec st.packetno := by
      simp [headerless_base, hc]
    have ht : (headerless_timecode st c.2).2 = st := by
      simp [headerless_timecode, hc]
    have hstep := process_headerless_plain env fuel st c.1 c.2 hneg hpos
    rw [ht, hb] at hstep
    obtain ⟨st1, new, g1, g2, g3⟩ := ih
      (({ st with packetno := st.packetno + 1 } : aac_packetizer_c σ).add_packet c.1
        (scale_timecode st.linear ((index_base st.samples_per_sec st.packetno : Int) +
          env.displacement st.async))
        (frame_duration st.samples_per_sec st.linear))
      (by simp [aac_packetizer_c.add_packet, hm])
      (fun c hc => htc c (by simp [hc]))
      (by simpa [aac_packetizer_c.add_packet] using hneg)
      (by simpa [aac_packetizer_c.add_packet] using hpos)
    simp only [aac_packetizer_c.add_packet] at g2 g3
    rw [List.append_assoc] at g2
    refine ⟨st1, _, ?_, g2, ?_⟩
    · rw [process_calls, process, if_pos hm, hstep]
      exact g1
    · simp only [List.singleton_append, List.map_cons, List.length_cons,
        List.range_succ_eq_map, List.map_map, g3]
      congr 1
      · simp
      · apply List.map_congr_left
        intro i _
        simp only [Function.comp]
        push_cast
        congr 4
        ring

/-- C8 (amended): with a linear factor `L ≥ 0` and no upstream timecode supplied, (a) in
header-scanning mode the timestamps handed to `add_packet` over any sequence of `process`
calls are in non-decreasing order, the `i`-th packet handed over (duplicates are counted like
the other packets) carrying `(int64_t)((int64_t)(1024e9 * (packetno + i) / samples_per_sec)
* L)`, computed in binary64; (b) in headerless mode the timestamps are in non-decreasing order
over calls during which no displacement is pending. -/
theorem timestamps_non_decreasing_without_upstream_timecode {σ : Type} (env : aac_env σ)
    (fuel : Nat) (st : aac_packetizer_c σ) (calls : List (List Nat × Int))
    (hL : 0 ≤ st.linear) (htc : ∀ c ∈ calls, c.2 = -1) :
    (st.headerless = false →
      ∀ st1, process_calls env fuel st calls = .returned st1 →
        ∃ new : List packet_t,
          st1.packet_queue = st.packet_queue ++ new ∧
          new.map packet_t.timecode =
            (List.range new.length).map (fun i : Nat =>
              scale_timecode st.linear
                (index_base st.samples_per_sec (st.packetno + (i : Int)))) ∧
          (new.map packet_t.timecode).Pairwise (fun a b => a ≤ b)) ∧
    (st.headerless = true →
      env.needs_negative_displacement st.async
        (frame_duration st.samples_per_sec st.linear : Int) = false →
      env.needs_positive_displacement st.async
        (frame_duration st.samples_per_sec st.linear : Int) = false →
      ∃ (st1 : aac_packetizer_c σ) (new : List packet_t),
        process_calls env (fuel + 1) st calls = .returned st1 ∧
        st1.packet_queue = st.packet_queue ++ new ∧ new.length = calls.length ∧
        (new.map packet_t.timecode).Pairwise (fun a b => a ≤ b)) := by
  constructor
  · intro hm st1 hrun
    obtain ⟨new, g1, g2⟩ := process_calls_scanning_untimed env fuel calls st st1 hm htc hrun
    refine ⟨new, g1, g2, ?_⟩
    rw [g2]
    apply pairwise_le_map_range
    intro i j hij
    apply index_timecode_mono _ _ hL
    omega
  · intro hm hneg hpos
    obtain ⟨st1, new, g1, g2, g3⟩ :=
      process_calls_headerless_untimed env fuel calls st hm htc hneg hpos
    refine ⟨st1, new, g1, g2, ?_, ?_⟩
    · have := congrArg List.length g3
      simpa using this
    · rw [g3]
      apply pairwise_le_map_range
      intro i j hij
      apply scale_timecode_mono _ hL
      have h1 := index_base_mono st.samples_per_sec
        (show st.packetno + (i : Int) ≤ st.packetno + (j : Int) by omega)
      have h2 : ((index_base st.samples_per_sec (st.packetno + (i : Int)) : Int) : ℚ) ≤
          ((index_base st.samples_per_sec (st.packetno + (j : Int)) : Int) : ℚ) := by
        exact_mod_cast h1
      linarith

theorem timestamps_non_decreasing_without_upstream_timecode_witness :
    ∃ (st1 : aac_packetizer_c ℚ) (new : List packet_t),
      process_calls (spec_env (spec_find_aac_header sample_parse)) 3
        { sample_scanner with async := 32000000 } [([255, 3, 10], -1)] = .returned st1 ∧
      st1.packet_queue = [] ++ new ∧
      (new.map packet_t.timecode).Pairwise (fun a b => a ≤ b) := by
  have hrun : process_calls (spec_env (spec_find_aac_header sample_parse)) 3
      { sample_scanner with async := 32000000 } [([255, 3, 10], -1)] =
      .returned { sample_scanner with
        async := 0, packetno := 2,
        packet_queue := [⟨[10], 0, 32000000⟩, ⟨[10], 32000000, 32000000⟩] } := by
    with_unfolding_all rfl
  obtain ⟨new, h1, -, h3⟩ :=
    (timestamps_non_decreasing_without_upstream_timecode
      (spec_env (spec_find_aac_header sample_parse)) 3
      { sample_scanner with async := 32000000 } [([255, 3, 10], -1)]
      (by with_unfolding_all decide) (by simp)).1 rfl _ hrun
  exact ⟨_, new, hrun, h1, h3⟩

/-- C8 (counterexample): at 32000 Hz with the linear factor 1 and no timecode supplied, (a) in
header-scanning mode with the displacement 32000000 (one frame duration) the single frame in
the accumulator is handed over twice, the duplicate with the timestamp 0 and the other packet
of the frame with 32000000; (b) in headerless mode with the same displacement the duplicate
carries 32000000 and the packet after it 0, so that the timestamps decrease. -/
theorem duplicate_has_its_own_timestamp :
    (process (spec_env (spec_find_aac_header sample_parse)) 3
        { sample_scanner with async := 32000000 } [255, 3, 10] (-1) =
      .returned { sample_scanner with
        async := 0, packetno := 2,
        packet_queue := [⟨[10], 0, 32000000⟩, ⟨[10], 32000000, 32000000⟩] } ∧
      (0 : Int) ≠ 32000000) ∧
    (process (spec_env (spec_find_aac_header sample_parse)) 2
        (sample_headerless 1 32000000) [1] (-1) =
      .returned { sample_headerless 1 32000000 with
        async := 0, packetno := 1,
        packet_queue := [⟨[1], 32000000, 32000000⟩, ⟨[1], 0, 32000000⟩] } ∧
      ¬ ((32000000 : Int) ≤ 0)) := by
  refine ⟨⟨by with_unfolding_all rfl, by decide⟩, ⟨by with_unfolding_all rfl, by decide⟩⟩

/-! ## The AAC packetizer: frames that share an upstream timecode -/

theorem process_calls_same_timecode {σ : Type} (env : aac_env σ) (fuel : Nat) (t : Int)
    (ht : t ≠ -1) :
    ∀ (mems : List (List Nat)) (st : aac_packetizer_c σ),
      st.headerless = true → st.last_timecode = t →
      env.needs_negative_displacement st.async
        (frame_duration st.samples_per_sec st.linear : Int) = false →
      env.needs_positive_displacement st.async
        (frame_duration st.samples_per_sec st.linear : Int) = false →
      ∃ (st1 : aac_packetizer_c σ) (new : List packet_t),
        process_calls env (fuel + 1) st (mems.map (fun m => (m, t))) = .returned st1 ∧
        st1.packet_queue = st.packet_queue ++ new ∧
        new.map packet_t.timecode =
          (List.range mems.length).map (fun i : Nat =>
            scale_timecode st.linear
              ((t + repeat_offset st.samples_per_sec
                (st.num_packets_same_tc + 1 + (i : Int)) : Int) +
                env.displacement st.async)) ∧
        new.map packet_t.data = mems := by
  intro mems
  induction mems with
  | nil =>
    intro st _ _ _ _
    exact ⟨st, [], rfl, by simp, by simp, by simp⟩
  | cons m rest ih =>
    intro st hm hlast hneg hpos
    have hb : headerless_base st t =
        t + repeat_offset st.samples_per_sec (st.num_packets_same_tc + 1) := by
      simp [headerless_base, ht, hlast]
    have htc : (headerless_timecode st t).2 =
        { st with num_packets_same_tc := st.num_packets_same_tc + 1 } := by
      simp [headerless_timecode, ht, hlast]
    have hstep := process_headerless_plain env fuel st m t hneg hpos
    rw [htc, hb] at hstep
    obtain ⟨st1, new, g1, g2, g3, g4⟩ := ih
      (({ st with num_packets_same_tc := st.num_packets_same_tc + 1,
                  packetno := st.packetno + 1 } : aac_packetizer_c σ).add_packet m
        (scale_timecode st.linear
          ((t + repeat_offset st.samples_per_sec (st.num_packets_same_tc + 1) : Int) +
            env.displacement st.async))
        (frame_duration st.samples_per_sec st.linear))
      (by simp [aac_packetizer_c.add_packet, hm])
      (by simp [aac_packetizer_c.add_packet, hlast])
      (by simpa [aac_packetizer_c.add_packet] using hneg)
      (by simpa [aac_packetizer_c.add_packet] using hpos)
    simp only [aac_packetizer_c.add_packet] at g2 g3
    rw [List.append_assoc] at g2
    refine ⟨st1, _, ?_, g2, ?_, ?_⟩
    · rw [List.map_cons, process_calls, process, if_pos hm, hstep]
      exact g1
    · simp only [List.singleton_append, List.map_cons, List.length_cons,
        List.range_succ_eq_map, List.map_map, g3]
      congr 1
      · simp
      · apply List.map_congr_left
        intro i _
        simp only [Function.comp]
        push_cast
        congr 5
        ring
    · simp [g4]

theorem process_new_timecode {σ : Type} (env : aac_env σ) (fuel : Nat)
    (st : aac_packetizer_c σ) (mem : List Nat) (t : Int)
    (hm : st.headerless = true) (ht : t ≠ -1) (hlast : st.last_timecode ≠ t)
    (hneg : env.needs_negative_displacement st.async
      (frame_duration st.samples_per_sec st.linear : Int) = false)
    (hpos : env.needs_positive_displacement st.async
      (frame_duration st.samples_per_sec st.linear : Int) = false) :
    process env (fuel + 1) st mem t =
      .returned (aac_packetizer_c.add_packet
        { st with last_timecode := t, num_packets_same_tc := 0, packetno := st.packetno + 1 }
        mem (scale_timecode st.linear ((t : Int) + env.displacement st.async))
        (frame_duration st.samples_per_sec st.linear)) := by
  have hb : headerless_base st t = t := by
    simp [headerless_base, ht, hlast]
  have htc : (headerless_timecode st t).2 =
      { st with last_timecode := t, num_packets_same_tc := 0 } := by
    simp [headerless_timecode, ht, hlast]
  rw [process, if_pos hm, process_headerless_plain env fuel st mem t hneg hpos, htc, hb]

theorem repeat_offset_zero (samples_per_sec : Nat) : repeat_offset samples_per_sec 0 = 0 := by
  simp [repeat_offset, double_of_int, double_mul, double_div, round_binary64_zero, to_int64]

theorem same_timecode_timestamps {σ : Type} (env : aac_env σ)
    (fuel : Nat) (st : aac_packetizer_c σ) (t : Int) (mems : List (List Nat))
    (hm : st.headerless = true)
    (hneg : env.needs_negative_displacement st.async
      (frame_duration st.samples_per_sec st.linear : Int) = false)
    (hpos : env.needs_positive_displacement st.async
      (frame_duration st.samples_per_sec st.linear : Int) = false)
    (ht : t ≠ -1) (hlast : st.last_timecode ≠ t) :
    ∃ (st1 : aac_packetizer_c σ) (new : List packet_t),
      process_calls env (fuel + 1) st (mems.map (fun m => (m, t))) = .returned st1 ∧
      st1.packet_queue = st.packet_queue ++ new ∧
      new.map packet_t.data = mems ∧
      new.map packet_t.timecode =
        (List.range mems.length).map (fun i : Nat =>
          scale_timecode st.linear
            ((t + repeat_offset st.samples_per_sec (i : Int) : Int) +
              env.displacement st.async)) := by
  match mems with
  | [] => exact ⟨st, [], rfl, by simp, by simp, by simp⟩
  | m :: rest =>
    obtain ⟨st1, new, g1, g2, g3, g4⟩ := process_calls_same_timecode env fuel t ht rest
      (aac_packetizer_c.add_packet
        { st with last_timecode := t, num_packets_same_tc := 0, packetno := st.packetno + 1 }
        m (scale_timecode st.linear ((t : Int) + env.displacement st.async))
        (frame_duration st.samples_per_sec st.linear))
      (by simp [aac_packetizer_c.add_packet, hm])
      (by simp [aac_packetizer_c.add_packet])
      (by simpa [aac_packetizer_c.add_packet] using hneg)
      (by simpa [aac_packetizer_c.add_packet] using hpos)
    simp only [aac_packetizer_c.add_packet] at g2 g3
    rw [List.append_assoc] at g2
    refine ⟨st1, _, ?_, g2, ?_, ?_⟩
    · rw [List.map_cons, process_calls, process_new_timecode env fuel st m t hm ht hlast hneg hpos]
      exact g1
    · simp [g4]
    · simp only [List.singleton_append, List.map_cons, List.length_cons,
        List.range_succ_eq_map, List.map_map, g3, Nat.cast_zero, repeat_offset_zero, add_zero]
      refine congrArg _ ?_
      apply List.map_congr_left
      intro i _
      simp only [Function.comp]
      push_cast
      congr 5
      ring

theorem pairwise_lt_map_range (f : Nat → Int) (n : Nat)
    (hf : ∀ i j, i < j → j < n → f i < f j) :
    ((List.range n).map f).Pairwise (fun a b => a < b) := by
  rw [List.pairwise_map]
  have h := List.pairwise_lt_range n
  have hmem : ∀ x ∈ List.range n, x < n := fun x hx => List.mem_range.mp hx
  exact (List.Pairwise.and_mem.mp h).imp (fun ⟨_, hb, hab⟩ => hf _ _ hab (hmem _ hb))

theorem scale_timecode_one_exact (x : Int) (h : |x| ≤ 2 ^ 53) :
    scale_timecode 1 (x : ℚ) = x := by
  unfold scale_timecode double_mul
  rw [round_binary64_intCast x h, mul_one, round_binary64_intCast x h, to_int64_intCast]

theorem repeat_product_exact (n : Nat) (hn : n ≤ 2 ^ 32) :
    double_mul (double_of_int ((n : Int) * 1024)) 1000000000 = (n : ℚ) * 1024000000000 := by
  have h1 : double_of_int ((n : Int) * 1024) = (((n : Int) * 1024 : Int) : ℚ) := by
    apply double_of_int_eq
    rw [abs_of_nonneg (by positivity)]
    have : (n : Int) ≤ 2 ^ 32 := by exact_mod_cast hn
    omega
  unfold double_mul
  rw [h1]
  have h19 : pow2 19 = 524288 := by simp [pow2]
  have e : ((((n : Int) * 1024 : Int) : ℚ)) * 1000000000 =
      (((n : Int) * 1953125 : Int) : ℚ) * pow2 19 := by
    rw [h19]
    push_cast
    ring
  rw [e, round_binary64_representable _ _ _ (by norm_num), h19]
  · push_cast
    ring
  · rw [abs_of_nonneg (by positivity)]
    have : (n : Int) ≤ 2 ^ 32 := by exact_mod_cast hn
    omega

theorem repeat_offset_eq (samples_per_sec n : Nat) (hs : samples_per_sec ≤ 2 ^ 53)
    (hn : n ≤ 2 ^ 32) :
    repeat_offset samples_per_sec (n : Int) =
      to_int64 (round_binary64 ((n : ℚ) * 1024000000000 / samples_per_sec)) := by
  have hsd : double_of_int (samples_per_sec : Int) = (samples_per_sec : ℚ) := by
    have := double_of_int_eq (samples_per_sec : Int)
      (by rw [abs_of_nonneg (by positivity)]; exact_mod_cast hs)
    simpa using this
  unfold repeat_offset double_div
  rw [repeat_product_exact n hn, hsd]

theorem to_int64_round_le_int {x : ℚ} {n : Int} (hn : |n| ≤ 2 ^ 53) (h : x ≤ n) :
    to_int64 (round_binary64 x) ≤ n := by
  have h1 := round_binary64_mono h
  rw [round_binary64_intCast n hn] at h1
  have h2 := to_int64_mono h1
  rwa [to_int64_intCast] at h2

theorem to_int64_round_ge_int {x : ℚ} {n : Int} (hn : |n| ≤ 2 ^ 53) (h : (n : ℚ) ≤ x) :
    n ≤ to_int64 (round_binary64 x) := by
  have h1 := round_binary64_mono h
  rw [round_binary64_intCast n hn] at h1
  have h2 := to_int64_mono h1
  rwa [to_int64_intCast] at h2

theorem repeat_offset_strict_mono (samples_per_sec : Nat) (hs0 : 0 < samples_per_sec)
    (hs1 : 2 * samples_per_sec ≤ 1024000000000) {i j : Nat} (hij : i < j) (hj : j ≤ 2 ^ 32)
    (hmax : (j : ℚ) * (1024000000000 / samples_per_sec) ≤ 2 ^ 53) :
    repeat_offset samples_per_sec (i : Int) < repeat_offset samples_per_sec (j : Int) := by
  have hs : (0 : ℚ) < samples_per_sec := by exact_mod_cast hs0
  have hs53 : samples_per_sec ≤ 2 ^ 53 := by omega
  rw [repeat_offset_eq _ i hs53 (by omega), repeat_offset_eq _ j hs53 hj]
  have hT : (2 : ℚ) ≤ 1024000000000 / samples_per_sec := by
    rw [le_div_iff₀ hs]
    exact_mod_cast hs1
  have hxi0 : (0 : ℚ) ≤ (i : ℚ) * 1024000000000 / samples_per_sec := by positivity
  have hstep : (i : ℚ) * 1024000000000 / samples_per_sec + 2 ≤
      (j : ℚ) * 1024000000000 / samples_per_sec := by
    have hij' : (i : ℚ) + 1 ≤ j := by exact_mod_cast hij
    have e1 : (j : ℚ) * 1024000000000 / samples_per_sec =
        (j : ℚ) * (1024000000000 / samples_per_sec) := by ring
    have e2 : (i : ℚ) * 1024000000000 / samples_per_sec =
        (i : ℚ) * (1024000000000 / samples_per_sec) := by ring
    rw [e1, e2]
    nlinarith
  have hxj : (j : ℚ) * 1024000000000 / samples_per_sec ≤ 2 ^ 53 := by
    have e1 : (j : ℚ) * 1024000000000 / samples_per_sec =
        (j : ℚ) * (1024000000000 / samples_per_sec) := by ring
    rw [e1]
    exact hmax
  have hf1 := Int.floor_le ((i : ℚ) * 1024000000000 / samples_per_sec)
  have hf2 := Int.lt_floor_add_one ((i : ℚ) * 1024000000000 / samples_per_sec)
  have hf0 : 0 ≤ ⌊(i : ℚ) * 1024000000000 / samples_per_sec⌋ := Int.floor_nonneg.mpr hxi0
  have hN53 : ((⌊(i : ℚ) * 1024000000000 / samples_per_sec⌋ + 2 : Int) : ℚ) ≤ 2 ^ 53 := by
    push_cast
    linarith
  have hN53' : ⌊(i : ℚ) * 1024000000000 / samples_per_sec⌋ + 2 ≤ 2 ^ 53 := by
    exact_mod_cast hN53
  have a1 : to_int64 (round_binary64 ((i : ℚ) * 1024000000000 / samples_per_sec)) ≤
      ⌊(i : ℚ) * 1024000000000 / samples_per_sec⌋ + 1 := by
    apply to_int64_round_le_int
    · rw [abs_of_nonneg (by omega)]
      omega
    · push_cast
      linarith
  have a2 : ⌊(i : ℚ) * 1024000000000 / samples_per_sec⌋ + 2 ≤
      to_int64 (round_binary64 ((j : ℚ) * 1024000000000 / samples_per_sec)) := by
    apply to_int64_round_ge_int
    · rw [abs_of_nonneg (by omega)]
      omega
    · push_cast
      linarith
  omega

theorem repeat_offset_bounds (samples_per_sec : Nat) (i : Nat) (b : Int)
    (hs53 : samples_per_sec ≤ 2 ^ 53) (hi : i ≤ 2 ^ 32)
    (hb : |b| ≤ 2 ^ 53) (h : (i : ℚ) * (1024000000000 / samples_per_sec) ≤ b) :
    0 ≤ repeat_offset samples_per_sec (i : Int) ∧ repeat_offset samples_per_sec (i : Int) ≤ b := by
  rw [repeat_offset_eq _ i hs53 hi]
  constructor
  · apply to_int64_nonneg
    apply round_binary64_nonneg
    positivity
  · apply to_int64_round_le_int hb
    have e1 : (i : ℚ) * 1024000000000 / samples_per_sec =
        (i : ℚ) * (1024000000000 / samples_per_sec) := by ring
    rw [e1]
    exact h

/-- C9 (amended): in headerless mode with `L = 1` and zero displacement (none pending), for
every upstream timecode `t ≠ -1` that differs from the last one recorded, `k` consecutive
`process` calls that all supply `t` hand over the timestamps
`(int64_t)((double)(t + o_i) * 1.0)`, `i = 0 .. k-1`, where
`o_i = (int64_t)(i * 1024 * 1000000000.0 / samples_per_sec)` is computed in binary64
(`repeat_offset`); when in addition the sample rate is between 1 and `512 * 10^9` Hz,
`k ≤ 2^32` and `|t| + k * 1024 * 10^9 / samples_per_sec ≤ 2^53`, the timestamps are exactly
`t + o_i` and are strictly increasing (hence pairwise distinct).  A call whose supplied
timecode differs from the last one resets `num_packets_same_tc` to 0, records the new timecode
and hands over the supplied value as a binary64 number, which is the supplied value itself
when `|t| ≤ 2^53`. -/
theorem same_timecode_calls_get_increasing_timestamps {σ : Type} (env : aac_env σ)
    (fuel : Nat) (st : aac_packetizer_c σ) (t : Int) (mem : List Nat)
    (mems : List (List Nat))
    (hm : st.headerless = true) (hL : st.linear = 1) (hd : env.displacement st.async = 0)
    (hneg : env.needs_negative_displacement st.async
      (frame_duration st.samples_per_sec st.linear : Int) = false)
    (hpos : env.needs_positive_displacement st.async
      (frame_duration st.samples_per_sec st.linear : Int) = false)
    (ht : t ≠ -1) (hlast : st.last_timecode ≠ t) :
    (∃ (st1 : aac_packetizer_c σ) (new : List packet_t),
      process_calls env (fuel + 1) st (mems.map (fun m => (m, t))) = .returned st1 ∧
      st1.packet_queue = st.packet_queue ++ new ∧
      new.map packet_t.data = mems ∧
      new.map packet_t.timecode =
        (List.range mems.length).map (fun i : Nat =>
          scale_timecode 1 ((t + repeat_offset st.samples_per_sec (i : Int) : Int) : ℚ)) ∧
      (0 < st.samples_per_sec → 2 * st.samples_per_sec ≤ 1024000000000 →
        mems.length ≤ 2 ^ 32 →
        ((|t| : Int) : ℚ) + (mems.length : ℚ) * (1024000000000 / st.samples_per_sec) ≤
          2 ^ 53 →
        new.map packet_t.timecode =
          (List.range mems.length).map (fun i : Nat =>
            t + repeat_offset st.samples_per_sec (i : Int)) ∧
        (new.map packet_t.timecode).Pairwise (fun a b => a < b))) ∧
    (∃ st2 : aac_packetizer_c σ,
      process env (fuel + 1) st mem t = .returned st2 ∧
      st2.num_packets_same_tc = 0 ∧ st2.last_timecode = t ∧
      st2.packet_queue = st.packet_queue ++
        [⟨mem, scale_timecode 1 (t : ℚ), frame_duration st.samples_per_sec 1⟩] ∧
      (|t| ≤ 2 ^ 53 → scale_timecode 1 (t : ℚ) = t)) := by
  constructor
  · obtain ⟨st1, new, g1, g2, g3, g4⟩ :=
      same_timecode_timestamps env fuel st t mems hm hneg hpos ht hlast
    rw [hL, hd] at g4
    simp only [add_zero] at g4
    refine ⟨st1, new, g1, g2, g3, g4, ?_⟩
    intro hs0 hs1 hk hmax
    have hs : (0 : ℚ) < st.samples_per_sec := by exact_mod_cast hs0
    have hT0 : (0 : ℚ) ≤ 1024000000000 / (st.samples_per_sec : ℚ) := by positivity
    have hs53 : st.samples_per_sec ≤ 2 ^ 53 := by omega
    have habs0 : (0 : ℚ) ≤ ((|t| : Int) : ℚ) := by exact_mod_cast abs_nonneg t
    have hk0 : (0 : ℚ) ≤ (mems.length : ℚ) * (1024000000000 / st.samples_per_sec) :=
      mul_nonneg (Nat.cast_nonneg _) hT0
    have habs : |t| ≤ 2 ^ 53 := by
      have : ((|t| : Int) : ℚ) ≤ 2 ^ 53 := by linarith
      exact_mod_cast this
    have hexact : ∀ i, i ∈ List.range mems.length →
        scale_timecode 1 ((t + repeat_offset st.samples_per_sec (i : Int) : Int) : ℚ) =
          t + repeat_offset st.samples_per_sec (i : Int) := by
      intro i hi
      have hi' : i < mems.length := List.mem_range.mp hi
      have hiq : (i : ℚ) ≤ mems.length := by exact_mod_cast hi'.le
      have hb : (i : ℚ) * (1024000000000 / st.samples_per_sec) ≤
          ((2 ^ 53 - |t| : Int) : ℚ) := by
        have h1 : (i : ℚ) * (1024000000000 / st.samples_per_sec) ≤
            (mems.length : ℚ) * (1024000000000 / st.samples_per_sec) :=
          mul_le_mul_of_nonneg_right hiq hT0
        rw [Int.cast_sub]
        push_cast
        push_cast at hmax
        linarith
      have hnn : 0 ≤ |t| := abs_nonneg t
      obtain ⟨o1, o2⟩ := repeat_offset_bounds st.samples_per_sec i (2 ^ 53 - |t|) hs53
        (by omega) (by rw [abs_of_nonneg (by omega)]; omega) hb
      apply scale_timecode_one_exact
      have hl := neg_abs_le t
      have hu := le_abs_self t
      rw [abs_le]
      constructor <;> omega
    have hts : new.map packet_t.timecode =
        (List.range mems.length).map (fun i : Nat =>
          t + repeat_offset st.samples_per_sec (i : Int)) := by
      rw [g4]
      exact List.map_congr_left hexact
    refine ⟨hts, ?_⟩
    rw [hts]
    apply pairwise_lt_map_range
    intro i j hij hj
    have hjq : (j : ℚ) ≤ mems.length := by exact_mod_cast hj.le
    have h1 : (j : ℚ) * (1024000000000 / st.samples_per_sec) ≤
        (mems.length : ℚ) * (1024000000000 / st.samples_per_sec) :=
      mul_le_mul_of_nonneg_right hjq hT0
    have := repeat_offset_strict_mono st.samples_per_sec hs0 hs1 hij (by omega)
      (by linarith)
    omega
  · refine ⟨_, process_new_timecode env fuel st mem t hm ht hlast hneg hpos, rfl, rfl, ?_, ?_⟩
    · simp only [aac_packetizer_c.add_packet, hL, hd, add_zero]
    · intro h
      exact scale_timecode_one_exact t h

theorem same_timecode_calls_get_increasing_timestamps_witness :
    ∃ (st1 : aac_packetizer_c Unit) (new : List packet_t),
      process_calls sample_env_without_displacement 1 sample_headerless_plain
        [([1], 5), ([2], 5), ([3], 5)] = .returned st1 ∧
      st1.packet_queue = [] ++ new ∧
      new.map packet_t.timecode =
        (List.range 3).map (fun i : Nat => 5 + repeat_offset 32000 (i : Int)) ∧
      (new.map packet_t.timecode).Pairwise (fun a b => a < b) ∧
      (List.range 3).map (fun i : Nat => 5 + repeat_offset 32000 (i : Int)) =
        [5, 32000005, 64000005] := by
  obtain ⟨st1, new, h1, h2, -, -, h5⟩ :=
    (same_timecode_calls_get_increasing_timestamps sample_env_without_displacement 0
      sample_headerless_plain 5 [] [[1], [2], [3]] rfl rfl rfl rfl rfl (by decide)
      (by decide)).1
  obtain ⟨h6, h7⟩ := h5 (by decide) (by decide) (by decide)
    (by simp [sample_headerless_plain, aac_packetizer_c.create]; norm_num)
  exact ⟨st1, new, h1, h2, h6, h7, by with_unfolding_all rfl⟩

/-- C9 (counterexample): with `L = 1` and no displacement, (a) at 44100 Hz, of 1515516
consecutive headerless calls that supply the timecode 7, the last one hands over the timestamp
`7 + 35190189569161` (the binary64 quotient is rounded up to an integer), not
`7 + trunc(1515515 * 1024 * 10^9 / 44100) = 7 + 35190189569160`; (b) a call that supplies the
timecode `2^53 + 1` hands over `2^53`, not the supplied value; (c) at the sample rate
2048000000000 Hz (representable in a 64-bit `unsigned long`) two calls that supply the
timecode 5 both hand over the timestamp 5. -/
theorem same_timecode_formula_differs_in_binary64 :
    (∃ (st1 : aac_packetizer_c Unit) (new : List packet_t),
      process_calls sample_env_without_displacement 1 sample_headerless_plain_44100
        ((List.replicate 1515516 []).map (fun m => (m, 7))) = .returned st1 ∧
      st1.packet_queue = new ∧
      (new.map packet_t.timecode)[1515515]? = some (7 + 35190189569161) ∧
      (7 : Int) + to_int64 ((1515515 : ℚ) * 1024 * 1000000000 / 44100) =
        7 + 35190189569160) ∧
    (process sample_env_without_displacement 1 sample_headerless_plain_44100 [1]
        9007199254740993 =
      .returned { sample_headerless_plain_44100 with
        packetno := 1, last_timecode := 9007199254740993,
        packet_queue := [⟨[1], 9007199254740992, 23219954⟩] }) ∧
    (process_calls sample_env_without_displacement 1 sample_headerless_high_rate
        [([1], 5), ([2], 5)] =
      .returned { sample_headerless_high_rate with
        packetno := 2, last_timecode := 5, num_packets_same_tc := 1,
        packet_queue := [⟨[1], 5, 0⟩, ⟨[2], 5, 0⟩] }) := by
  refine ⟨?_, by with_unfolding_all rfl, by with_unfolding_all rfl⟩
  obtain ⟨st1, new, g1, g2, -, g4⟩ :=
    same_timecode_timestamps sample_env_without_displacement 0 sample_headerless_plain_44100 7
      (List.replicate 1515516 []) rfl rfl rfl (by decide) (by decide)
  refine ⟨st1, new, g1, ?_, ?_, by with_unfolding_all rfl⟩
  · rw [g2]
    rfl
  · rw [g4, List.length_replicate, List.getElem?_map, List.getElem?_range (by norm_num)]
    simp only [Option.map_some']
    refine congrArg some ?_
    with_unfolding_all rfl

end Mkvtoolnix
